import Mathlib

/-!
# RandomX interpreted virtual machine

A shallow embedding of `src/InterpretedVirtualMachine.cpp`:
the precompiler (`precompileProgram`), the per-record interpreter
(`executeBytecode`) and the per-nonce loop (`execute`).

Conventions of the embedding.

* Machine integers are natural numbers; every place where the C++ code wraps
  carries an explicit `% 2 ^ 64` (or `% 2 ^ 32`).
* A pointer into a register file is the index of the register it points at;
  `isrc` may also point at the record's own `imm` slot (`IntRef.imm`).
* A packed pair of doubles is a pair of 64-bit patterns.  The IEEE-754 lane
  arithmetic of the hardware is a parameter (`FloatOps`).
* Dereferencing a reference that lies outside its register file, touching the
  scratchpad outside its 2 MiB, or reaching `UNREACHABLE` has no defined
  result: the interpreter returns `none`.
-/

namespace RandomX

/-! ## Constants -/

/-- Modelled from the spec: `RegistersCount = 8` (declared in a header that is not among the sources). -/
def RegistersCount : Nat := 8

/-- Modelled from the spec: `ProgramLength = 256` (declared in a header that is not among the sources). -/
def ProgramLength : Nat := 256

/-- Modelled from the spec: `InstructionCount = 2048` (declared in a header that is not among the sources). -/
def InstructionCount : Nat := 2048

/-- Modelled from the spec: `ScratchpadSize = 2 MiB` (declared in a header that is not among the sources). -/
def ScratchpadSize : Nat := 2097152

/-- Modelled from the spec: `ScratchpadL1Mask = 0x3FF8` (declared in a header that is not among the sources). -/
def ScratchpadL1Mask : Nat := 0x3FF8

/-- Modelled from the spec: `ScratchpadL2Mask = 0x3FFF8` (declared in a header that is not among the sources). -/
def ScratchpadL2Mask : Nat := 0x3FFF8

/-- Modelled from the spec: `ScratchpadL3Mask = 0x1FFFF8` (declared in a header that is not among the sources). -/
def ScratchpadL3Mask : Nat := 0x1FFFF8

/-- Modelled from the spec: `ScratchpadL3Mask64 = 0x1FFFC0` (declared in a header that is not among the sources). -/
def ScratchpadL3Mask64 : Nat := 0x1FFFC0

/-- Modelled from the spec: `CacheLineSize = 64` (declared in a header that is not among the sources). -/
def CacheLineSize : Nat := 64

/-- Modelled from the spec: `CacheLineAlignMask = 0xFFFFFFC0` (declared in a header that is not among the sources). -/
def CacheLineAlignMask : Nat := 0xFFFFFFC0

/-- Modelled from the spec: `DatasetBlockCount = 4 GiB / 64 = 67108864` (declared in a header that is not among the sources). -/
def DatasetBlockCount : Nat := 67108864

/-- The largest 64-bit unsigned value, `UINT64_MAX` of `<cstdint>`. -/
def UINT64_MAX : Nat := 2 ^ 64 - 1

/-- The bit pattern of `DBL_MIN` of `<cfloat>`, the smallest positive normal double. -/
def DBL_MIN : Nat := 0x0010000000000000

/-! ## Data model -/

/-- Modelled from the spec: a raw instruction, `opcode`, `dst`, `src`, `mod` of one byte
each and a 4-byte `imm32` (the class `Instruction` is declared in a header that is not
among the sources). -/
structure Instruction where
  opcode : Nat
  dst : Nat
  src : Nat
  mod : Nat
  imm32 : Nat
  deriving DecidableEq, Repr

/-- The canonical instruction kinds, the labels of the two `switch` statements. -/
inductive InstructionType where
  | IADD_R | IADD_M | IADD_RC | ISUB_R | ISUB_M | IMUL_9C | IMUL_R | IMUL_M
  | IMULH_R | IMULH_M | ISMULH_R | ISMULH_M | IDIV_C | ISDIV_C | INEG_R
  | IXOR_R | IXOR_M | IROR_R | IROL_R | ISWAP_R
  | FSWAP_R | FADD_R | FADD_M | FSUB_R | FSUB_M | FSCAL_R
  | FMUL_R | FMUL_M | FDIV_R | FDIV_M | FSQRT_R
  | COND_R | COND_M | CFROUND | ISTORE | FSTORE | NOP
  deriving DecidableEq, Repr

/-- What an `int_reg_t*` of a dispatch record points at: `&r[i]` or the record's own `imm`. -/
inductive IntRef where
  | reg (i : Nat)
  | imm
  deriving DecidableEq, Repr

/-- The three float register files of `execute`. -/
inductive FloatFile where
  | f | e | a
  deriving DecidableEq, Repr

/-- What a `__m128d*` of a dispatch record points at: entry `idx` of the array `file`. -/
structure FloatRef where
  file : FloatFile
  idx : Nat
  deriving DecidableEq, Repr

/-- The dispatch record `struct InstructionByteCode`.  The union of `unsignedMultiplier`
and `signedMultiplier` is kept as its 64-bit pattern. -/
structure InstructionByteCode where
  idst : Nat
  isrc : IntRef
  imm : Nat
  fdst : FloatRef
  fsrc : FloatRef
  condition : Nat
  memMask : Nat
  type : InstructionType
  signedMultiplier : Nat
  shift : Nat
  preShift : Nat
  postShift : Nat
  increment : Bool
  deriving DecidableEq, Repr

/-- A packed pair of doubles (`__m128d`), as two 64-bit patterns. -/
structure M128d where
  lo : Nat
  hi : Nat
  deriving DecidableEq, Repr

/-- The lane arithmetic of the processor on 64-bit patterns of doubles.  `cvt` converts
the pattern of a signed 32-bit integer (exactly); the arithmetic takes the rounding mode
first; `max` is one lane of `_mm_max_pd`. -/
structure FloatOps where
  cvt : Nat → Nat
  add : Nat → Nat → Nat → Nat
  sub : Nat → Nat → Nat → Nat
  mul : Nat → Nat → Nat → Nat
  div : Nat → Nat → Nat → Nat
  sqrt : Nat → Nat → Nat
  max : Nat → Nat → Nat

/-- What the interpreter reads and writes: the locals `r`, `f`, `e`, `a` of `execute`,
the scratchpad (a byte at every address), the rounding mode of the FPU and the dispatch
buffer `byteCode` of the virtual machine. -/
structure VMState where
  r : Nat → Nat
  f : Nat → M128d
  e : Nat → M128d
  a : Nat → M128d
  scratchpad : Nat → Nat
  roundMode : Nat
  byteCode : Nat → InstructionByteCode

/-! ## Numeric primitives -/

/-- Modelled from the spec: `signExtend2sCompl(x32)`, sign-extend 32 to 64 bits
(defined in `intrinPortable.h`, which is not among the sources). -/
def signExtend2sCompl (x : Nat) : Nat :=
  if x % 2 ^ 32 < 2 ^ 31 then x % 2 ^ 32 else x % 2 ^ 32 + (2 ^ 64 - 2 ^ 32)

/-- Modelled from the spec: `mulh(a,b)`, the high 64 bits of the unsigned 128-bit product
(defined in `intrinPortable.h`, which is not among the sources). -/
def mulh (a b : Nat) : Nat :=
  (a % 2 ^ 64) * (b % 2 ^ 64) / 2 ^ 64

/-- Modelled from the spec: `unsigned64ToSigned2sCompl`, the two's-complement reading of
a 64-bit pattern (defined in `intrinPortable.h`, which is not among the sources). -/
def unsigned64ToSigned2sCompl (x : Nat) : Int :=
  if x % 2 ^ 64 < 2 ^ 63 then ((x % 2 ^ 64 : Nat) : Int) else ((x % 2 ^ 64 : Nat) : Int) - 2 ^ 64

/-- Modelled from the spec: `smulh(a,b)`, the high 64 bits of the signed 128-bit product,
as a 64-bit pattern (defined in `intrinPortable.h`, which is not among the sources). -/
def smulh (a b : Int) : Nat :=
  Int.toNat ((a * b / 2 ^ 64) % 2 ^ 64)

/-- Modelled from the spec: `rotr(x,k) = (x >> k) | (x << (64-k))`, `k` taken modulo 64
(defined in `intrinPortable.h`, which is not among the sources). -/
def rotr (x k : Nat) : Nat :=
  (((x % 2 ^ 64) >>> (k % 64)) ||| ((x % 2 ^ 64) <<< (64 - k % 64))) % 2 ^ 64

/-- Modelled from the spec: `rotl`, symmetric to `rotr`
(defined in `intrinPortable.h`, which is not among the sources). -/
def rotl (x k : Nat) : Nat :=
  (((x % 2 ^ 64) <<< (k % 64)) ||| ((x % 2 ^ 64) >>> (64 - k % 64))) % 2 ^ 64

/-- Modelled from the spec: `_mm_abs(v)`, clear the sign bit of both doubles
(defined in `intrinPortable.h`, which is not among the sources). -/
def _mm_abs (v : M128d) : M128d :=
  { lo := v.lo &&& 0x7FFFFFFFFFFFFFFF, hi := v.hi &&& 0x7FFFFFFFFFFFFFFF }

/-- Lane-wise application of a binary lane operation. -/
def M128d.map2 (op : Nat → Nat → Nat) (x y : M128d) : M128d :=
  { lo := op x.lo y.lo, hi := op x.hi y.hi }

/-- Lane-wise application of a unary lane operation. -/
def M128d.map (op : Nat → Nat) (x : M128d) : M128d :=
  { lo := op x.lo, hi := op x.hi }

/-- The intrinsic `_mm_shuffle_pd(x, y, 1)`: low lane from the high lane of `x`, high
lane from the low lane of `y`. -/
def _mm_shuffle_pd_1 (x y : M128d) : M128d :=
  { lo := x.hi, hi := y.lo }

/-- The intrinsic `_mm_xor_pd`. -/
def _mm_xor_pd (x y : M128d) : M128d :=
  { lo := x.lo ^^^ y.lo, hi := x.hi ^^^ y.hi }

/-- The intrinsic `_mm_set1_epi64x` followed by `_mm_castsi128_pd`. -/
def _mm_set1_epi64x (v : Nat) : M128d :=
  { lo := v, hi := v }

/-! ## Doubles as bit patterns -/

/-- The pattern is a NaN of IEEE-754 binary64: its magnitude lies above the pattern of
infinity (exponent field all ones, fraction not zero). -/
def isNaN (x : Nat) : Bool :=
  decide (0x7FF0000000000000 < x % 2 ^ 63)

/-- The order key of a binary64 pattern: its magnitude bits, negated when the sign bit is
set.  Doubles that are no NaN compare as their keys; both zeros have key `0`. -/
def doubleKey (x : Nat) : Int :=
  if x % 2 ^ 64 < 2 ^ 63 then ((x % 2 ^ 63 : Nat) : Int) else -((x % 2 ^ 63 : Nat) : Int)

/-- The comparison `a > b` of two doubles given by their patterns; false when one is NaN. -/
def doubleGt (a b : Nat) : Bool :=
  !isNaN a && !isNaN b && decide (doubleKey b < doubleKey a)

/-- The comparison `a >= b` of two doubles given by their patterns; false when one is NaN. -/
def doubleGe (a b : Nat) : Bool :=
  !isNaN a && !isNaN b && decide (doubleKey b ≤ doubleKey a)

/-- One lane of the instruction behind `_mm_max_pd(a, b)`: `a` when `a > b`, and the
second operand `b` otherwise, in particular when one of the two is NaN. -/
def maxpdLane (a b : Nat) : Nat :=
  if doubleGt a b then a else b

/-- Modelled from the spec: the lane conversion of `load_cvt_i32x2`, "convert each to f64
exactly" (defined in `intrinPortable.h`, which is not among the sources): the binary64
pattern of the signed 32-bit integer with pattern `x`.  Zero gives `+0.0`; otherwise the
sign, the biased exponent `1023 + floor(log2 |n|)` and the fraction bits of `|n|`, which
fit the 52-bit fraction field. -/
def cvt_i32_f64 (x : Nat) : Nat :=
  let n := x % 2 ^ 32
  if n = 0 then 0
  else
    let sign := if n < 2 ^ 31 then 0 else 1
    let mag := if n < 2 ^ 31 then n else 2 ^ 32 - n
    let k := Nat.log2 mag
    sign * 2 ^ 63 + (1023 + k) * 2 ^ 52 + (mag - 2 ^ k) * 2 ^ (52 - k)

/-! ## Scratchpad -/

/-- Little-endian value of the `n` bytes at `p`. -/
def loadLE (sp : Nat → Nat) (p : Nat) : Nat → Nat
  | 0 => 0
  | n + 1 => sp p % 256 + 256 * loadLE sp (p + 1) n

/-- Modelled from the spec: `load64(p)`, an unaligned little-endian 8-byte load
(defined in `intrinPortable.h`, which is not among the sources). -/
def load64 (sp : Nat → Nat) (p : Nat) : Nat :=
  loadLE sp p 8

/-- Modelled from the spec: `store64(p,v)`, an unaligned little-endian 8-byte store
(defined in `intrinPortable.h`, which is not among the sources). -/
def store64 (sp : Nat → Nat) (p v : Nat) : Nat → Nat :=
  fun q => if p ≤ q ∧ q < p + 8 then (v >>> (8 * (q - p))) % 256 else sp q

/-- Modelled from the spec: `load_cvt_i32x2(p)`, read 8 bytes as two little-endian i32s
and convert each to a double (defined in `intrinPortable.h`, which is not among the
sources). -/
def load_cvt_i32x2 (fo : FloatOps) (sp : Nat → Nat) (p : Nat) : M128d :=
  { lo := fo.cvt (loadLE sp p 4), hi := fo.cvt (loadLE sp (p + 4) 4) }

/-- The intrinsic `_mm_store_pd`: the two lanes, low lane first. -/
def _mm_store_pd (sp : Nat → Nat) (p : Nat) (v : M128d) : Nat → Nat :=
  store64 (store64 sp p v.lo) (p + 8) v.hi

/-- The 8 bytes at `p` lie inside the scratchpad. -/
def inScratchpad (p : Nat) : Bool :=
  decide (p + 8 ≤ ScratchpadSize)

/-! ## Division by a constant -/

/-- The result of `compute_unsigned_magic_info`. -/
structure magicu_info where
  multiplier : Nat
  pre_shift : Nat
  post_shift : Nat
  increment : Nat
  deriving DecidableEq, Repr

/-- The bit-counting loop `for (tmp = D; tmp > 0; tmp >>= 1) ceil_log_2_D += 1`. -/
def countBits (tmp acc : Nat) : Nat :=
  if h : tmp > 0 then countBits (tmp / 2) (acc + 1) else acc
termination_by tmp
decreasing_by exact Nat.div_lt_self h (by decide)

/-- The variables of the exponent loop of `compute_unsigned_magic_info`. -/
structure MagicLoopState where
  exponent : Nat
  quotient : Nat
  remainder : Nat
  has_magic_down : Bool
  down_multiplier : Nat
  down_exponent : Nat
  deriving DecidableEq, Repr

/-- The loop `for (exponent = 0; ; exponent++)` of the magic-number routine, from the
state at the top of the body for the current `exponent` to the state at the `break`. -/
def magicLoop (D extra_shift ceil_log_2_D : Nat) (s : MagicLoopState) : MagicLoopState :=
  let quotient := if s.remainder ≥ D - s.remainder then (s.quotient * 2 + 1) % 2 ^ 64
    else (s.quotient * 2) % 2 ^ 64
  let remainder := if s.remainder ≥ D - s.remainder then s.remainder * 2 - D
    else s.remainder * 2
  if s.exponent + extra_shift ≥ ceil_log_2_D
      ∨ D - remainder ≤ 1 <<< (s.exponent + extra_shift) then
    { s with quotient := quotient, remainder := remainder }
  else if !s.has_magic_down ∧ remainder ≤ 1 <<< (s.exponent + extra_shift) then
    magicLoop D extra_shift ceil_log_2_D
      { exponent := s.exponent + 1, quotient := quotient, remainder := remainder,
        has_magic_down := true, down_multiplier := quotient, down_exponent := s.exponent }
  else
    magicLoop D extra_shift ceil_log_2_D
      { s with exponent := s.exponent + 1, quotient := quotient, remainder := remainder }
termination_by ceil_log_2_D - (s.exponent + extra_shift)
decreasing_by
  all_goals simp_wf
  all_goals omega

/-- The loop `while ((shifted_D & 1) == 0) { shifted_D >>= 1; pre_shift += 1; }`; it is
entered with a non-zero divisor only. -/
def shiftOutTwos (shifted_D pre_shift : Nat) : Nat × Nat :=
  if h : shifted_D % 2 = 0 ∧ shifted_D ≠ 0 then shiftOutTwos (shifted_D / 2) (pre_shift + 1)
  else (shifted_D, pre_shift)
termination_by shifted_D
decreasing_by exact Nat.div_lt_self (Nat.pos_of_ne_zero h.2) (by decide)

/-- The part of `compute_unsigned_magic_info` before its self-call: the exponent loop
for divisor `D` and a numerator of `num_bits` bits, in a 64-bit `uint`. -/
def magicSearch (D num_bits : Nat) : MagicLoopState :=
  let extra_shift := 64 - num_bits
  let initial_power_of_2 := 1 <<< 63
  magicLoop D extra_shift (countBits D 0)
    { exponent := 0, quotient := initial_power_of_2 / D, remainder := initial_power_of_2 % D,
      has_magic_down := false, down_multiplier := 0, down_exponent := 0 }

/-- Modelled from the spec: `compute_unsigned_magic_info(D, num_bits)`, "standard
unsigned-magic division" with the `(M, pre, post, inc)` output
(`divideByConstantCodegen.c` is not among the sources).  This is the standard routine:
double quotient and remainder of a power of two by `D` until the round-up multiplier
works; when that needs more than 64 bits use the round-down multiplier with increment
for an odd divisor, and shift the factors of two out of an even divisor first.  The
routine calls itself on the odd part of an even divisor; an odd divisor never reaches
the self-call, so the call is written out once. -/
def compute_unsigned_magic_info (D num_bits : Nat) : magicu_info :=
  let s := magicSearch D num_bits
  if s.exponent < countBits D 0 then
    { multiplier := (s.quotient + 1) % 2 ^ 64, pre_shift := 0, post_shift := s.exponent,
      increment := 0 }
  else if D % 2 = 1 then
    { multiplier := s.down_multiplier, pre_shift := 0, post_shift := s.down_exponent,
      increment := 1 }
  else
    let sh := shiftOutTwos D 0
    let s2 := magicSearch sh.1 (num_bits - sh.2)
    let result : magicu_info :=
      if s2.exponent < countBits sh.1 0 then
        { multiplier := (s2.quotient + 1) % 2 ^ 64, pre_shift := 0, post_shift := s2.exponent,
          increment := 0 }
      else
        { multiplier := s2.down_multiplier, pre_shift := 0, post_shift := s2.down_exponent,
          increment := 1 }
    { result with pre_shift := sh.2 }

/-! ## Program -/

/-- The loop of `initialize`, lines 70-73, over the first `n` instructions:
`program(i).src %= RegistersCount; program(i).dst %= RegistersCount`.  The call
`VirtualMachine::initialize()` that precedes it is not among the sources. -/
def initializeLoop (program : Nat → Instruction) : Nat → (Nat → Instruction)
  | 0 => program
  | n + 1 =>
    let done := initializeLoop program n
    Function.update done n
      { done n with src := (done n).src % RegistersCount, dst := (done n).dst % RegistersCount }

/-- The register reduction of the method `initialize`: every slot
`0 .. ProgramLength - 1` in turn. -/
def initializeProgram (program : Nat → Instruction) : Nat → Instruction :=
  initializeLoop program ProgramLength

/-! ## Precompiler -/

/-- The loop `while (divisor >>= 1) ++shift` of the `IDIV_C` case. -/
def shiftLoop (divisor shift : Nat) : Nat :=
  if h : divisor / 2 ≠ 0 then shiftLoop (divisor / 2) (shift + 1) else shift
termination_by divisor
decreasing_by
  have : divisor ≠ 0 := by
    intro h0
    apply h
    simp [h0]
  exact Nat.div_lt_self (Nat.pos_of_ne_zero this) (by decide)

/-- The choice `(instr.mod % 4) ? ScratchpadL1Mask : ScratchpadL2Mask`. -/
def levelMask (instr : Instruction) : Nat :=
  if instr.mod % 4 ≠ 0 then ScratchpadL1Mask else ScratchpadL2Mask

/-- The body shared by the cases `IADD_R`, `ISUB_R`, `IMUL_R`, `IXOR_R`: the source is
`r[src]`, or the sign-extended immediate when the reduced indices coincide. -/
def precompileRegSigned (t : InstructionType) (instr : Instruction)
    (ibc : InstructionByteCode) : InstructionByteCode :=
  let dst := instr.dst % RegistersCount
  let src := instr.src % RegistersCount
  let ibc := { ibc with type := t, idst := dst }
  if src ≠ dst then
    { ibc with isrc := IntRef.reg src }
  else
    { ibc with imm := signExtend2sCompl instr.imm32, isrc := IntRef.imm }

/-- The body shared by the cases `IROR_R`, `IROL_R`: as above, but the immediate is
`instr.imm32` itself. -/
def precompileRegRotate (t : InstructionType) (instr : Instruction)
    (ibc : InstructionByteCode) : InstructionByteCode :=
  let dst := instr.dst % RegistersCount
  let src := instr.src % RegistersCount
  let ibc := { ibc with type := t, idst := dst }
  if src ≠ dst then
    { ibc with isrc := IntRef.reg src }
  else
    { ibc with imm := instr.imm32 % 2 ^ 32, isrc := IntRef.imm }

/-- The body shared by the cases `IADD_M`, `ISUB_M`, `IMUL_M`, `IMULH_M`, `ISMULH_M`,
`IXOR_M`; the test is on the instruction bytes, `instr.src != instr.dst`. -/
def precompileMem (t : InstructionType) (instr : Instruction)
    (ibc : InstructionByteCode) : InstructionByteCode :=
  let dst := instr.dst % RegistersCount
  let src := instr.src % RegistersCount
  let ibc := { ibc with type := t, idst := dst }
  if instr.src ≠ instr.dst then
    { ibc with isrc := IntRef.reg src, memMask := levelMask instr }
  else
    { ibc with imm := instr.imm32 % 2 ^ 32, isrc := IntRef.imm, memMask := ScratchpadL3Mask }

/-- The case `IDIV_C` of `precompileProgram`. -/
def precompileDiv (instr : Instruction) (ibc : InstructionByteCode) : InstructionByteCode :=
  let divisor := instr.imm32 % 2 ^ 32
  if divisor ≠ 0 then
    let dst := instr.dst % RegistersCount
    let ibc := { ibc with type := InstructionType.IDIV_C, idst := dst }
    if divisor &&& (divisor - 1) ≠ 0 then
      let mi := compute_unsigned_magic_info divisor 64
      { ibc with signedMultiplier := mi.multiplier, preShift := mi.pre_shift,
                 postShift := mi.post_shift, increment := decide (mi.increment ≠ 0) }
    else
      { ibc with signedMultiplier := 0, shift := shiftLoop divisor 0 }
  else
    { ibc with type := InstructionType.NOP }

/-- One iteration of the loop of `precompileProgram`: the record `ibc` of a slot after
the `switch` on the kind `t` that the opcode of `instr` decodes to.  A field that the
case does not assign keeps the value it had. -/
def precompileInstruction (t : InstructionType) (instr : Instruction)
    (ibc : InstructionByteCode) : InstructionByteCode :=
  match t with
  | .IADD_R => precompileRegSigned .IADD_R instr ibc
  | .IADD_M => precompileMem .IADD_M instr ibc
  | .IADD_RC =>
    { ibc with type := .IADD_RC, idst := instr.dst % RegistersCount,
               isrc := IntRef.reg (instr.src % RegistersCount),
               imm := signExtend2sCompl instr.imm32 }
  | .ISUB_R => precompileRegSigned .ISUB_R instr ibc
  | .ISUB_M => precompileMem .ISUB_M instr ibc
  | .IMUL_9C =>
    { ibc with type := .IMUL_9C, idst := instr.dst % RegistersCount,
               imm := signExtend2sCompl instr.imm32 }
  | .IMUL_R => precompileRegSigned .IMUL_R instr ibc
  | .IMUL_M => precompileMem .IMUL_M instr ibc
  | .IMULH_R =>
    { ibc with type := .IMULH_R, idst := instr.dst % RegistersCount,
               isrc := IntRef.reg (instr.src % RegistersCount) }
  | .IMULH_M => precompileMem .IMULH_M instr ibc
  | .ISMULH_R =>
    { ibc with type := .ISMULH_R, idst := instr.dst % RegistersCount,
               isrc := IntRef.reg (instr.src % RegistersCount) }
  | .ISMULH_M => precompileMem .ISMULH_M instr ibc
  | .IDIV_C => precompileDiv instr ibc
  | .ISDIV_C => { ibc with type := .NOP }
  | .INEG_R => { ibc with type := .INEG_R, idst := instr.dst % RegistersCount }
  | .IXOR_R => precompileRegSigned .IXOR_R instr ibc
  | .IXOR_M => precompileMem .IXOR_M instr ibc
  | .IROR_R => precompileRegRotate .IROR_R instr ibc
  | .IROL_R => precompileRegRotate .IROL_R instr ibc
  | .ISWAP_R =>
    let dst := instr.dst % RegistersCount
    let src := instr.src % RegistersCount
    if src ≠ dst then
      { ibc with idst := dst, isrc := IntRef.reg src, type := .ISWAP_R }
    else
      { ibc with type := .NOP }
  | .FSWAP_R =>
    { ibc with type := .FSWAP_R, fdst := ⟨FloatFile.f, instr.dst % RegistersCount⟩ }
  | .FADD_R =>
    { ibc with type := .FADD_R, fdst := ⟨FloatFile.f, instr.dst % 4⟩,
               fsrc := ⟨FloatFile.a, instr.src % 4⟩ }
  | .FADD_M =>
    { ibc with type := .FADD_M, fdst := ⟨FloatFile.f, instr.dst % 4⟩,
               isrc := IntRef.reg (instr.src % 8), memMask := levelMask instr }
  | .FSUB_R =>
    { ibc with type := .FSUB_R, fdst := ⟨FloatFile.f, instr.dst % 4⟩,
               fsrc := ⟨FloatFile.a, instr.src % 4⟩ }
  | .FSUB_M =>
    { ibc with type := .FSUB_M, fdst := ⟨FloatFile.f, instr.dst % 4⟩,
               isrc := IntRef.reg (instr.src % 8), memMask := levelMask instr }
  | .FSCAL_R => { ibc with fdst := ⟨FloatFile.f, instr.dst % 4⟩, type := .FSCAL_R }
  | .FMUL_R =>
    { ibc with type := .FMUL_R, fdst := ⟨FloatFile.e, instr.dst % 4⟩,
               fsrc := ⟨FloatFile.a, instr.src % 4⟩ }
  | .FMUL_M => ibc
  | .FDIV_R => ibc
  | .FDIV_M =>
    { ibc with type := .FDIV_M, fdst := ⟨FloatFile.e, instr.dst % 4⟩,
               isrc := IntRef.reg (instr.src % 8), memMask := levelMask instr }
  | .FSQRT_R => { ibc with type := .FSQRT_R, fdst := ⟨FloatFile.e, instr.dst % 4⟩ }
  | .COND_R =>
    { ibc with type := .COND_R, idst := instr.dst % RegistersCount,
               isrc := IntRef.reg (instr.src % RegistersCount),
               condition := (instr.mod >>> 2) &&& 7, imm := instr.imm32 % 2 ^ 32 }
  | .COND_M =>
    { ibc with type := .COND_M, idst := instr.dst % RegistersCount,
               isrc := IntRef.reg (instr.src % RegistersCount),
               condition := (instr.mod >>> 2) &&& 7, imm := instr.imm32 % 2 ^ 32,
               memMask := levelMask instr }
  | .CFROUND =>
    { ibc with isrc := IntRef.reg (instr.src % 8), type := .CFROUND,
               imm := (instr.imm32 % 2 ^ 32) &&& 63 }
  | .ISTORE =>
    { ibc with type := .ISTORE, idst := instr.dst % RegistersCount,
               isrc := IntRef.reg (instr.src % RegistersCount) }
  | .FSTORE => ibc
  | .NOP => { ibc with type := .NOP }

/-- The loop `for (i = 0; i < n; ++i)` of `precompileProgram` over the dispatch buffer.
The map `decode` from opcode bytes to kinds stands for the case labels that `CASE_REP`
generates from the weight table of `instructionWeights.hpp` (not among the sources). -/
def precompileLoop (decode : Nat → InstructionType) (program : Nat → Instruction) :
    Nat → (Nat → InstructionByteCode) → (Nat → InstructionByteCode)
  | 0, byteCode => byteCode
  | n + 1, byteCode =>
    let done := precompileLoop decode program n byteCode
    Function.update done n
      (precompileInstruction (decode (program n).opcode) (program n) (done n))

/-- The method `precompileProgram`: every slot `0 .. ProgramLength - 1` in turn. -/
def precompileProgram (decode : Nat → InstructionType) (program : Nat → Instruction)
    (byteCode : Nat → InstructionByteCode) : Nat → InstructionByteCode :=
  precompileLoop decode program ProgramLength byteCode

/-! ## Interpreter -/

/-- The value `*p` of an integer reference of record `ibc`. -/
def readInt (st : VMState) (ibc : InstructionByteCode) : IntRef → Option Nat
  | IntRef.reg i => if i < RegistersCount then some (st.r i) else none
  | IntRef.imm => some ibc.imm

/-- The value `*ibc.idst`. -/
def readDst (st : VMState) (ibc : InstructionByteCode) : Option Nat :=
  if ibc.idst < RegistersCount then some (st.r ibc.idst) else none

/-- The assignment `*ibc.idst = v`. -/
def writeDst (st : VMState) (ibc : InstructionByteCode) (v : Nat) : Option VMState :=
  if ibc.idst < RegistersCount then some { st with r := Function.update st.r ibc.idst v }
  else none

/-- The value `*p` of a float reference. -/
def readFloat (st : VMState) (p : FloatRef) : Option M128d :=
  if p.idx < 4 then
    some (match p.file with
      | FloatFile.f => st.f p.idx
      | FloatFile.e => st.e p.idx
      | FloatFile.a => st.a p.idx)
  else none

/-- The assignment `*p = v` through a float reference. -/
def writeFloat (st : VMState) (p : FloatRef) (v : M128d) : Option VMState :=
  if p.idx < 4 then
    some (match p.file with
      | FloatFile.f => { st with f := Function.update st.f p.idx v }
      | FloatFile.e => { st with e := Function.update st.e p.idx v }
      | FloatFile.a => { st with a := Function.update st.a p.idx v })
  else none

/-- The address `*ibc.isrc & ibc.memMask` of a memory operand, when its 8 bytes lie in
the scratchpad. -/
def memAddress (st : VMState) (ibc : InstructionByteCode) : Option Nat :=
  (readInt st ibc ibc.isrc).bind fun s =>
    let p := (s % 2 ^ 64) &&& (ibc.memMask % 2 ^ 32)
    if inScratchpad p then some p else none

/-- The operand `load64(scratchpad + (*ibc.isrc & ibc.memMask))`. -/
def loadOperand (st : VMState) (ibc : InstructionByteCode) : Option Nat :=
  (memAddress st ibc).map fun p => load64 st.scratchpad p

/-- The operand `load_cvt_i32x2(scratchpad + (*ibc.isrc & ibc.memMask))`. -/
def loadFloatOperand (fo : FloatOps) (st : VMState) (ibc : InstructionByteCode) :
    Option M128d :=
  (memAddress st ibc).map fun p => load_cvt_i32x2 fo st.scratchpad p

/-- The statement `*ibc.idst = op(*ibc.idst, s)` for an integer operation. -/
def intOp (st : VMState) (ibc : InstructionByteCode) (s : Option Nat)
    (op : Nat → Nat → Nat) : Option VMState :=
  (readDst st ibc).bind fun d => s.bind fun v => writeDst st ibc (op d v)

/-- The statement `*ibc.fdst = op(*ibc.fdst, s)` for a lane-wise float operation. -/
def floatOp (st : VMState) (ibc : InstructionByteCode) (s : Option M128d)
    (op : Nat → Nat → Nat) : Option VMState :=
  (readFloat st ibc.fdst).bind fun d => s.bind fun v =>
    writeFloat st ibc.fdst (M128d.map2 op d v)

/-- The quotient that the case `IDIV_C` adds to the destination whose value is `dividend`. -/
def idivQuotient (ibc : InstructionByteCode) (dividend : Nat) : Nat :=
  if ibc.signedMultiplier ≠ 0 then
    let quotient := (dividend % 2 ^ 64) >>> ibc.preShift
    let quotient :=
      if ibc.increment then (if quotient = UINT64_MAX then UINT64_MAX else quotient + 1)
      else quotient
    let quotient := mulh quotient ibc.signedMultiplier
    quotient >>> ibc.postShift
  else
    (dividend % 2 ^ 64) >>> ibc.shift

/-- The method `executeBytecode(i, r, f, e, a)`: the effect of dispatch record `i`.
The predicate `condition` of `COND_R` and `COND_M` is defined outside the sources and is
a parameter. -/
def executeBytecode (fo : FloatOps) (condition : Nat → Nat → Nat → Bool) (i : Nat)
    (st : VMState) : Option VMState :=
  let ibc := st.byteCode i
  match ibc.type with
  | .IADD_R => intOp st ibc (readInt st ibc ibc.isrc) fun d s => (d + s) % 2 ^ 64
  | .IADD_M => intOp st ibc (loadOperand st ibc) fun d s => (d + s) % 2 ^ 64
  | .IADD_RC =>
    intOp st ibc (readInt st ibc ibc.isrc) fun d s => (d + (s + ibc.imm) % 2 ^ 64) % 2 ^ 64
  | .ISUB_R =>
    intOp st ibc (readInt st ibc ibc.isrc) fun d s => (d % 2 ^ 64 + (2 ^ 64 - s % 2 ^ 64)) % 2 ^ 64
  | .ISUB_M =>
    intOp st ibc (loadOperand st ibc) fun d s => (d % 2 ^ 64 + (2 ^ 64 - s % 2 ^ 64)) % 2 ^ 64
  | .IMUL_9C =>
    (readDst st ibc).bind fun d => writeDst st ibc ((d + (9 * d + ibc.imm) % 2 ^ 64) % 2 ^ 64)
  | .IMUL_R => intOp st ibc (readInt st ibc ibc.isrc) fun d s => (d * s) % 2 ^ 64
  | .IMUL_M => intOp st ibc (loadOperand st ibc) fun d s => (d * s) % 2 ^ 64
  | .IMULH_R => intOp st ibc (readInt st ibc ibc.isrc) fun d s => mulh d s
  | .IMULH_M => intOp st ibc (loadOperand st ibc) fun d s => mulh d s
  | .ISMULH_R =>
    intOp st ibc (readInt st ibc ibc.isrc) fun d s =>
      smulh (unsigned64ToSigned2sCompl d) (unsigned64ToSigned2sCompl s)
  | .ISMULH_M =>
    intOp st ibc (loadOperand st ibc) fun d s =>
      smulh (unsigned64ToSigned2sCompl d) (unsigned64ToSigned2sCompl s)
  | .IDIV_C =>
    (readDst st ibc).bind fun d => writeDst st ibc ((d + idivQuotient ibc d) % 2 ^ 64)
  | .ISDIV_C => some st
  | .INEG_R =>
    (readDst st ibc).bind fun d => writeDst st ibc ((UINT64_MAX - d % 2 ^ 64 + 1) % 2 ^ 64)
  | .IXOR_R => intOp st ibc (readInt st ibc ibc.isrc) fun d s => d ^^^ s
  | .IXOR_M => intOp st ibc (loadOperand st ibc) fun d s => d ^^^ s
  | .IROR_R => intOp st ibc (readInt st ibc ibc.isrc) fun d s => rotr d (s &&& 63)
  | .IROL_R => intOp st ibc (readInt st ibc ibc.isrc) fun d s => rotl d (s &&& 63)
  | .ISWAP_R =>
    (readInt st ibc ibc.isrc).bind fun temp =>
      (readDst st ibc).bind fun d =>
        let st1 : Option VMState :=
          match ibc.isrc with
          | IntRef.reg j =>
            if j < RegistersCount then some { st with r := Function.update st.r j d } else none
          | IntRef.imm =>
            some { st with byteCode := Function.update st.byteCode i { ibc with imm := d } }
        st1.bind fun st1 => writeDst st1 ibc temp
  | .FSWAP_R =>
    (readFloat st ibc.fdst).bind fun d => writeFloat st ibc.fdst (_mm_shuffle_pd_1 d d)
  | .FADD_R => floatOp st ibc (readFloat st ibc.fsrc) (fo.add st.roundMode)
  | .FADD_M => floatOp st ibc (loadFloatOperand fo st ibc) (fo.add st.roundMode)
  | .FSUB_R => floatOp st ibc (readFloat st ibc.fsrc) (fo.sub st.roundMode)
  | .FSUB_M => floatOp st ibc (loadFloatOperand fo st ibc) (fo.sub st.roundMode)
  | .FSCAL_R =>
    let signMask := _mm_set1_epi64x 0x81F0000000000000
    (readFloat st ibc.fdst).bind fun d => writeFloat st ibc.fdst (_mm_xor_pd d signMask)
  | .FMUL_R => floatOp st ibc (readFloat st ibc.fsrc) (fo.mul st.roundMode)
  | .FDIV_M =>
    (loadFloatOperand fo st ibc).bind fun fsrc =>
      (readFloat st ibc.fdst).bind fun d =>
        let fdst := M128d.map2 (fo.div st.roundMode) d fsrc
        writeFloat st ibc.fdst (M128d.map2 fo.max fdst { lo := DBL_MIN, hi := DBL_MIN })
  | .FSQRT_R =>
    (readFloat st ibc.fdst).bind fun d =>
      writeFloat st ibc.fdst (M128d.map (fo.sqrt st.roundMode) d)
  | .COND_R =>
    intOp st ibc (readInt st ibc ibc.isrc) fun d s =>
      (d + (if condition s ibc.imm ibc.condition then 1 else 0)) % 2 ^ 64
  | .COND_M =>
    intOp st ibc (loadOperand st ibc) fun d s =>
      (d + (if condition s ibc.imm ibc.condition then 1 else 0)) % 2 ^ 64
  | .CFROUND =>
    (readInt st ibc ibc.isrc).map fun s => { st with roundMode := rotr s ibc.imm % 4 }
  | .ISTORE =>
    (readDst st ibc).bind fun d =>
      (readInt st ibc ibc.isrc).bind fun s =>
        let p := (d % 2 ^ 64) &&& (ibc.memMask % 2 ^ 32)
        if inScratchpad p then some { st with scratchpad := store64 st.scratchpad p s }
        else none
  | .NOP => some st
  | .FMUL_M => none
  | .FDIV_R => none
  | .FSTORE => none

/-- The template recursion `executeBytecode<N>`: record `N`, then `executeBytecode<N + 1>`,
down to the empty specialisation `executeBytecode<ProgramLength>`.  The argument `k` is
the number of records still to run, `ProgramLength - N`. -/
def executeBytecodeFrom (fo : FloatOps) (condition : Nat → Nat → Nat → Bool) :
    Nat → Nat → VMState → Option VMState
  | 0, _, st => some st
  | k + 1, N, st =>
    (executeBytecode fo condition N st).bind fun st1 =>
      executeBytecodeFrom fo condition k (N + 1) st1

/-- The call `executeBytecode<0>(r, f, e, a)`. -/
def executeBytecodeAll (fo : FloatOps) (condition : Nat → Nat → Nat → Bool)
    (st : VMState) : Option VMState :=
  executeBytecodeFrom fo condition ProgramLength 0 st

/-- The plain loop that the spec describes for a reimplementation: the single-record
step folded over `i = 0 .. ProgramLength - 1`.  It follows the spec's words and is what
the template recursion `executeBytecodeAll` is compared with. -/
def executeBytecodePlainLoop (fo : FloatOps) (condition : Nat → Nat → Nat → Bool)
    (st : VMState) : Option VMState :=
  (List.range ProgramLength).foldlM (fun s i => executeBytecode fo condition i s) st

/-- The template recursion `executeBytecode<N>` on a machine where a record that the
source leaves without a defined effect (a reference outside its register file, an
address outside the scratchpad, a kind without a case) has the effect `undef N`.  What
the compiled code does at such a record is not fixed by the source; `undef` ranges over
every effect that stays inside the machine state.  Where `executeBytecode` is defined,
the step is that of `executeBytecode`. -/
def executeBytecodeFromOr (fo : FloatOps) (condition : Nat → Nat → Nat → Bool)
    (undef : Nat → VMState → VMState) : Nat → Nat → VMState → VMState
  | 0, _, st => st
  | k + 1, N, st =>
    executeBytecodeFromOr fo condition undef k (N + 1)
      ((executeBytecode fo condition N st).getD (undef N st))

/-- The call `executeBytecode<0>(r, f, e, a)` on such a machine. -/
def executeBytecodeAllOr (fo : FloatOps) (condition : Nat → Nat → Nat → Bool)
    (undef : Nat → VMState → VMState) (st : VMState) : VMState :=
  executeBytecodeFromOr fo condition undef ProgramLength 0 st

/-! ## Per-nonce loop -/

/-- The loop `for (i = 0; i < RegistersCount; ++i) r[i] ^= datasetLine[i]`. -/
def xorLine (r datasetLine : Nat → Nat) : Nat → Nat :=
  fun i => if i < RegistersCount then r i ^^^ datasetLine i else r i

/-- What the dataset step of an iteration reads and writes: `r`, `mem.ma`, `mem.mx`. -/
structure MixState where
  r : Nat → Nat
  ma : Nat
  mx : Nat

/-- The branch `if (asyncWorker)` of `execute`, lines 295-302; `getBlock ma` is the line
that `aw->getBlock(mem.ma)` returns.  The request `prepareBlock` changes nothing here. -/
def datasetMixAsync (getBlock : Nat → Nat → Nat) (readReg2 readReg3 : Nat)
    (s : MixState) : MixState :=
  let datasetLine := getBlock s.ma
  let r := xorLine s.r datasetLine
  let mx := (s.mx ^^^ (r readReg2 ^^^ r readReg3)) % 2 ^ 32
  let mx := mx &&& CacheLineAlignMask
  { r := r, ma := mx, mx := s.ma }

/-- The branch `else` of `execute`, lines 305-312; `initBlock b` is the line that
`initBlock` writes for block number `b`. -/
def datasetMixSync (initBlock : Nat → Nat → Nat) (readReg2 readReg3 : Nat)
    (s : MixState) : MixState :=
  let mx := (s.mx ^^^ (s.r readReg2 ^^^ s.r readReg3)) % 2 ^ 32
  let mx := mx &&& CacheLineAlignMask
  let datasetLine := initBlock (s.ma / CacheLineSize)
  let r := xorLine s.r datasetLine
  { r := r, ma := mx, mx := s.ma }

/-- The members of the virtual machine that `execute` only reads, and the two ways to
obtain a dataset line. -/
structure ExecConfig where
  readReg0 : Nat
  readReg1 : Nat
  readReg2 : Nat
  readReg3 : Nat
  asyncWorker : Bool
  getBlock : Nat → Nat → Nat
  initBlock : Nat → Nat → Nat

/-- The variables that the loop of `execute` carries from one iteration to the next. -/
structure ExecState where
  vm : VMState
  ma : Nat
  mx : Nat
  spAddr0 : Nat
  spAddr1 : Nat

/-- The eight statements `r[k] ^= load64(scratchpad + spAddr0 + 8 * k)`. -/
def xorBlock (sp : Nat → Nat) (spAddr0 : Nat) (r : Nat → Nat) : Nat → Nat :=
  fun k => if k < 8 then r k ^^^ load64 sp (spAddr0 + 8 * k) else r k

/-- The four statements `f[k] = load_cvt_i32x2(scratchpad + spAddr1 + 8 * k)`. -/
def loadF (fo : FloatOps) (sp : Nat → Nat) (spAddr1 : Nat) (f : Nat → M128d) : Nat → M128d :=
  fun k => if k < 4 then load_cvt_i32x2 fo sp (spAddr1 + 8 * k) else f k

/-- The four statements `e[k] = _mm_abs(load_cvt_i32x2(scratchpad + spAddr1 + 32 + 8 * k))`. -/
def loadE (fo : FloatOps) (sp : Nat → Nat) (spAddr1 : Nat) (e : Nat → M128d) : Nat → M128d :=
  fun k => if k < 4 then _mm_abs (load_cvt_i32x2 fo sp (spAddr1 + 32 + 8 * k)) else e k

/-- The statements `store64(scratchpad + spAddr1 + 8 * k, r[k])` for `k = 0 .. n - 1`. -/
def storeR (spAddr1 : Nat) (r : Nat → Nat) : Nat → (Nat → Nat) → (Nat → Nat)
  | 0, sp => sp
  | n + 1, sp => store64 (storeR spAddr1 r n sp) (spAddr1 + 8 * n) (r n)

/-- The statements `_mm_store_pd(scratchpad + spAddr0 + 16 * k, _mm_mul_pd(f[k], e[k]))`
for `k = 0 .. n - 1`. -/
def storeFE (fo : FloatOps) (rm spAddr0 : Nat) (f e : Nat → M128d) :
    Nat → (Nat → Nat) → (Nat → Nat)
  | 0, sp => sp
  | n + 1, sp =>
    _mm_store_pd (storeFE fo rm spAddr0 f e n sp) (spAddr0 + 16 * n)
      (M128d.map2 (fo.mul rm) (f n) (e n))

/-- The body of the loop of `execute`, lines 267-330. -/
def executeIteration (fo : FloatOps) (condition : Nat → Nat → Nat → Bool) (cfg : ExecConfig)
    (s : ExecState) : Option ExecState :=
  let spAddr0 := ((s.spAddr0 ^^^ s.vm.r cfg.readReg0) % 2 ^ 32) &&& ScratchpadL3Mask64
  let r := xorBlock s.vm.scratchpad spAddr0 s.vm.r
  let spAddr1 := ((s.spAddr1 ^^^ r cfg.readReg1) % 2 ^ 32) &&& ScratchpadL3Mask64
  let f := loadF fo s.vm.scratchpad spAddr1 s.vm.f
  let e := loadE fo s.vm.scratchpad spAddr1 s.vm.e
  (executeBytecodeAll fo condition { s.vm with r := r, f := f, e := e }).map fun vm =>
    let mixed :=
      if cfg.asyncWorker then
        datasetMixAsync cfg.getBlock cfg.readReg2 cfg.readReg3 { r := vm.r, ma := s.ma, mx := s.mx }
      else
        datasetMixSync cfg.initBlock cfg.readReg2 cfg.readReg3 { r := vm.r, ma := s.ma, mx := s.mx }
    let sp := storeR spAddr1 mixed.r 8 vm.scratchpad
    let sp := storeFE fo vm.roundMode spAddr0 vm.f vm.e 4 sp
    { vm := { vm with r := mixed.r, scratchpad := sp },
      ma := mixed.ma, mx := mixed.mx, spAddr0 := 0, spAddr1 := 0 }

/-- The value of `spAddr0` after the statements `spAddr0 ^= r[readReg0];
spAddr0 &= ScratchpadL3Mask64;` that open an iteration entered in state `s`. -/
def maskedSpAddr0 (cfg : ExecConfig) (s : ExecState) : Nat :=
  ((s.spAddr0 ^^^ s.vm.r cfg.readReg0) % 2 ^ 32) &&& ScratchpadL3Mask64

/-- The value of `spAddr1` after the statements `spAddr1 ^= r[readReg1];
spAddr1 &= ScratchpadL3Mask64;` of an iteration entered in state `s`; `r` is read after
the block at `spAddr0` has been XORed into it. -/
def maskedSpAddr1 (cfg : ExecConfig) (s : ExecState) : Nat :=
  ((s.spAddr1 ^^^ xorBlock s.vm.scratchpad (maskedSpAddr0 cfg s) s.vm.r cfg.readReg1) % 2 ^ 32)
    &&& ScratchpadL3Mask64

/-- The machine state on which an iteration entered in state `s` runs the 256 records:
`r`, `f`, `e` after the block loads. -/
def stateAfterLoads (fo : FloatOps) (cfg : ExecConfig) (s : ExecState) : VMState :=
  { s.vm with
    r := xorBlock s.vm.scratchpad (maskedSpAddr0 cfg s) s.vm.r,
    f := loadF fo s.vm.scratchpad (maskedSpAddr1 cfg s) s.vm.f,
    e := loadE fo s.vm.scratchpad (maskedSpAddr1 cfg s) s.vm.e }

/-- The statements of the loop body after the call `executeBytecode<0>`, lines 294-330:
the dataset step, the write-back of `r` at `spAddr1` and of the products `f[k] * e[k]` at
`spAddr0`, and the reset of the two addresses.  The argument `vm` is the machine state
that the 256 records leave, `s` the state in which the iteration was entered. -/
def finishIteration (fo : FloatOps) (cfg : ExecConfig) (s : ExecState) (vm : VMState) :
    ExecState :=
  let mixed :=
    if cfg.asyncWorker then
      datasetMixAsync cfg.getBlock cfg.readReg2 cfg.readReg3 { r := vm.r, ma := s.ma, mx := s.mx }
    else
      datasetMixSync cfg.initBlock cfg.readReg2 cfg.readReg3 { r := vm.r, ma := s.ma, mx := s.mx }
  let sp := storeR (maskedSpAddr1 cfg s) mixed.r 8 vm.scratchpad
  let sp := storeFE fo vm.roundMode (maskedSpAddr0 cfg s) vm.f vm.e 4 sp
  { vm := { vm with r := mixed.r, scratchpad := sp },
    ma := mixed.ma, mx := mixed.mx, spAddr0 := 0, spAddr1 := 0 }

/-- The body of the loop of `execute` on a machine where the records without a defined
effect have the effect `undef`; it returns for every program. -/
def executeIterationOr (fo : FloatOps) (condition : Nat → Nat → Nat → Bool)
    (undef : Nat → VMState → VMState) (cfg : ExecConfig) (s : ExecState) : ExecState :=
  finishIteration fo cfg s (executeBytecodeAllOr fo condition undef (stateAfterLoads fo cfg s))

/-- The loop `for (iter = 0; iter < n; ++iter)` of `execute` on such a machine. -/
def executeLoopOr (fo : FloatOps) (condition : Nat → Nat → Nat → Bool)
    (undef : Nat → VMState → VMState) (cfg : ExecConfig) : Nat → ExecState → ExecState
  | 0, s => s
  | n + 1, s =>
    executeLoopOr fo condition undef cfg n (executeIterationOr fo condition undef cfg s)

/-- The loop `for (iter = 0; iter < n; ++iter)` of `execute`. -/
def executeLoop (fo : FloatOps) (condition : Nat → Nat → Nat → Bool) (cfg : ExecConfig) :
    Nat → ExecState → Option ExecState
  | 0, s => some s
  | n + 1, s =>
    (executeIteration fo condition cfg s).bind fun s1 => executeLoop fo condition cfg n s1

/-- The state in which `execute` enters its loop: `r` zeroed, `a` loaded from `reg.a`,
the dispatch buffer precompiled over what it held, `spAddr0 = mem.mx`, `spAddr1 = mem.ma`.
The argument `vm0` carries the scratchpad, the rounding mode, the dispatch buffer as the
previous nonce left it, and the indeterminate first contents of the locals `f` and `e`. -/
def executeInit (decode : Nat → InstructionType) (program : Nat → Instruction)
    (regA : Nat → M128d) (ma mx : Nat) (vm0 : VMState) : ExecState :=
  { vm := { vm0 with r := fun _ => 0, a := regA,
                     byteCode := precompileProgram decode program vm0.byteCode },
    ma := ma, mx := mx, spAddr0 := mx % 2 ^ 32, spAddr1 := ma % 2 ^ 32 }

/-- The method `execute`.  The register indices `readReg0 .. readReg3` are required to
lie in `r`.  The result holds the final `r`, `f`, `e` that are stored to `reg`, the
scratchpad and `(mem.ma, mem.mx)`. -/
def execute (fo : FloatOps) (condition : Nat → Nat → Nat → Bool)
    (decode : Nat → InstructionType) (cfg : ExecConfig) (program : Nat → Instruction)
    (regA : Nat → M128d) (ma mx : Nat) (vm0 : VMState) : Option ExecState :=
  if cfg.readReg0 < RegistersCount ∧ cfg.readReg1 < RegistersCount
      ∧ cfg.readReg2 < RegistersCount ∧ cfg.readReg3 < RegistersCount then
    executeLoop fo condition cfg InstructionCount (executeInit decode program regA ma mx vm0)
  else none

/-! ## Benchmark harness (`main.cpp`) -/

/-- The first block `i * perThread` of the slice that `main` hands to thread `i` of
`threadCount`, lines 255-258, with `perThread = DatasetBlockCount / threadCount`. -/
def sliceStart (threadCount i : Nat) : Nat :=
  i * (DatasetBlockCount / threadCount)

/-- The number of blocks `perThread + (i == threadCount - 1 ? remainder : 0)` of the slice
of thread `i`, with `remainder = DatasetBlockCount % threadCount`. -/
def sliceCount (threadCount i : Nat) : Nat :=
  DatasetBlockCount / threadCount
    + (if i = threadCount - 1 then DatasetBlockCount % threadCount else 0)

/-- The state `hash[0..3]` that the constructor of `AtomicHash` sets: every lane zero. -/
def atomicHashInit : Nat → Nat :=
  fun _ => 0

/-- The method `AtomicHash::xorWith`: `hash[i].fetch_xor(update[i])` for `i = 0 .. 3`. -/
def xorWith (hash update : Nat → Nat) : Nat → Nat :=
  fun i => if i < 4 then hash i ^^^ update i else hash i

/-- The accumulator after `result.xorWith(hash)` has run once for each digest of the
list, in the order of the list. -/
def xorWithAll (digests : List (Nat → Nat)) : Nat → Nat :=
  digests.foldl xorWith atomicHashInit

/-! ## Concrete inputs -/

/-- A dispatch record with every field zero and kind `NOP`. -/
def zeroRecord : InstructionByteCode :=
  { idst := 0, isrc := IntRef.reg 0, imm := 0, fdst := ⟨FloatFile.f, 0⟩,
    fsrc := ⟨FloatFile.f, 0⟩, condition := 0, memMask := 0, type := InstructionType.NOP,
    signedMultiplier := 0, shift := 0, preShift := 0, postShift := 0, increment := false }

/-- A machine state with every register and every scratchpad byte zero, and every
dispatch record equal to `zeroRecord`. -/
def zeroState : VMState :=
  { r := fun _ => 0, f := fun _ => ⟨0, 0⟩, e := fun _ => ⟨0, 0⟩, a := fun _ => ⟨0, 0⟩,
    scratchpad := fun _ => 0, roundMode := 0, byteCode := fun _ => zeroRecord }

/-- The state `st` with dispatch record `i` replaced by `ibc`. -/
def withRecord (st : VMState) (i : Nat) (ibc : InstructionByteCode) : VMState :=
  { st with byteCode := Function.update st.byteCode i ibc }

/-- A dataset line whose lane 0 is `0x40` and whose other lanes are zero. -/
def lineC2 : Nat → Nat :=
  fun i => if i = 0 then 0x40 else 0

/-- An async worker that returns `lineC2` for every address. -/
def getBlockC2 : Nat → Nat → Nat :=
  fun _ => lineC2

/-- A line deriver that yields `lineC2` for every block number. -/
def initBlockC2 : Nat → Nat → Nat :=
  fun _ => lineC2

/-- A program whose slot 0 is `ISTORE` with `dst = 0`, `src = 1`, `mod = 0` (under
`decodeC3`) and whose other slots are `NOP`. -/
def programC3 : Nat → Instruction :=
  fun i => if i = 0 then ⟨0, 0, 1, 0, 0⟩ else ⟨1, 0, 0, 0, 0⟩

/-- A weight table that maps opcode `0` to `ISTORE` and every other opcode to `NOP`. -/
def decodeC3 : Nat → InstructionType :=
  fun op => if op = 0 then InstructionType.ISTORE else InstructionType.NOP

/-- A scratchpad whose first 64-bit word is `0x4000`, whose second is `1`, and which is
zero elsewhere. -/
def scratchpadC3 : Nat → Nat :=
  fun p => if p = 1 then 0x40 else if p = 8 then 1 else 0

/-- Light mode without async worker, all dataset lines zero. -/
def cfgC3 : ExecConfig :=
  { readReg0 := 0, readReg1 := 2, readReg2 := 4, readReg3 := 6, asyncWorker := false,
    getBlock := fun _ _ => 0, initBlock := fun _ _ => 0 }

/-- A dispatch buffer in which every record is `zeroRecord` with the given `memMask`, as
a previous nonce leaves it in a slot it precompiled with that mask. -/
def bufferWithMask (memMask : Nat) : Nat → InstructionByteCode :=
  fun _ => { zeroRecord with memMask := memMask }

/-- Lane arithmetic that returns zero throughout, for the instances that use none. -/
def zeroFloatOps : FloatOps :=
  { cvt := fun _ => 0, add := fun _ _ _ => 0, sub := fun _ _ _ => 0, mul := fun _ _ _ => 0,
    div := fun _ _ _ => 0, sqrt := fun _ _ => 0, max := fun _ _ => 0 }

/-- Lane arithmetic whose conversion is the exact one and whose `max` is the lane of
`_mm_max_pd`; the other operations return zero, for the instances that use none. -/
def exactCvtOps : FloatOps :=
  { zeroFloatOps with cvt := cvt_i32_f64, max := maxpdLane }

/-- A program whose every slot is `NOP` under `decodeC3`. -/
def programNop : Nat → Instruction :=
  fun _ => ⟨1, 0, 0, 0, 0⟩

/-- The state in which `execute` enters its loop for `programNop`, an all-zero scratchpad
and `reg.a`, and the pointer pair `(mem.ma, mem.mx)`. -/
def entryNop (ma mx : Nat) : ExecState :=
  executeInit decodeC3 programNop (fun _ => ⟨0, 0⟩) ma mx zeroState

/-- A program whose slot 0 is `FSWAP_R` with `dst = 4` (under `decodeC21`) and whose
other slots are `NOP`. -/
def programC21 : Nat → Instruction :=
  fun i => if i = 0 then ⟨0, 4, 0, 0, 0⟩ else ⟨1, 0, 0, 0, 0⟩

/-- A weight table that maps opcode `0` to `FSWAP_R` and every other opcode to `NOP`. -/
def decodeC21 : Nat → InstructionType :=
  fun op => if op = 0 then InstructionType.FSWAP_R else InstructionType.NOP

/-- The state in which `execute` enters its loop for `programC3` (an `ISTORE` in slot 0)
on an all-zero scratchpad with `mem.ma = 0x40`, `mem.mx = 0`. -/
def entryStore : ExecState :=
  executeInit decodeC3 programC3 (fun _ => ⟨0, 0⟩) 0x40 0 zeroState

/-- The state in which `execute` enters its loop for `programNop` on an all-zero
scratchpad with `mem.ma = mem.mx = 0xFFFFFFFF`. -/
def entryTop : ExecState :=
  executeInit decodeC3 programNop (fun _ => ⟨0, 0⟩) 0xFFFFFFFF 0xFFFFFFFF zeroState

/-- The state in which `execute` enters its loop for `programC21` (an `FSWAP_R` with
`dst = 4` in slot 0) on an all-zero scratchpad with `mem.ma = 1`, `mem.mx = 0`. -/
def entrySwap : ExecState :=
  executeInit decodeC21 programC21 (fun _ => ⟨0, 0⟩) 1 0 zeroState

/-! ## Theorems -/

/-! ### IMUL_9C -/

/-- What the `IMUL_9C` case does to a precompiled record: the destination `r[dst mod 8]`
receives `d + (9 * d + signExtend(imm32))` modulo `2 ^ 64`, and nothing else changes. -/
theorem executeBytecode_IMUL_9C (fo : FloatOps) (condition : Nat → Nat → Nat → Bool)
    (i : Nat) (st : VMState) (instr : Instruction) (ibc0 : InstructionByteCode) :
    executeBytecode fo condition i
        (withRecord st i (precompileInstruction .IMUL_9C instr ibc0))
      = some { withRecord st i (precompileInstruction .IMUL_9C instr ibc0) with
          r := Function.update st.r (instr.dst % 8)
            ((st.r (instr.dst % 8)
              + (9 * st.r (instr.dst % 8) + signExtend2sCompl instr.imm32) % 2 ^ 64) % 2 ^ 64) } := by
  have h8 : instr.dst % 8 < 8 := Nat.mod_lt _ (by decide)
  simp [executeBytecode, withRecord, precompileInstruction, readDst, writeDst, RegistersCount, h8]

/-- C1, evaluated on the code: a precompiled `IMUL_9C` record with `imm32 = 0`, run on
a destination register holding `1`, leaves `10` in it, whereas `9 * d + signExtend(imm32)`
is `9`; the statement `*idst += 9 * *idst + imm` adds the old value once more. -/
theorem C1_IMUL_9C_yields_ten_times (fo : FloatOps) (condition : Nat → Nat → Nat → Bool) :
    (executeBytecode fo condition 0
        (withRecord { zeroState with r := fun _ => 1 } 0
          (precompileInstruction .IMUL_9C ⟨0, 0, 0, 0, 0⟩ zeroRecord))).map (fun s => s.r 0)
      = some 10
    ∧ (9 * 1 + signExtend2sCompl 0) % 2 ^ 64 = 9 := by
  constructor
  · rw [executeBytecode_IMUL_9C]
    simp [signExtend2sCompl]
  · decide

/-! ### Dataset step: async worker against inline derivation -/

/-- Both branches of the dataset step leave the same registers and the same `mem.mx`
when the worker returns the line of block `mem.ma / 64`. -/
theorem datasetMix_r_mx_agree (getBlock initBlock : Nat → Nat → Nat) (readReg2 readReg3 : Nat)
    (s : MixState) (hline : getBlock s.ma = initBlock (s.ma / CacheLineSize)) :
    (datasetMixAsync getBlock readReg2 readReg3 s).r
        = (datasetMixSync initBlock readReg2 readReg3 s).r
      ∧ (datasetMixAsync getBlock readReg2 readReg3 s).mx
        = (datasetMixSync initBlock readReg2 readReg3 s).mx := by
  simp [datasetMixAsync, datasetMixSync, hline]

/-- C2, evaluated on the code: with all registers zero, `mem.ma = mem.mx = 0`,
`readReg2 = 0`, `readReg3 = 1` and a dataset line whose lane 0 is `0x40` (the worker
returning exactly the line that `initBlock` derives), the async branch ends with
`mem.ma = 0x40` and the non-async branch with `mem.ma = 0`: the first folds the line into
`r` before it updates `mem.mx`, the second after. -/
theorem C2_async_and_inline_mix_disagree :
    getBlockC2 0 = initBlockC2 (0 / CacheLineSize)
      ∧ (datasetMixAsync getBlockC2 0 1 { r := fun _ => 0, ma := 0, mx := 0 }).ma = 0x40
      ∧ (datasetMixSync initBlockC2 0 1 { r := fun _ => 0, ma := 0, mx := 0 }).ma = 0 := by
  refine ⟨rfl, ?_, ?_⟩
  · decide
  · decide

/-! ### The dispatch buffer after precompilation -/

/-- Slot `i` after the first `n` iterations of the precompiler loop. -/
theorem precompileLoop_apply (decode : Nat → InstructionType) (program : Nat → Instruction)
    (n i : Nat) (byteCode : Nat → InstructionByteCode) :
    precompileLoop decode program n byteCode i
      = if i < n then precompileInstruction (decode (program i).opcode) (program i) (byteCode i)
        else byteCode i := by
  induction n with
  | zero => simp [precompileLoop]
  | succ n ih =>
    by_cases hi : i = n
    · subst hi
      have hself := ih
      simp only [lt_irrefl, if_false] at hself
      simp [precompileLoop, hself]
    · have hlt : i < n + 1 ↔ i < n := by omega
      simp [precompileLoop, Function.update_noteq hi, ih, hlt]

/-- Slot `i` of the dispatch buffer after `precompileProgram`. -/
theorem precompileProgram_apply (decode : Nat → InstructionType) (program : Nat → Instruction)
    (i : Nat) (byteCode : Nat → InstructionByteCode) :
    precompileProgram decode program byteCode i
      = if i < ProgramLength
        then precompileInstruction (decode (program i).opcode) (program i) (byteCode i)
        else byteCode i := by
  simp [precompileProgram, precompileLoop_apply]

/-- Running records that are all `NOP` changes nothing. -/
theorem executeBytecodeFrom_nop (fo : FloatOps) (condition : Nat → Nat → Nat → Bool)
    (k N : Nat) (st : VMState)
    (h : ∀ j, N ≤ j → j < N + k → (st.byteCode j).type = InstructionType.NOP) :
    executeBytecodeFrom fo condition k N st = some st := by
  induction k generalizing N with
  | zero => simp [executeBytecodeFrom]
  | succ k ih =>
    have h0 : (st.byteCode N).type = InstructionType.NOP := h N (le_refl _) (by omega)
    have hstep : executeBytecode fo condition N st = some st := by
      simp [executeBytecode, h0]
    simp only [executeBytecodeFrom, hstep, Option.some_bind]
    exact ih (N + 1) (fun j hj1 hj2 => h j (by omega) (by omega))

/-! ### Dependence on the previous content of the dispatch buffer -/

/-- The interpreter pass over `programC3` precompiled into a buffer whose records carry
`memMask = m`: the only effect is the store of `r[1]` at `r[0] & m`. -/
theorem executeBytecodeAll_programC3 (fo : FloatOps) (condition : Nat → Nat → Nat → Bool)
    (m : Nat) (st : VMState)
    (hbc : st.byteCode = precompileProgram decodeC3 programC3 (bufferWithMask m))
    (hin : inScratchpad ((st.r 0 % 2 ^ 64) &&& (m % 2 ^ 32)) = true) :
    executeBytecodeAll fo condition st
      = some { st with
          scratchpad := store64 st.scratchpad ((st.r 0 % 2 ^ 64) &&& (m % 2 ^ 32)) (st.r 1) } := by
  have h0 : st.byteCode 0
      = { zeroRecord with memMask := m, type := InstructionType.ISTORE, idst := 0,
                          isrc := IntRef.reg 1 } := by
    rw [hbc, precompileProgram_apply]
    simp [ProgramLength, programC3, decodeC3, precompileInstruction, bufferWithMask,
      RegistersCount]
  have hstep : executeBytecode fo condition 0 st
      = some { st with
          scratchpad := store64 st.scratchpad ((st.r 0 % 2 ^ 64) &&& (m % 2 ^ 32)) (st.r 1) } := by
    unfold executeBytecode
    simp only [h0, readDst, readInt, zeroRecord, RegistersCount]
    rw [if_pos (by decide), if_pos (by decide)]
    simp only [Option.some_bind, hin, if_true]
  have hrest : ∀ j, 0 + 1 ≤ j → j < 0 + 1 + 255 → (st.byteCode j).type = InstructionType.NOP := by
    intro j hj1 hj2
    have hj0 : j ≠ 0 := by omega
    have hlt : j < 256 := by omega
    have hp : programC3 j = ⟨1, 0, 0, 0, 0⟩ := by simp [programC3, hj0]
    have hd : decodeC3 1 = InstructionType.NOP := rfl
    rw [hbc, precompileProgram_apply, if_pos (by simpa [ProgramLength] using hlt), hp]
    simp only [hd, precompileInstruction]
  unfold executeBytecodeAll
  have h256 : ProgramLength = 255 + 1 := rfl
  rw [h256, executeBytecodeFrom, hstep, Option.some_bind]
  exact executeBytecodeFrom_nop fo condition 255 (0 + 1) _ hrest

/-- C3, evaluated on the code: the first iteration of `execute` on one and the same
program (`ISTORE` in slot 0), scratchpad, `reg.a`, `(mem.ma, mem.mx)`, `readReg0..3` and
dataset lines leaves scratchpad byte `0x4000` equal to `0` when slot 0 of the dispatch
buffer held `memMask = L1` before the run, and equal to `1` when it held `memMask = L2`:
the `ISTORE` case of `precompileProgram` does not assign `memMask`. -/
theorem C3_first_iteration_depends_on_prior_buffer (fo : FloatOps)
    (condition : Nat → Nat → Nat → Bool) (regA : Nat → M128d) :
    (executeIteration fo condition cfgC3
        (executeInit decodeC3 programC3 regA 0 0
          { zeroState with scratchpad := scratchpadC3,
                           byteCode := bufferWithMask ScratchpadL1Mask })).map
        (fun s => s.vm.scratchpad 0x4000) = some 0
    ∧ (executeIteration fo condition cfgC3
        (executeInit decodeC3 programC3 regA 0 0
          { zeroState with scratchpad := scratchpadC3,
                           byteCode := bufferWithMask ScratchpadL2Mask })).map
        (fun s => s.vm.scratchpad 0x4000) = some 1 := by
  have hr0 : xorBlock scratchpadC3 0 (fun _ => 0) 0 = 0x4000 := by decide
  have hr1 : xorBlock scratchpadC3 0 (fun _ => 0) 1 = 1 := by decide
  have hr2 : xorBlock scratchpadC3 0 (fun _ => 0) 2 = 0 := by decide
  constructor
  · unfold executeIteration executeInit
    simp only [cfgC3, zeroState, hr2]
    rw [executeBytecodeAll_programC3 fo condition ScratchpadL1Mask _ rfl (by simp [hr0]; decide)]
    simp [hr0, hr1, hr2, ScratchpadL1Mask, ScratchpadL3Mask64, storeFE, storeR, _mm_store_pd,
      store64, scratchpadC3, datasetMixSync]
    decide
  · unfold executeIteration executeInit
    simp only [cfgC3, zeroState, hr2]
    rw [executeBytecodeAll_programC3 fo condition ScratchpadL2Mask _ rfl (by simp [hr0]; decide)]
    simp [hr0, hr1, hr2, ScratchpadL2Mask, ScratchpadL3Mask64, storeFE, storeR, _mm_store_pd,
      store64, scratchpadC3, datasetMixSync]
    decide

/-! ### IDIV_C by a magic number -/

/-- The accumulator of the bit-counting loop only adds to the count. -/
theorem countBits_acc (n acc : Nat) : countBits n acc = acc + countBits n 0 := by
  induction n using Nat.strong_induction_on generalizing acc with
  | _ n ih =>
    by_cases hn : n > 0
    · rw [countBits, dif_pos hn]
      conv_rhs => rw [countBits, dif_pos hn]
      rw [ih (n / 2) (Nat.div_lt_self hn (by decide)) (acc + 1),
        ih (n / 2) (Nat.div_lt_self hn (by decide)) (0 + 1)]
      omega
    · rw [countBits, dif_neg hn]
      conv_rhs => rw [countBits, dif_neg hn]
      rfl

/-- One turn of the bit-counting loop. -/
theorem countBits_pos (n : Nat) (hn : 0 < n) : countBits n 0 = countBits (n / 2) 0 + 1 := by
  rw [countBits, dif_pos hn, countBits_acc]
  omega

/-- The bit count `c` of `n` satisfies `n < 2 ^ c`. -/
theorem lt_two_pow_countBits (n : Nat) : n < 2 ^ countBits n 0 := by
  induction n using Nat.strong_induction_on with
  | _ n ih =>
    by_cases hn : n > 0
    · rw [countBits_pos n hn, pow_succ]
      have := ih (n / 2) (Nat.div_lt_self hn (by decide))
      omega
    · have h0 : n = 0 := by omega
      subst h0
      positivity

/-- The bit count `c` of a positive `n` satisfies `2 ^ (c - 1) ≤ n`. -/
theorem two_pow_countBits_le (n : Nat) (hn : 0 < n) : 2 ^ (countBits n 0 - 1) ≤ n := by
  induction n using Nat.strong_induction_on with
  | _ n ih =>
    rw [countBits_pos n hn]
    simp only [Nat.add_sub_cancel]
    by_cases h2 : n / 2 > 0
    · have := ih (n / 2) (Nat.div_lt_self hn (by decide)) h2
      have hc := countBits_pos (n / 2) h2
      rw [hc, pow_succ]
      rw [hc] at this
      simp only [Nat.add_sub_cancel] at this
      omega
    · have h0 : n / 2 = 0 := by omega
      rw [h0]
      rw [countBits, dif_neg (by decide)]
      simp
      omega

/-- Doubling quotient and remainder of `X` by `D` gives quotient (modulo `2 ^ 64`) and
remainder of `2 * X` by `D`. -/
theorem magic_step (D X q r : Nat) (hD : 0 < D) (hq : q = (X / D) % 2 ^ 64) (hr : r = X % D) :
    (if r ≥ D - r then (q * 2 + 1) % 2 ^ 64 else (q * 2) % 2 ^ 64) = (2 * X / D) % 2 ^ 64
      ∧ (if r ≥ D - r then r * 2 - D else r * 2) = 2 * X % D := by
  have hrD : r < D := by rw [hr]; exact Nat.mod_lt _ hD
  have hX : D * (X / D) + r = X := by rw [hr]; exact Nat.div_add_mod X D
  by_cases hc : r ≥ D - r
  · have h2 : 2 * X / D = 2 * (X / D) + 1 ∧ 2 * X % D = r * 2 - D := by
      rw [Nat.div_mod_unique hD]
      constructor
      · have : D * (2 * (X / D) + 1) = 2 * (D * (X / D)) + D := by ring
        rw [this]
        omega
      · omega
    rw [if_pos hc, if_pos hc, h2.1, h2.2, hq]
    constructor
    · norm_num
      omega
    · rfl
  · have h2 : 2 * X / D = 2 * (X / D) ∧ 2 * X % D = r * 2 := by
      rw [Nat.div_mod_unique hD]
      constructor
      · have : D * (2 * (X / D)) = 2 * (D * (X / D)) := by ring
        rw [this]
        omega
      · omega
    rw [if_neg hc, if_neg hc, h2.1, h2.2, hq]
    constructor
    · norm_num
      omega
    · rfl


/-- The round-up multiplier: if `D - 2 ^ (64 + e) % D ≤ 2 ^ (e + extra)`, then multiplying a
numerator of `64 - extra` bits by `2 ^ (64 + e) / D + 1` and dropping `64 + e` bits divides
by `D`. -/
theorem magic_up_div (D e extra x : Nat) (hD : 0 < D) (hextra : extra ≤ 64)
    (hr : D - 2 ^ (64 + e) % D ≤ 2 ^ (e + extra)) (hx : x < 2 ^ (64 - extra)) :
    x * (2 ^ (64 + e) / D + 1) / 2 ^ (64 + e) = x / D := by
  have hP : 0 < 2 ^ (64 + e) := by positivity
  generalize hPdef : 2 ^ (64 + e) = P at *
  have hrD : P % D < D := Nat.mod_lt _ hD
  have hdm : D * (P / D) + P % D = P := Nat.div_add_mod P D
  have hxk : D * (x / D) + x % D = x := Nat.div_add_mod x D
  have hjD : x % D < D := Nat.mod_lt _ hD
  generalize hm : P / D = m at *
  generalize hrr : P % D = r at *
  generalize hk : x / D = k at *
  generalize hj : x % D = j at *
  -- x * (D - r) < P
  have hprod : x * (D - r) < P := by
    have h1 : x * (D - r) ≤ x * 2 ^ (e + extra) := Nat.mul_le_mul_left _ hr
    have h2 : x * 2 ^ (e + extra) < 2 ^ (64 - extra) * 2 ^ (e + extra) :=
      Nat.mul_lt_mul_of_pos_right hx (by positivity)
    have h3 : 2 ^ (64 - extra) * 2 ^ (e + extra) = P := by
      rw [← pow_add, ← hPdef]
      congr 1
      omega
    omega
  have hmD : (m + 1) * D = P + (D - r) := by
    have : (m + 1) * D = D * m + D := by ring
    rw [this]
    omega
  have hxmD : x * (m + 1) * D = x * P + x * (D - r) := by
    rw [Nat.mul_assoc, hmD, Nat.mul_add]
  have hxP : x * P = k * P * D + j * P := by
    rw [← hxk]
    ring
  apply Nat.div_eq_of_lt_le
  · apply Nat.le_of_mul_le_mul_right _ hD
    rw [hxmD, hxP]
    omega
  · apply Nat.lt_of_mul_lt_mul_right (a := D)
    rw [hxmD, hxP]
    have hjP : j * P + P ≤ D * P := by
      have : (j + 1) * P ≤ D * P := Nat.mul_le_mul_right _ hjD
      have h' : (j + 1) * P = j * P + P := by ring
      omega
    have : (k + 1) * P * D = k * P * D + D * P := by ring
    rw [this]
    omega

/-- The round-down multiplier: if `0 < 2 ^ (64 + e) % D ≤ 2 ^ e`, then multiplying the
incremented numerator by `2 ^ (64 + e) / D` and dropping `64 + e` bits divides by `D`. -/
theorem magic_down_div (D e x : Nat) (hD : 0 < D) (hr0 : 0 < 2 ^ (64 + e) % D)
    (hr : 2 ^ (64 + e) % D ≤ 2 ^ e) (hx : x < 2 ^ 64) :
    (x + 1) * (2 ^ (64 + e) / D) / 2 ^ (64 + e) = x / D := by
  have hP : 0 < 2 ^ (64 + e) := by positivity
  have hP2 : 2 ^ 64 * 2 ^ e = 2 ^ (64 + e) := by rw [← pow_add]
  generalize hPdef : 2 ^ (64 + e) = P at *
  have hdm : D * (P / D) + P % D = P := Nat.div_add_mod P D
  have hxk : D * (x / D) + x % D = x := Nat.div_add_mod x D
  have hjD : x % D < D := Nat.mod_lt _ hD
  generalize hm : P / D = m at *
  generalize hrr : P % D = r at *
  generalize hk : x / D = k at *
  generalize hj : x % D = j at *
  have hprod : (x + 1) * r ≤ P := by
    have h1 : (x + 1) * r ≤ 2 ^ 64 * 2 ^ e := Nat.mul_le_mul (by omega) hr
    omega
  have hprod0 : 0 < (x + 1) * r := Nat.mul_pos (by omega) hr0
  have hxmD : (x + 1) * m * D + (x + 1) * r = (x + 1) * P := by
    rw [← hdm]
    ring
  have hxP : (x + 1) * P = k * P * D + (j + 1) * P := by
    rw [← hxk]
    ring
  have hj1 : (j + 1) * P = j * P + P := by ring
  apply Nat.div_eq_of_lt_le
  · apply Nat.le_of_mul_le_mul_right _ hD
    omega
  · apply Nat.lt_of_mul_lt_mul_right (a := D)
    have hjP : (j + 1) * P ≤ D * P := Nat.mul_le_mul_right _ hjD
    have : (k + 1) * P * D = k * P * D + D * P := by ring
    rw [this]
    omega


/-- The exponent loop, from any state that holds quotient and remainder of
`2 ^ (63 + exponent)`: at the `break` the state holds the quotient of
`2 ^ (64 + exponent)`, the test of the `break` holds, it failed for every smaller
exponent, and the round-down candidate is the first exponent that passed its test. -/
theorem magicLoop_spec (D extra c : Nat) (hD : 0 < D) (n : Nat) :
    ∀ s : MagicLoopState, c - (s.exponent + extra) = n →
      s.quotient = (2 ^ (63 + s.exponent) / D) % 2 ^ 64 →
      s.remainder = 2 ^ (63 + s.exponent) % D →
      (∀ e, e < s.exponent → e + extra < c ∧ 2 ^ (e + extra) < D - 2 ^ (64 + e) % D) →
      (s.has_magic_down = true → s.down_exponent < s.exponent
        ∧ 2 ^ (64 + s.down_exponent) % D ≤ 2 ^ (s.down_exponent + extra)
        ∧ s.down_multiplier = (2 ^ (64 + s.down_exponent) / D) % 2 ^ 64) →
      (s.has_magic_down = false → ∀ e, e < s.exponent → ¬ 2 ^ (64 + e) % D ≤ 2 ^ (e + extra)) →
      (magicLoop D extra c s).quotient = (2 ^ (64 + (magicLoop D extra c s).exponent) / D) % 2 ^ 64
      ∧ (c ≤ (magicLoop D extra c s).exponent + extra
          ∨ D - 2 ^ (64 + (magicLoop D extra c s).exponent) % D
              ≤ 2 ^ ((magicLoop D extra c s).exponent + extra))
      ∧ ((magicLoop D extra c s).exponent = s.exponent
          ∨ (magicLoop D extra c s).exponent + extra ≤ c)
      ∧ (∀ e, e < (magicLoop D extra c s).exponent →
          e + extra < c ∧ 2 ^ (e + extra) < D - 2 ^ (64 + e) % D)
      ∧ ((magicLoop D extra c s).has_magic_down = true →
          (magicLoop D extra c s).down_exponent < (magicLoop D extra c s).exponent
          ∧ 2 ^ (64 + (magicLoop D extra c s).down_exponent) % D
              ≤ 2 ^ ((magicLoop D extra c s).down_exponent + extra)
          ∧ (magicLoop D extra c s).down_multiplier
              = (2 ^ (64 + (magicLoop D extra c s).down_exponent) / D) % 2 ^ 64)
      ∧ ((magicLoop D extra c s).has_magic_down = false →
          ∀ e, e < (magicLoop D extra c s).exponent → ¬ 2 ^ (64 + e) % D ≤ 2 ^ (e + extra)) := by
  induction n using Nat.strong_induction_on with
  | _ n ih =>
    intro s hn hq hr hist hdown hnodown
    have hpow : 2 ^ (64 + s.exponent) = 2 * 2 ^ (63 + s.exponent) := by
      have : 64 + s.exponent = (63 + s.exponent) + 1 := by omega
      rw [this, pow_succ]
      ring
    have hstep := magic_step D (2 ^ (63 + s.exponent)) s.quotient s.remainder hD hq hr
    rw [← hpow] at hstep
    obtain ⟨hq1, hr1⟩ := hstep
    have hshift : 1 <<< (s.exponent + extra) = 2 ^ (s.exponent + extra) := by
      rw [Nat.shiftLeft_eq, Nat.one_mul]
    have hnext : 63 + (s.exponent + 1) = 64 + s.exponent := by omega
    by_cases hbreak : s.exponent + extra ≥ c
        ∨ D - 2 ^ (64 + s.exponent) % D ≤ 2 ^ (s.exponent + extra)
    · -- the loop stops here
      have heq : magicLoop D extra c s
          = { s with quotient := (2 ^ (64 + s.exponent) / D) % 2 ^ 64,
                     remainder := 2 ^ (64 + s.exponent) % D } := by
        rw [magicLoop]
        simp only [hq1, hr1, hshift]
        rw [if_pos hbreak]
      rw [heq]
      exact ⟨rfl, hbreak, Or.inl rfl, hist, hdown, hnodown⟩
    · have hlt : s.exponent + extra < c := by
        by_contra hge
        exact hbreak (Or.inl (by omega))
      have hnb : 2 ^ (s.exponent + extra) < D - 2 ^ (64 + s.exponent) % D := by
        by_contra hge
        exact hbreak (Or.inr (by omega))
      have hist2 : ∀ e, e < s.exponent + 1 →
          e + extra < c ∧ 2 ^ (e + extra) < D - 2 ^ (64 + e) % D := by
        intro e he
        by_cases hee : e = s.exponent
        · subst hee
          exact ⟨hlt, hnb⟩
        · exact hist e (by omega)
      by_cases hset : (!s.has_magic_down) = true
          ∧ 2 ^ (64 + s.exponent) % D ≤ 2 ^ (s.exponent + extra)
      · have heq : magicLoop D extra c s
            = magicLoop D extra c
                { exponent := s.exponent + 1,
                  quotient := (2 ^ (64 + s.exponent) / D) % 2 ^ 64,
                  remainder := 2 ^ (64 + s.exponent) % D,
                  has_magic_down := true,
                  down_multiplier := (2 ^ (64 + s.exponent) / D) % 2 ^ 64,
                  down_exponent := s.exponent } := by
          rw [magicLoop]
          simp only [hq1, hr1, hshift]
          rw [if_neg hbreak, if_pos hset]
        rw [heq]
        have hrec := ih (c - (s.exponent + 1 + extra)) (by omega)
          { exponent := s.exponent + 1,
            quotient := (2 ^ (64 + s.exponent) / D) % 2 ^ 64,
            remainder := 2 ^ (64 + s.exponent) % D,
            has_magic_down := true,
            down_multiplier := (2 ^ (64 + s.exponent) / D) % 2 ^ 64,
            down_exponent := s.exponent }
          rfl (by simp only [hnext]) (by simp only [hnext]) hist2
          (fun _ => ⟨Nat.lt_succ_self _, hset.2, rfl⟩)
          (fun h => absurd h (by simp))
        obtain ⟨r1, r2, r3, r4, r5, r6⟩ := hrec
        refine ⟨r1, r2, ?_, r4, r5, r6⟩
        rcases r3 with h | h
        · right
          simp only at h
          omega
        · exact Or.inr h
      · have heq : magicLoop D extra c s
            = magicLoop D extra c
                { s with exponent := s.exponent + 1,
                         quotient := (2 ^ (64 + s.exponent) / D) % 2 ^ 64,
                         remainder := 2 ^ (64 + s.exponent) % D } := by
          rw [magicLoop]
          simp only [hq1, hr1, hshift]
          rw [if_neg hbreak, if_neg hset]
        rw [heq]
        have hrec := ih (c - (s.exponent + 1 + extra)) (by omega)
          { s with exponent := s.exponent + 1,
                   quotient := (2 ^ (64 + s.exponent) / D) % 2 ^ 64,
                   remainder := 2 ^ (64 + s.exponent) % D }
          rfl (by simp only [hnext]) (by simp only [hnext]) hist2
          (fun h => by
            obtain ⟨h1, h2, h3⟩ := hdown h
            exact ⟨Nat.lt_succ_of_lt h1, h2, h3⟩)
          (fun h e he => by
            simp only at h he
            by_cases hee : e = s.exponent
            · subst hee
              intro hle
              apply hset
              refine ⟨?_, hle⟩
              simp [h]
            · exact hnodown h e (by omega))
        obtain ⟨r1, r2, r3, r4, r5, r6⟩ := hrec
        refine ⟨r1, r2, ?_, r4, r5, r6⟩
        rcases r3 with h | h
        · right
          simp only at h
          omega
        · exact Or.inr h


/-- A positive number has at least one bit. -/
theorem countBits_ge_one (D : Nat) (hD : 0 < D) : 1 ≤ countBits D 0 := by
  rw [countBits_pos D hD]
  omega

/-- A number below `2 ^ k` has at most `k` bits. -/
theorem countBits_le (D k : Nat) (hD : 0 < D) (h : D < 2 ^ k) : countBits D 0 ≤ k := by
  by_contra hc
  have h1 := two_pow_countBits_le D hD
  have h2 : 2 ^ k ≤ 2 ^ (countBits D 0 - 1) := Nat.pow_le_pow_right (by decide) (by omega)
  omega

/-- A number that is no power of two exceeds `2 ^ e` for every `e` below its bit count. -/
theorem two_pow_lt_of_lt_countBits (D e : Nat) (hnp : ∀ k, D ≠ 2 ^ k)
    (he : e < countBits D 0) : 2 ^ e < D := by
  have hD : 0 < D := by
    rcases Nat.eq_zero_or_pos D with h | h
    · subst h
      rw [countBits, dif_neg (by decide)] at he
      omega
    · exact h
  have h1 := two_pow_countBits_le D hD
  have h2 : 2 ^ e ≤ 2 ^ (countBits D 0 - 1) := Nat.pow_le_pow_right (by decide) (by omega)
  have h3 := hnp e
  omega

/-- The round-up multiplier fits 64 bits. -/
theorem magic_multiplier_lt (D e : Nat) (h2e : 2 ^ e < D) (he : e < 64) :
    2 ^ (64 + e) / D + 1 < 2 ^ 64 := by
  have h3 : 2 ^ (64 + e) = 2 ^ 64 * 2 ^ e := pow_add 2 64 e
  have h4 : 2 ^ e ≤ 2 ^ 63 := Nat.pow_le_pow_right (by decide) (by omega)
  have h2 : 2 ^ (64 + e) / D * D ≤ 2 ^ (64 + e) := Nat.div_mul_le_self _ _
  by_contra hc
  have hQ : 2 ^ 64 - 1 ≤ 2 ^ (64 + e) / D := by omega
  have h1 : (2 ^ 64 - 1) * (2 ^ e + 1) ≤ 2 ^ (64 + e) / D * D :=
    Nat.mul_le_mul hQ (by omega)
  rw [h3] at h1 h2
  generalize 2 ^ 64 * 2 ^ e / D * D = B at h1 h2
  generalize 2 ^ e = A at h1 h2 h4
  norm_num at h1 h2 h4
  omega

/-- The loop that shifts out the factors of two returns the odd part and the number of
shifts. -/
theorem shiftOutTwos_spec (D : Nat) :
    ∀ p0, 0 < D → (shiftOutTwos D p0).1 % 2 = 1 ∧ p0 ≤ (shiftOutTwos D p0).2
      ∧ D = (shiftOutTwos D p0).1 * 2 ^ ((shiftOutTwos D p0).2 - p0)
      ∧ (D % 2 = 0 → p0 < (shiftOutTwos D p0).2) := by
  induction D using Nat.strong_induction_on with
  | _ D ih =>
    intro p0 hD
    by_cases hev : D % 2 = 0 ∧ D ≠ 0
    · rw [shiftOutTwos, dif_pos hev]
      have hpos : 0 < D / 2 := by omega
      obtain ⟨h1, h2, h3, _⟩ := ih (D / 2) (Nat.div_lt_self hD (by decide)) (p0 + 1) hpos
      refine ⟨h1, by omega, ?_, fun _ => by omega⟩
      have hsub : (shiftOutTwos (D / 2) (p0 + 1)).2 - p0
          = ((shiftOutTwos (D / 2) (p0 + 1)).2 - (p0 + 1)) + 1 := by omega
      rw [hsub, pow_succ, ← Nat.mul_assoc, ← h3]
      omega
    · rw [shiftOutTwos, dif_neg hev]
      refine ⟨by omega, le_refl _, by simp, fun h => absurd ⟨h, by omega⟩ hev⟩

/-- The exponent loop from its initial state. -/
theorem magicSearch_spec (D nb : Nat) (hD : 0 < D) :
    (magicSearch D nb).quotient = (2 ^ (64 + (magicSearch D nb).exponent) / D) % 2 ^ 64
      ∧ (countBits D 0 ≤ (magicSearch D nb).exponent + (64 - nb)
          ∨ D - 2 ^ (64 + (magicSearch D nb).exponent) % D
              ≤ 2 ^ ((magicSearch D nb).exponent + (64 - nb)))
      ∧ ((magicSearch D nb).exponent = 0
          ∨ (magicSearch D nb).exponent + (64 - nb) ≤ countBits D 0)
      ∧ (∀ e, e < (magicSearch D nb).exponent →
          e + (64 - nb) < countBits D 0 ∧ 2 ^ (e + (64 - nb)) < D - 2 ^ (64 + e) % D)
      ∧ ((magicSearch D nb).has_magic_down = true →
          (magicSearch D nb).down_exponent < (magicSearch D nb).exponent
          ∧ 2 ^ (64 + (magicSearch D nb).down_exponent) % D
              ≤ 2 ^ ((magicSearch D nb).down_exponent + (64 - nb))
          ∧ (magicSearch D nb).down_multiplier
              = (2 ^ (64 + (magicSearch D nb).down_exponent) / D) % 2 ^ 64)
      ∧ ((magicSearch D nb).has_magic_down = false →
          ∀ e, e < (magicSearch D nb).exponent → ¬ 2 ^ (64 + e) % D ≤ 2 ^ (e + (64 - nb))) := by
  have h63 : 1 <<< 63 = 2 ^ 63 := by decide
  have hlt : 2 ^ 63 / D < 2 ^ 64 :=
    lt_of_le_of_lt (Nat.div_le_self _ _) (by decide)
  unfold magicSearch
  simp only [h63]
  exact magicLoop_spec D (64 - nb) (countBits D 0) hD _
    { exponent := 0, quotient := 2 ^ 63 / D, remainder := 2 ^ 63 % D,
      has_magic_down := false, down_multiplier := 0, down_exponent := 0 }
    rfl (by simp only [Nat.add_zero]; exact (Nat.mod_eq_of_lt hlt).symm) rfl
    (fun e he => absurd he (Nat.not_lt_zero _))
    (fun h => absurd h (by simp))
    (fun _ e he => absurd he (Nat.not_lt_zero _))


/-- High half of the product, shifted: the product without its low `64 + e` bits. -/
theorem mulh_shift_eq (q m e : Nat) (hq : q < 2 ^ 64) (hm : m < 2 ^ 64) :
    mulh q m >>> e = q * m / 2 ^ (64 + e) := by
  rw [mulh, Nat.mod_eq_of_lt hq, Nat.mod_eq_of_lt hm, Nat.shiftRight_eq_div_pow,
    Nat.div_div_eq_div_mul, ← pow_add]

/-- An odd number other than one divides no power of two. -/
theorem odd_not_dvd_two_pow (D n : Nat) (hodd : D % 2 = 1) (h1 : D ≠ 1) : 0 < 2 ^ n % D := by
  rcases Nat.eq_zero_or_pos (2 ^ n % D) with h | h
  · exfalso
    have hdvd : D ∣ 2 ^ n := Nat.dvd_of_mod_eq_zero h
    have hcop : Nat.Coprime D (2 ^ n) := by
      apply Nat.Coprime.pow_right
      rw [Nat.coprime_comm, Nat.Prime.coprime_iff_not_dvd Nat.prime_two]
      intro h2
      omega
    exact h1 (Nat.Coprime.eq_one_of_dvd hcop hdvd)
  · exact h

/-- The magic numbers of a 32-bit divisor that is neither zero nor a power of two, used as
the interpreter uses them (pre-shift, saturating increment, high multiply, post-shift),
give the quotient of every 64-bit dividend; the multiplier is not zero. -/
theorem magic_info_correct (D x : Nat) (hD0 : D ≠ 0) (hD32 : D < 2 ^ 32)
    (hnp : ∀ k, D ≠ 2 ^ k) (hx : x < 2 ^ 64) :
    (compute_unsigned_magic_info D 64).multiplier ≠ 0
      ∧ mulh
          (if (compute_unsigned_magic_info D 64).increment ≠ 0 then
            (if x >>> (compute_unsigned_magic_info D 64).pre_shift = UINT64_MAX then UINT64_MAX
             else x >>> (compute_unsigned_magic_info D 64).pre_shift + 1)
           else x >>> (compute_unsigned_magic_info D 64).pre_shift)
          (compute_unsigned_magic_info D 64).multiplier
            >>> (compute_unsigned_magic_info D 64).post_shift
        = x / D := by
  have hD : 0 < D := Nat.pos_of_ne_zero hD0
  have hc32 : countBits D 0 ≤ 32 := countBits_le D 32 hD hD32
  have hc1 := countBits_ge_one D hD
  have hDlt := lt_two_pow_countBits D
  obtain ⟨t1, t2, t3, t4, t5, t6⟩ := magicSearch_spec D 64 hD
  simp only [Nat.sub_self, Nat.add_zero] at t2 t3 t4 t5 t6
  by_cases hup : (magicSearch D 64).exponent < countBits D 0
  · -- round-up multiplier
    have hmi : compute_unsigned_magic_info D 64
        = { multiplier := ((magicSearch D 64).quotient + 1) % 2 ^ 64, pre_shift := 0,
            post_shift := (magicSearch D 64).exponent, increment := 0 } := by
      simp only [compute_unsigned_magic_info, if_pos hup]
    have h2e := two_pow_lt_of_lt_countBits D _ hnp hup
    have hmlt := magic_multiplier_lt D _ h2e (by omega)
    have hq : (magicSearch D 64).quotient = 2 ^ (64 + (magicSearch D 64).exponent) / D := by
      rw [t1]
      exact Nat.mod_eq_of_lt (by omega)
    have hcond : D - 2 ^ (64 + (magicSearch D 64).exponent) % D
        ≤ 2 ^ ((magicSearch D 64).exponent + 0) := by
      rcases t2 with h | h
      · omega
      · simpa using h
    rw [hmi]
    simp only [hq, Nat.mod_eq_of_lt hmlt, Nat.shiftRight_zero]
    refine ⟨by omega, ?_⟩
    simp only [ne_eq, not_true_eq_false, if_false]
    rw [mulh_shift_eq _ _ _ hx hmlt]
    exact magic_up_div D _ 0 x hD (by omega) hcond (by simpa using hx)
  · have hexp : (magicSearch D 64).exponent = countBits D 0 := by
      rcases t3 with h | h <;> omega
    by_cases hodd : D % 2 = 1
    · -- round-down multiplier with increment
      have hL := t4 (countBits D 0 - 1) (by omega)
      have hpowc : 2 ^ countBits D 0 = 2 * 2 ^ (countBits D 0 - 1) := by
        have : countBits D 0 = (countBits D 0 - 1) + 1 := by omega
        conv_lhs => rw [this, pow_succ]
        ring
      have hhas : (magicSearch D 64).has_magic_down = true := by
        by_contra hf
        have hf2 : (magicSearch D 64).has_magic_down = false := by simpa using hf
        have := t6 hf2 (countBits D 0 - 1) (by omega)
        omega
      obtain ⟨d1, d2, d3⟩ := t5 hhas
      have hmi : compute_unsigned_magic_info D 64
          = { multiplier := (magicSearch D 64).down_multiplier, pre_shift := 0,
              post_shift := (magicSearch D 64).down_exponent, increment := 1 } := by
        simp only [compute_unsigned_magic_info, if_neg hup, if_pos hodd]
      have hde : (magicSearch D 64).down_exponent < countBits D 0 := by omega
      have h2e := two_pow_lt_of_lt_countBits D _ hnp hde
      have hmlt := magic_multiplier_lt D _ h2e (by omega)
      have hdm : (magicSearch D 64).down_multiplier
          = 2 ^ (64 + (magicSearch D 64).down_exponent) / D := by
        rw [d3]
        exact Nat.mod_eq_of_lt (by omega)
      have hD1 : D ≠ 1 := by
        have := hnp 0
        simpa using this
      have hr0 := odd_not_dvd_two_pow D (64 + (magicSearch D 64).down_exponent) hodd hD1
      have hmpos : 0 < 2 ^ (64 + (magicSearch D 64).down_exponent) / D := by
        apply Nat.div_pos _ hD
        have : 2 ^ 32 ≤ 2 ^ (64 + (magicSearch D 64).down_exponent) :=
          Nat.pow_le_pow_right (by decide) (by omega)
        omega
      have hndvd : ¬ D ∣ 2 ^ 64 - 1 := by
        intro hdvd
        obtain ⟨k, hk⟩ := hdvd
        have h64 : 2 ^ 64 = D * k + 1 := by
          have : 1 ≤ 2 ^ 64 := by decide
          omega
        have hD2 : 1 < D := by omega
        have hmod : 2 ^ (64 + (countBits D 0 - 1)) % D = 2 ^ (countBits D 0 - 1) := by
          rw [pow_add, h64, Nat.add_mul, Nat.one_mul, Nat.mul_assoc, Nat.mul_add_mod]
          exact Nat.mod_eq_of_lt (by omega)
        rw [hmod] at hL
        omega
      rw [hmi]
      simp only [hdm, Nat.shiftRight_zero]
      refine ⟨by omega, ?_⟩
      simp only [ne_eq, one_ne_zero, not_false_eq_true, if_true]
      by_cases hmax : x = UINT64_MAX
      · rw [if_pos hmax]
        have hmaxlt : UINT64_MAX < 2 ^ 64 := by decide
        rw [mulh_shift_eq _ _ _ hmaxlt (by omega)]
        have hU : UINT64_MAX = (2 ^ 64 - 2) + 1 := by decide
        rw [hU, magic_down_div D _ (2 ^ 64 - 2) hD hr0 (by simpa using d2) (by decide), hmax, hU]
        have hnd : ¬ D ∣ 2 ^ 64 - 2 + 1 := by
          have : 2 ^ 64 - 2 + 1 = 2 ^ 64 - 1 := by decide
          rw [this]
          exact hndvd
        rw [Nat.succ_div, if_neg hnd, Nat.add_zero]
      · rw [if_neg hmax]
        have hx1 : x + 1 < 2 ^ 64 := by
          have : UINT64_MAX = 2 ^ 64 - 1 := rfl
          have h1 : 1 ≤ 2 ^ 64 := by decide
          omega
        rw [mulh_shift_eq _ _ _ hx1 (by omega)]
        exact magic_down_div D _ x hD hr0 (by simpa using d2) hx
    · -- even divisor: shift the factors of two out first
      have hev : D % 2 = 0 := by omega
      obtain ⟨s1, _, s3, s4⟩ := shiftOutTwos_spec D 0 hD
      simp only [Nat.sub_zero] at s3
      have hp1 := s4 hev
      generalize hsh : shiftOutTwos D 0 = sh at *
      obtain ⟨D2, p⟩ := sh
      simp only at s1 s3 hp1
      have hD2pos : 0 < D2 := by omega
      have hp2 : 0 < 2 ^ p := by positivity
      have hD2ne1 : D2 ≠ 1 := by
        intro h
        rw [h, Nat.one_mul] at s3
        exact hnp p s3
      have hD2ge : 3 ≤ D2 := by omega
      have hnp2 : ∀ k, D2 ≠ 2 ^ k := by
        intro k hk
        rcases Nat.eq_zero_or_pos k with h0 | h0
        · subst h0
          simp at hk
          omega
        · have : 2 ^ k % 2 = 0 := by
            have hk1 : k = (k - 1) + 1 := by omega
            rw [hk1, pow_succ]
            omega
          omega
      have hp32 : p < 32 := by
        by_contra hge
        have h1 : 2 ^ 32 ≤ 2 ^ p := Nat.pow_le_pow_right (by decide) (by omega)
        have h2 : 2 ^ p ≤ D2 * 2 ^ p := Nat.le_mul_of_pos_left _ hD2pos
        omega
      have hD2lt : D2 < 2 ^ 32 := by
        have h2 : D2 ≤ D2 * 2 ^ p := Nat.le_mul_of_pos_right _ hp2
        omega
      have hextra : 64 - (64 - p) = p := by omega
      obtain ⟨u1, u2, u3, _, _, _⟩ := magicSearch_spec D2 (64 - p) hD2pos
      rw [hextra] at u2 u3
      have hc2 : 2 ≤ countBits D2 0 := by
        by_contra hlt
        have h1 := lt_two_pow_countBits D2
        have h2 : 2 ^ countBits D2 0 ≤ 2 ^ 1 := Nat.pow_le_pow_right (by decide) (by omega)
        omega
      have hc2le : countBits D2 0 ≤ 32 := countBits_le D2 32 hD2pos hD2lt
      have hup2 : (magicSearch D2 (64 - p)).exponent < countBits D2 0 := by
        rcases u3 with h | h <;> omega
      have hmi : compute_unsigned_magic_info D 64
          = { multiplier := ((magicSearch D2 (64 - p)).quotient + 1) % 2 ^ 64, pre_shift := p,
              post_shift := (magicSearch D2 (64 - p)).exponent, increment := 0 } := by
        simp only [compute_unsigned_magic_info, if_neg hup, if_neg hodd, hsh, if_pos hup2]
      have h2e := two_pow_lt_of_lt_countBits D2 _ hnp2 hup2
      have hmlt := magic_multiplier_lt D2 _ h2e (by omega)
      have hq : (magicSearch D2 (64 - p)).quotient
          = 2 ^ (64 + (magicSearch D2 (64 - p)).exponent) / D2 := by
        rw [u1]
        exact Nat.mod_eq_of_lt (by omega)
      have hcond : D2 - 2 ^ (64 + (magicSearch D2 (64 - p)).exponent) % D2
          ≤ 2 ^ ((magicSearch D2 (64 - p)).exponent + p) := by
        rcases u2 with h | h
        · have h1 := lt_two_pow_countBits D2
          have h2 : 2 ^ countBits D2 0 ≤ 2 ^ ((magicSearch D2 (64 - p)).exponent + p) :=
            Nat.pow_le_pow_right (by decide) h
          omega
        · exact h
      have hxs : x / 2 ^ p < 2 ^ (64 - p) := by
        apply Nat.div_lt_of_lt_mul
        rw [← pow_add]
        have : p + (64 - p) = 64 := by omega
        rw [this]
        exact hx
      have hxs64 : x / 2 ^ p < 2 ^ 64 := lt_of_le_of_lt (Nat.div_le_self _ _) hx
      rw [hmi]
      simp only [hq, Nat.mod_eq_of_lt hmlt]
      refine ⟨by omega, ?_⟩
      simp only [ne_eq, not_true_eq_false, if_false, Nat.shiftRight_eq_div_pow x p]
      rw [mulh_shift_eq _ _ _ hxs64 hmlt,
        magic_up_div D2 _ p (x / 2 ^ p) hD2pos (by omega) hcond hxs,
        Nat.div_div_eq_div_mul, Nat.mul_comm (2 ^ p) D2, ← s3]


/-- The test `divisor & (divisor - 1)` of the precompiler is non-zero for every divisor
that is neither zero nor a power of two. -/
theorem and_pred_ne_zero (d : Nat) (h0 : d ≠ 0) (hnp : ∀ k, d ≠ 2 ^ k) : d &&& (d - 1) ≠ 0 := by
  have hd : 0 < d := Nat.pos_of_ne_zero h0
  have hc1 := countBits_ge_one d hd
  have hlo := two_pow_countBits_le d hd
  have hhi := lt_two_pow_countBits d
  have hpowc : 2 ^ countBits d 0 = 2 * 2 ^ (countBits d 0 - 1) := by
    have : countBits d 0 = (countBits d 0 - 1) + 1 := by omega
    conv_lhs => rw [this, pow_succ]
    ring
  have hne := hnp (countBits d 0 - 1)
  have hbit : ∀ n, 2 ^ (countBits d 0 - 1) ≤ n → n < 2 * 2 ^ (countBits d 0 - 1) →
      Nat.testBit n (countBits d 0 - 1) = true := by
    intro n h1 h2
    have hdiv : n / 2 ^ (countBits d 0 - 1) = 1 :=
      Nat.div_eq_of_lt_le (by omega) (by omega)
    rw [Nat.testBit_to_div_mod, hdiv]
    decide
  intro h
  have h1 := hbit d hlo (by omega)
  have h2 := hbit (d - 1) (by omega) (by omega)
  have h3 : Nat.testBit (d &&& (d - 1)) (countBits d 0 - 1) = true := by
    rw [Nat.testBit_and, h1, h2]
    rfl
  rw [h, Nat.zero_testBit] at h3
  exact Bool.noConfusion h3

/-- The `IDIV_C` case of the interpreter adds `idivQuotient` to the destination. -/
theorem executeBytecode_IDIV_C (fo : FloatOps) (condition : Nat → Nat → Nat → Bool)
    (i : Nat) (st : VMState) (ibc : InstructionByteCode)
    (ht : ibc.type = InstructionType.IDIV_C) (hdst : ibc.idst < 8) :
    executeBytecode fo condition i (withRecord st i ibc)
      = some { withRecord st i ibc with
          r := Function.update st.r ibc.idst
            ((st.r ibc.idst + idivQuotient ibc (st.r ibc.idst)) % 2 ^ 64) } := by
  simp [executeBytecode, withRecord, ht, readDst, writeDst, RegistersCount, hdst]

/-- C4: for every `imm32` that is neither zero nor a power of two and every 64-bit `x`,
the record that `precompileProgram` writes for `IDIV_C` carries the values
`(M, preShift, postShift, increment)` of `compute_unsigned_magic_info(imm32, 64)`, `M` is
not zero (so the interpreter takes the magic-number path), the interpreter's quotient
`mulh(q, M) >> postShift`, with `q = x >> preShift` incremented by one when `increment` is
set and the increment saturating at `UINT64_MAX`, equals `x / imm32`, and executing the
record leaves `(x + x / imm32) mod 2 ^ 64` in the destination and changes nothing else. -/
theorem C4_IDIV_C_magic_quotient (fo : FloatOps) (condition : Nat → Nat → Nat → Bool)
    (i : Nat) (st : VMState) (instr : Instruction) (ibc0 : InstructionByteCode)
    (h0 : instr.imm32 ≠ 0) (h32 : instr.imm32 < 2 ^ 32) (hnp : ∀ k, instr.imm32 ≠ 2 ^ k)
    (hx : st.r (instr.dst % 8) < 2 ^ 64) :
    (precompileInstruction .IDIV_C instr ibc0).type = InstructionType.IDIV_C
      ∧ (precompileInstruction .IDIV_C instr ibc0).idst = instr.dst % 8
      ∧ (precompileInstruction .IDIV_C instr ibc0).signedMultiplier
          = (compute_unsigned_magic_info instr.imm32 64).multiplier
      ∧ (precompileInstruction .IDIV_C instr ibc0).preShift
          = (compute_unsigned_magic_info instr.imm32 64).pre_shift
      ∧ (precompileInstruction .IDIV_C instr ibc0).postShift
          = (compute_unsigned_magic_info instr.imm32 64).post_shift
      ∧ (precompileInstruction .IDIV_C instr ibc0).increment
          = decide ((compute_unsigned_magic_info instr.imm32 64).increment ≠ 0)
      ∧ (precompileInstruction .IDIV_C instr ibc0).signedMultiplier ≠ 0
      ∧ mulh
          (if (precompileInstruction .IDIV_C instr ibc0).increment = true then
            (if st.r (instr.dst % 8) >>> (precompileInstruction .IDIV_C instr ibc0).preShift
                = UINT64_MAX then UINT64_MAX
             else st.r (instr.dst % 8) >>> (precompileInstruction .IDIV_C instr ibc0).preShift + 1)
           else st.r (instr.dst % 8) >>> (precompileInstruction .IDIV_C instr ibc0).preShift)
          (precompileInstruction .IDIV_C instr ibc0).signedMultiplier
            >>> (precompileInstruction .IDIV_C instr ibc0).postShift
          = st.r (instr.dst % 8) / instr.imm32
      ∧ executeBytecode fo condition i
            (withRecord st i (precompileInstruction .IDIV_C instr ibc0))
          = some { withRecord st i (precompileInstruction .IDIV_C instr ibc0) with
              r := Function.update st.r (instr.dst % 8)
                ((st.r (instr.dst % 8) + st.r (instr.dst % 8) / instr.imm32) % 2 ^ 64) } := by
  have hmod : instr.imm32 % 2 ^ 32 = instr.imm32 := Nat.mod_eq_of_lt h32
  have hand := and_pred_ne_zero instr.imm32 h0 hnp
  obtain ⟨m1, m2⟩ := magic_info_correct instr.imm32 (st.r (instr.dst % 8)) h0 h32 hnp hx
  have hpre : precompileInstruction .IDIV_C instr ibc0
      = { ibc0 with type := InstructionType.IDIV_C, idst := instr.dst % 8,
                    signedMultiplier := (compute_unsigned_magic_info instr.imm32 64).multiplier,
                    preShift := (compute_unsigned_magic_info instr.imm32 64).pre_shift,
                    postShift := (compute_unsigned_magic_info instr.imm32 64).post_shift,
                    increment :=
                      decide ((compute_unsigned_magic_info instr.imm32 64).increment ≠ 0) } := by
    simp only [precompileInstruction, precompileDiv, hmod, RegistersCount]
    rw [if_pos h0, if_pos hand]
  have h8 : instr.dst % 8 < 8 := Nat.mod_lt _ (by decide)
  have hquot : idivQuotient (precompileInstruction .IDIV_C instr ibc0) (st.r (instr.dst % 8))
      = st.r (instr.dst % 8) / instr.imm32 := by
    rw [hpre]
    simp only [idivQuotient, ne_eq, m1, not_false_eq_true, if_true, Nat.mod_eq_of_lt hx,
      decide_eq_true_eq]
    exact m2
  refine ⟨by rw [hpre], by rw [hpre], by rw [hpre], by rw [hpre], by rw [hpre], by rw [hpre],
    by rw [hpre]; exact m1, ?_, ?_⟩
  · rw [hpre]
    simp only [decide_eq_true_eq]
    exact m2
  · have ht : (precompileInstruction .IDIV_C instr ibc0).type = InstructionType.IDIV_C := by
      rw [hpre]
    have hi : (precompileInstruction .IDIV_C instr ibc0).idst = instr.dst % 8 := by
      rw [hpre]
    rw [executeBytecode_IDIV_C fo condition i st _ ht (by rw [hi]; exact h8), hi, hquot]


/-- Three is no power of two. -/
theorem three_ne_two_pow (k : Nat) : 3 ≠ 2 ^ k := by
  rcases k with _ | _ | k
  · decide
  · decide
  · rw [pow_succ, pow_succ]
    omega

/-- C4 at `imm32 = 3`, destination `r[0] = 100`: the result is `100 + 33`. -/
theorem C4_IDIV_C_magic_quotient_witness :
    ((⟨0, 0, 0, 0, 3⟩ : Instruction).imm32 ≠ 0 ∧ (⟨0, 0, 0, 0, 3⟩ : Instruction).imm32 < 2 ^ 32
        ∧ ({ zeroState with r := fun _ => 100 } : VMState).r
            ((⟨0, 0, 0, 0, 3⟩ : Instruction).dst % 8) < 2 ^ 64)
      ∧ (executeBytecode zeroFloatOps (fun _ _ _ => false) 0
          (withRecord { zeroState with r := fun _ => 100 } 0
            (precompileInstruction .IDIV_C ⟨0, 0, 0, 0, 3⟩ zeroRecord))).map (fun s => s.r 0)
        = some 133 :=
  ⟨⟨by decide, by decide, by decide⟩, by
    rw [(C4_IDIV_C_magic_quotient zeroFloatOps (fun _ _ _ => false) 0
      { zeroState with r := fun _ => 100 } ⟨0, 0, 0, 0, 3⟩ zeroRecord (by decide) (by decide)
      three_ne_two_pow (by decide)).2.2.2.2.2.2.2.2]
    simp⟩

/-! ### IDIV_C by a power of two -/

/-- The shift-counting loop computes the logarithm of a power of two. -/
theorem shiftLoop_two_pow (k shift : Nat) : shiftLoop (2 ^ k) shift = shift + k := by
  induction k generalizing shift with
  | zero =>
    rw [shiftLoop]
    simp
  | succ k ih =>
    rw [shiftLoop]
    have hdiv : 2 ^ (k + 1) / 2 = 2 ^ k := by
      rw [pow_succ]
      exact Nat.mul_div_cancel _ (by decide)
    have hne : 2 ^ k ≠ 0 := by positivity
    simp only [hdiv, ne_eq, hne, not_false_eq_true, dite_true]
    rw [ih]
    omega

/-- C5: for the divisor `imm32 = 2 ^ k` with `k ≤ 31`, `precompileProgram` lowers `IDIV_C`
to a record of kind `IDIV_C` with `signedMultiplier = 0` and `shift = k`, bound to
`r[dst mod 8]`; executing the record on a 64-bit destination value `d` leaves
`(d + d / 2 ^ k) mod 2 ^ 64` there and changes nothing else. -/
theorem C5_IDIV_C_power_of_two (fo : FloatOps) (condition : Nat → Nat → Nat → Bool)
    (i : Nat) (st : VMState) (instr : Instruction) (ibc0 : InstructionByteCode) (k : Nat)
    (hk : k ≤ 31) (himm : instr.imm32 = 2 ^ k) (hd : st.r (instr.dst % 8) < 2 ^ 64) :
    (precompileInstruction .IDIV_C instr ibc0).type = InstructionType.IDIV_C
      ∧ (precompileInstruction .IDIV_C instr ibc0).signedMultiplier = 0
      ∧ (precompileInstruction .IDIV_C instr ibc0).shift = k
      ∧ (precompileInstruction .IDIV_C instr ibc0).idst = instr.dst % 8
      ∧ executeBytecode fo condition i
            (withRecord st i (precompileInstruction .IDIV_C instr ibc0))
          = some { withRecord st i (precompileInstruction .IDIV_C instr ibc0) with
              r := Function.update st.r (instr.dst % 8)
                ((st.r (instr.dst % 8) + st.r (instr.dst % 8) / 2 ^ k) % 2 ^ 64) } := by
  have hlt : 2 ^ k < 2 ^ 32 := Nat.pow_lt_pow_right (by decide) (by omega)
  have hmod : instr.imm32 % 2 ^ 32 = 2 ^ k := by rw [himm]; exact Nat.mod_eq_of_lt hlt
  have hne : (2 : Nat) ^ k ≠ 0 := by positivity
  have hand : 2 ^ k &&& (2 ^ k - 1) = 0 := by
    rw [Nat.and_pow_two_sub_one_eq_mod]
    exact Nat.mod_self _
  have hpre : precompileInstruction .IDIV_C instr ibc0
      = { ibc0 with type := InstructionType.IDIV_C, idst := instr.dst % 8,
                    signedMultiplier := 0, shift := k } := by
    simp only [precompileInstruction, precompileDiv, hmod, hand, RegistersCount]
    simp [hne, shiftLoop_two_pow]
  have h8 : instr.dst % 8 < 8 := Nat.mod_lt _ (by decide)
  refine ⟨by rw [hpre], by rw [hpre], by rw [hpre], by rw [hpre], ?_⟩
  have hd2 : st.r (instr.dst % 8) % 18446744073709551616 = st.r (instr.dst % 8) :=
    Nat.mod_eq_of_lt hd
  rw [hpre]
  simp [executeBytecode, withRecord, readDst, writeDst, RegistersCount, h8, idivQuotient,
    hd2, Nat.shiftRight_eq_div_pow]

/-- C5 at `k = 3`: `imm32 = 8`, destination `r[0] = 100`, result `100 + 12`. -/
theorem C5_IDIV_C_power_of_two_witness :
    (3 ≤ 31 ∧ (⟨0, 0, 0, 0, 8⟩ : Instruction).imm32 = 2 ^ 3
        ∧ ({ zeroState with r := fun _ => 100 } : VMState).r
            ((⟨0, 0, 0, 0, 8⟩ : Instruction).dst % 8) < 2 ^ 64)
      ∧ (precompileInstruction .IDIV_C ⟨0, 0, 0, 0, 8⟩ zeroRecord).shift = 3 :=
  ⟨⟨by decide, by decide, by decide⟩,
    (C5_IDIV_C_power_of_two zeroFloatOps (fun _ _ _ => false) 0
      { zeroState with r := fun _ => 100 } ⟨0, 0, 0, 0, 8⟩ zeroRecord 3
      (by decide) (by decide) (by decide)).2.2.1⟩

/-! ### Memory masks -/

/-- The level mask is `L1` or `L2`. -/
theorem levelMask_eq (instr : Instruction) :
    levelMask instr = (if instr.mod &&& 3 ≠ 0 then ScratchpadL1Mask else ScratchpadL2Mask) := by
  have h : instr.mod &&& 3 = instr.mod % 4 := Nat.and_pow_two_sub_one_eq_mod instr.mod 2
  simp [levelMask, h]

/-- The kinds other than `ISTORE` that address the scratchpad through `memMask` get a
mask out of `L1`, `L2`, `L3` from the precompiler, whatever the record held. -/
theorem memMask_of_load_kinds (t : InstructionType) (instr : Instruction)
    (ibc0 : InstructionByteCode)
    (ht : t = .IADD_M ∨ t = .ISUB_M ∨ t = .IMUL_M ∨ t = .IMULH_M ∨ t = .ISMULH_M
      ∨ t = .IXOR_M ∨ t = .FADD_M ∨ t = .FSUB_M ∨ t = .FDIV_M ∨ t = .COND_M) :
    (precompileInstruction t instr ibc0).memMask = ScratchpadL1Mask
      ∨ (precompileInstruction t instr ibc0).memMask = ScratchpadL2Mask
      ∨ (precompileInstruction t instr ibc0).memMask = ScratchpadL3Mask := by
  have hl : levelMask instr = ScratchpadL1Mask ∨ levelMask instr = ScratchpadL2Mask := by
    unfold levelMask
    split
    · exact Or.inl rfl
    · exact Or.inr rfl
  rcases ht with h | h | h | h | h | h | h | h | h | h <;> subst h <;>
    simp only [precompileInstruction, precompileMem] <;>
    first
      | (split
         · rcases hl with h1 | h1
           · exact Or.inl h1
           · exact Or.inr (Or.inl h1)
         · exact Or.inr (Or.inr rfl))
      | (rcases hl with h1 | h1
         · exact Or.inl h1
         · exact Or.inr (Or.inl h1))

/-- C6, evaluated on the code: precompiling `programC3`, whose slot 0 is `ISTORE` with
`mod = 0`, over a buffer whose slot 0 held `memMask = 5` yields an `ISTORE` record whose
`memMask` is still `5`: it is none of `L1`, `L2`, `L3` (the claim gives `L2`) and
`memMask & 7` is `5`, not `0`.  The `ISTORE` case does not assign `memMask`. -/
theorem C6_ISTORE_keeps_prior_memMask :
    (precompileProgram decodeC3 programC3 (bufferWithMask 5) 0).type = InstructionType.ISTORE
      ∧ (programC3 0).mod &&& 3 = 0
      ∧ (precompileProgram decodeC3 programC3 (bufferWithMask 5) 0).memMask = 5
      ∧ (5 : Nat) ≠ ScratchpadL1Mask ∧ (5 : Nat) ≠ ScratchpadL2Mask
      ∧ (5 : Nat) ≠ ScratchpadL3Mask
      ∧ (precompileProgram decodeC3 programC3 (bufferWithMask 5) 0).memMask &&& 7 = 5 := by
  have h : precompileProgram decodeC3 programC3 (bufferWithMask 5) 0
      = { zeroRecord with memMask := 5, type := InstructionType.ISTORE, idst := 0,
                          isrc := IntRef.reg 1 } := by
    rw [precompileProgram_apply]
    simp [ProgramLength, programC3, decodeC3, precompileInstruction, bufferWithMask,
      RegistersCount]
  rw [h]
  refine ⟨rfl, by decide, rfl, by decide, by decide, by decide, by decide⟩

/-! ### Kinds without a body in the precompiler -/

/-- The cases `FMUL_M`, `FDIV_R`, `FSTORE` of the precompiler leave the record as it was. -/
theorem precompileInstruction_empty_cases (instr : Instruction) (ibc0 : InstructionByteCode) :
    precompileInstruction .FMUL_M instr ibc0 = ibc0
      ∧ precompileInstruction .FDIV_R instr ibc0 = ibc0
      ∧ precompileInstruction .FSTORE instr ibc0 = ibc0 :=
  ⟨rfl, rfl, rfl⟩

/-- The case `ISDIV_C` of the precompiler yields kind `NOP` over every record, and
executing the slot changes nothing. -/
theorem ISDIV_C_is_NOP (fo : FloatOps) (condition : Nat → Nat → Nat → Bool) (i : Nat)
    (st : VMState) (instr : Instruction) (ibc0 : InstructionByteCode) :
    (precompileInstruction .ISDIV_C instr ibc0).type = InstructionType.NOP
      ∧ executeBytecode fo condition i
            (withRecord st i (precompileInstruction .ISDIV_C instr ibc0))
          = some (withRecord st i (precompileInstruction .ISDIV_C instr ibc0)) := by
  constructor
  · rfl
  · simp [executeBytecode, withRecord, precompileInstruction]

/-! ### Operand binding of the register forms -/

/-- C8, counterexample: `IROR_R` with `src = dst = 0` and `imm32 = 0x80000000` takes its
source from the record's own immediate, and that immediate is `0x80000000`, not the
sign extension `0xFFFFFFFF80000000`. -/
theorem C8_IROR_R_immediate_not_sign_extended :
    (⟨0, 0, 0, 0, 0x80000000⟩ : Instruction).src % 8 = (⟨0, 0, 0, 0, 0x80000000⟩ : Instruction).dst % 8
      ∧ (precompileInstruction .IROR_R ⟨0, 0, 0, 0, 0x80000000⟩ zeroRecord).isrc = IntRef.imm
      ∧ (precompileInstruction .IROR_R ⟨0, 0, 0, 0, 0x80000000⟩ zeroRecord).imm = 0x80000000
      ∧ signExtend2sCompl 0x80000000 = 0xFFFFFFFF80000000
      ∧ (precompileInstruction .IROR_R ⟨0, 0, 0, 0, 0x80000000⟩ zeroRecord).imm
          ≠ signExtend2sCompl (⟨0, 0, 0, 0, 0x80000000⟩ : Instruction).imm32 := by
  refine ⟨by decide, by decide, by decide, by decide, by decide⟩

/-- C8, amended: for a raw instruction decoding to `IADD_R`, `ISUB_R`, `IMUL_R`, `IXOR_R`,
`IROR_R` or `IROL_R` the destination is `r[dst mod 8]`; when `src mod 8` differs from
`dst mod 8` the source operand is `r[src mod 8]`; when they are equal the source operand
is the record's own immediate, which is `imm32` sign-extended to 64 bits for `IADD_R`,
`ISUB_R`, `IMUL_R`, `IXOR_R` and `imm32` zero-extended for `IROR_R`, `IROL_R`. -/
theorem C8_register_form_binding (t : InstructionType) (instr : Instruction)
    (ibc0 : InstructionByteCode)
    (ht : t = .IADD_R ∨ t = .ISUB_R ∨ t = .IMUL_R ∨ t = .IXOR_R ∨ t = .IROR_R ∨ t = .IROL_R) :
    (precompileInstruction t instr ibc0).type = t
      ∧ (precompileInstruction t instr ibc0).idst = instr.dst % 8
      ∧ (instr.src % 8 ≠ instr.dst % 8 →
          (precompileInstruction t instr ibc0).isrc = IntRef.reg (instr.src % 8))
      ∧ (instr.src % 8 = instr.dst % 8 →
          (precompileInstruction t instr ibc0).isrc = IntRef.imm
          ∧ (precompileInstruction t instr ibc0).imm
              = (if t = .IROR_R ∨ t = .IROL_R then instr.imm32 % 2 ^ 32
                 else signExtend2sCompl instr.imm32)) := by
  rcases ht with h | h | h | h | h | h <;> subst h <;>
    by_cases hsd : instr.src % 8 = instr.dst % 8 <;>
    simp [precompileInstruction, precompileRegSigned, precompileRegRotate, RegistersCount, hsd]

/-- C8 (amended) at `IXOR_R` with `src = 9`, `dst = 1`, `imm32 = 0xFFFFFFFF`. -/
theorem C8_register_form_binding_witness :
    (InstructionType.IXOR_R = .IADD_R ∨ InstructionType.IXOR_R = .ISUB_R
        ∨ InstructionType.IXOR_R = .IMUL_R ∨ InstructionType.IXOR_R = .IXOR_R
        ∨ InstructionType.IXOR_R = .IROR_R ∨ InstructionType.IXOR_R = .IROL_R)
      ∧ (precompileInstruction .IXOR_R ⟨0, 1, 9, 0, 0xFFFFFFFF⟩ zeroRecord).isrc = IntRef.imm :=
  ⟨by decide,
    ((C8_register_form_binding .IXOR_R ⟨0, 1, 9, 0, 0xFFFFFFFF⟩ zeroRecord (by decide)).2.2.2
      (by decide)).1⟩

/-! ### Operand binding of the memory forms -/

/-- C9, counterexample: `IADD_M` with the bytes `src = 0`, `dst = 8`, `mod = 0` has
`src mod 8 = dst mod 8`, yet its address operand is `r[0]` and its mask is `L2`, not the
immediate with `L3`. -/
theorem C9_IADD_M_unreduced_bytes :
    (⟨0, 8, 0, 0, 0⟩ : Instruction).src % 8 = (⟨0, 8, 0, 0, 0⟩ : Instruction).dst % 8
      ∧ (precompileInstruction .IADD_M ⟨0, 8, 0, 0, 0⟩ zeroRecord).isrc = IntRef.reg 0
      ∧ (precompileInstruction .IADD_M ⟨0, 8, 0, 0, 0⟩ zeroRecord).isrc ≠ IntRef.imm
      ∧ (precompileInstruction .IADD_M ⟨0, 8, 0, 0, 0⟩ zeroRecord).memMask = ScratchpadL2Mask
      ∧ (precompileInstruction .IADD_M ⟨0, 8, 0, 0, 0⟩ zeroRecord).memMask ≠ ScratchpadL3Mask := by
  refine ⟨by decide, by decide, by decide, by decide, by decide⟩

/-- C9, amended: for a raw instruction decoding to `IADD_M`, `ISUB_M`, `IMUL_M`, `IXOR_M`,
`IMULH_M` or `ISMULH_M` the destination is `r[dst mod 8]`, and the test is on the bytes
themselves: if the byte `src` equals the byte `dst`, the address operand is `imm32`
zero-extended to 64 bits and `memMask = L3`; otherwise the address operand is
`r[src mod 8]` and `memMask` is `L1` when `mod & 3` is non-zero and `L2` otherwise.  For
bytes below 8, as `initialize` leaves them, the test is the claim's `src mod 8 = dst mod 8`. -/
theorem C9_memory_form_binding (t : InstructionType) (instr : Instruction)
    (ibc0 : InstructionByteCode)
    (ht : t = .IADD_M ∨ t = .ISUB_M ∨ t = .IMUL_M ∨ t = .IXOR_M ∨ t = .IMULH_M
      ∨ t = .ISMULH_M) :
    (precompileInstruction t instr ibc0).type = t
      ∧ (precompileInstruction t instr ibc0).idst = instr.dst % 8
      ∧ (instr.src = instr.dst →
          (precompileInstruction t instr ibc0).isrc = IntRef.imm
          ∧ (precompileInstruction t instr ibc0).imm = instr.imm32 % 2 ^ 32
          ∧ (precompileInstruction t instr ibc0).memMask = ScratchpadL3Mask)
      ∧ (instr.src ≠ instr.dst →
          (precompileInstruction t instr ibc0).isrc = IntRef.reg (instr.src % 8)
          ∧ (precompileInstruction t instr ibc0).memMask
              = (if instr.mod &&& 3 ≠ 0 then ScratchpadL1Mask else ScratchpadL2Mask))
      ∧ (instr.src < 8 → instr.dst < 8 →
          (instr.src = instr.dst ↔ instr.src % 8 = instr.dst % 8)) := by
  have hlast : instr.src < 8 → instr.dst < 8 →
      (instr.src = instr.dst ↔ instr.src % 8 = instr.dst % 8) := by
    intro h1 h2
    rw [Nat.mod_eq_of_lt h1, Nat.mod_eq_of_lt h2]
  have hl := levelMask_eq instr
  refine ⟨?_, ?_, ?_, ?_, hlast⟩ <;>
    rcases ht with h | h | h | h | h | h <;> subst h <;>
    by_cases hsd : instr.src = instr.dst <;>
    simp [precompileInstruction, precompileMem, RegistersCount, hsd, hl]

/-- C9 (amended) at `IMULH_M` with `src = 2`, `dst = 5`, `mod = 1`. -/
theorem C9_memory_form_binding_witness :
    (InstructionType.IMULH_M = .IADD_M ∨ InstructionType.IMULH_M = .ISUB_M
        ∨ InstructionType.IMULH_M = .IMUL_M ∨ InstructionType.IMULH_M = .IXOR_M
        ∨ InstructionType.IMULH_M = .IMULH_M ∨ InstructionType.IMULH_M = .ISMULH_M)
      ∧ (precompileInstruction .IMULH_M ⟨0, 5, 2, 1, 7⟩ zeroRecord).isrc = IntRef.reg (2 % 8) :=
  ⟨by decide,
    ((C9_memory_form_binding .IMULH_M ⟨0, 5, 2, 1, 7⟩ zeroRecord (by decide)).2.2.2.1
      (by decide)).1⟩

/-! ### FSCAL_R -/

/-- The bits of the constant `0x81F0000000000000`: bit 63 and bits 52 to 56. -/
theorem signMask_testBit (b : Nat) :
    Nat.testBit 0x81F0000000000000 b = decide (b = 63 ∨ (52 ≤ b ∧ b ≤ 56)) := by
  by_cases hb : b < 64
  · interval_cases b <;> decide
  · have hge : 64 ≤ b := by omega
    have hlt : 0x81F0000000000000 < 2 ^ b :=
      lt_of_lt_of_le (by decide : 0x81F0000000000000 < 2 ^ 64)
        (Nat.pow_le_pow_right (by decide) hge)
    rw [Nat.testBit_lt_two_pow hlt]
    symm
    simp only [decide_eq_false_iff_not]
    omega

/-- C10, counterexample: `FSCAL_R` on a lane that is all zero yields the pattern
`0x81F0000000000000`, in which bit 62, the most significant exponent bit, is still `0`
and bit 52 has changed to `1`. -/
theorem C10_FSCAL_R_leaves_bit_62 :
    (executeBytecode zeroFloatOps (fun _ _ _ => false) 0
        (withRecord zeroState 0 (precompileInstruction .FSCAL_R ⟨0, 0, 0, 0, 0⟩ zeroRecord))).map
        (fun s => (s.f 0).lo) = some 0x81F0000000000000
      ∧ Nat.testBit 0x81F0000000000000 62 = Nat.testBit 0 62
      ∧ Nat.testBit 0x81F0000000000000 52 ≠ Nat.testBit 0 52 := by
  refine ⟨?_, by decide, by decide⟩
  simp [executeBytecode, withRecord, precompileInstruction, zeroRecord, zeroState, readFloat,
    writeFloat, _mm_xor_pd, _mm_set1_epi64x]

/-- C10, amended: executing `FSCAL_R` replaces each of the two lanes of `f[dst mod 4]` by
its XOR with `0x81F0000000000000`, which inverts the sign bit (bit 63) and the five low
bits of the exponent field (bits 52 to 56) and leaves every other bit of the lane, bit 62
included, unchanged; no other register changes. -/
theorem C10_FSCAL_R_flips_sign_and_low_exponent_bits (fo : FloatOps)
    (condition : Nat → Nat → Nat → Bool) (i : Nat) (st : VMState) (instr : Instruction)
    (ibc0 : InstructionByteCode) :
    executeBytecode fo condition i
        (withRecord st i (precompileInstruction .FSCAL_R instr ibc0))
      = some { withRecord st i (precompileInstruction .FSCAL_R instr ibc0) with
          f := Function.update st.f (instr.dst % 4)
            ⟨(st.f (instr.dst % 4)).lo ^^^ 0x81F0000000000000,
             (st.f (instr.dst % 4)).hi ^^^ 0x81F0000000000000⟩ }
      ∧ ∀ x b : Nat, Nat.testBit (x ^^^ 0x81F0000000000000) b
          = xor (Nat.testBit x b) (decide (b = 63 ∨ (52 ≤ b ∧ b ≤ 56))) := by
  have h4 : instr.dst % 4 < 4 := Nat.mod_lt _ (by decide)
  constructor
  · simp [executeBytecode, withRecord, precompileInstruction, readFloat, writeFloat, _mm_xor_pd,
      _mm_set1_epi64x, h4]
  · intro x b
    rw [Nat.testBit_xor, signMask_testBit]

/-! ### The pointer pair across iterations -/

/-- A value masked with `CacheLineAlignMask` has its six low bits clear. -/
theorem and_CacheLineAlignMask_aligned (x : Nat) : (x &&& CacheLineAlignMask) &&& 63 = 0 := by
  have h : CacheLineAlignMask &&& 63 = 0 := by decide
  rw [Nat.and_assoc, h, Nat.and_zero]

/-- Both branches of the dataset step leave an aligned `mem.ma` and move the old
`mem.ma` to `mem.mx`. -/
theorem datasetMix_pointers (line : Nat → Nat → Nat) (readReg2 readReg3 : Nat) (s : MixState) :
    ((datasetMixAsync line readReg2 readReg3 s).ma &&& 63 = 0
        ∧ (datasetMixAsync line readReg2 readReg3 s).mx = s.ma)
      ∧ ((datasetMixSync line readReg2 readReg3 s).ma &&& 63 = 0
        ∧ (datasetMixSync line readReg2 readReg3 s).mx = s.ma) := by
  simp only [datasetMixAsync, datasetMixSync, and_CacheLineAlignMask_aligned, and_self]

/-- One iteration of `execute`, in either mode: afterwards `mem.ma` is aligned and
`mem.mx` is what `mem.ma` was before. -/
theorem executeIteration_pointers (fo : FloatOps) (condition : Nat → Nat → Nat → Bool)
    (cfg : ExecConfig) (s s1 : ExecState) (h : executeIteration fo condition cfg s = some s1) :
    s1.ma &&& 63 = 0 ∧ s1.mx = s.ma := by
  unfold executeIteration at h
  simp only [Option.map_eq_some'] at h
  obtain ⟨vm, _, rfl⟩ := h
  have hp := datasetMix_pointers
  by_cases ha : cfg.asyncWorker = true
  · simp only [ha, if_true]
    exact (hp cfg.getBlock cfg.readReg2 cfg.readReg3 _).1
  · simp only [ha]
    exact (hp cfg.initBlock cfg.readReg2 cfg.readReg3 _).2

/-- An iteration of `execute` over a dispatch buffer whose records are all `NOP`
returns, and leaves the dispatch buffer as it was. -/
theorem executeIteration_nop (fo : FloatOps) (condition : Nat → Nat → Nat → Bool)
    (cfg : ExecConfig) (s : ExecState)
    (hnop : ∀ j, (s.vm.byteCode j).type = InstructionType.NOP) :
    ∃ s1, executeIteration fo condition cfg s = some s1
      ∧ s1.vm.byteCode = s.vm.byteCode := by
  have key : ∀ st : VMState, st.byteCode = s.vm.byteCode →
      executeBytecodeFrom fo condition ProgramLength 0 st = some st := by
    intro st hst
    exact executeBytecodeFrom_nop fo condition ProgramLength 0 st
      (fun j _ _ => by rw [hst]; exact hnop j)
  simp only [executeIteration, executeBytecodeAll]
  rw [key]
  · exact ⟨_, rfl, rfl⟩
  · rfl

/-- The dispatch buffer of `entryNop` holds `NOP` in every slot. -/
theorem entryNop_all_nop (ma mx : Nat) (j : Nat) :
    ((entryNop ma mx).vm.byteCode j).type = InstructionType.NOP := by
  simp only [entryNop, executeInit, precompileProgram_apply, programNop, decodeC3]
  split <;> rfl

/-- C11, counterexample: from the entry state with `mem.ma = 1`, `mem.mx = 0` (all
records `NOP`, non-async mode) the first iteration ends with `mem.mx = 1`, so
`mem.mx & 63` is `1`, not `0`. -/
theorem C11_first_iteration_keeps_unaligned_ma :
    (executeIteration zeroFloatOps (fun _ _ _ => false) cfgC3 (entryNop 1 0)).map
        (fun s => s.mx &&& 63) = some 1 := by
  obtain ⟨s1, h1, _⟩ := executeIteration_nop zeroFloatOps (fun _ _ _ => false) cfgC3
    (entryNop 1 0) (entryNop_all_nop 1 0)
  have hp := executeIteration_pointers _ _ _ _ _ h1
  rw [h1, Option.map_some', hp.2]
  rfl

/-! ### Order of the dataset steps without async worker -/

/-- The non-async branch, spelled out: the new `mem.ma` is computed from the registers
as they are before the dataset line is folded in; the new `mem.mx` is the old `mem.ma`;
the registers receive the line of block `mem.ma / 64`. -/
theorem datasetMixSync_eq (initBlock : Nat → Nat → Nat) (readReg2 readReg3 : Nat)
    (s : MixState) :
    (datasetMixSync initBlock readReg2 readReg3 s).ma
        = ((s.mx ^^^ (s.r readReg2 ^^^ s.r readReg3)) % 2 ^ 32) &&& CacheLineAlignMask
      ∧ (datasetMixSync initBlock readReg2 readReg3 s).mx = s.ma
      ∧ (datasetMixSync initBlock readReg2 readReg3 s).r
          = xorLine s.r (initBlock (s.ma / CacheLineSize)) :=
  ⟨rfl, rfl, rfl⟩

/-- C12, evaluated on the code: in non-async mode, with all registers zero,
`mem.ma = mem.mx = 0`, `readReg2 = 0`, `readReg3 = 1` and a dataset line whose lane 0 is
`0x40`, the iteration ends with `mem.ma = 0`, whereas the value computed from the
registers after the XOR of the line, `(mx ^ r'[0] ^ r'[1]) & 0xFFFFFFC0`, is `0x40`.  The
new `mem.mx` is the old `mem.ma`, as claimed. -/
theorem C12_inline_mix_updates_mx_before_fold :
    (datasetMixSync initBlockC2 0 1 { r := fun _ => 0, ma := 0, mx := 0 }).ma = 0
      ∧ ((0 ^^^ (xorLine (fun _ => 0) (initBlockC2 (0 / CacheLineSize)) 0
            ^^^ xorLine (fun _ => 0) (initBlockC2 (0 / CacheLineSize)) 1)) % 2 ^ 32)
          &&& CacheLineAlignMask = 0x40
      ∧ (datasetMixSync initBlockC2 0 1 { r := fun _ => 0, ma := 0, mx := 0 }).mx = 0 := by
  refine ⟨by decide, by decide, by decide⟩

/-! ### The registers `e` after the block load -/

/-- The absolute value of a converted integer: `+0.0` for zero, and otherwise a pattern
from that of `1.0` up to below `2 ^ 32`, sign bit clear. -/
theorem abs_cvt_i32_f64 (x : Nat) :
    (x % 2 ^ 32 = 0 → cvt_i32_f64 x &&& 0x7FFFFFFFFFFFFFFF = 0)
      ∧ (x % 2 ^ 32 ≠ 0 →
          1023 * 2 ^ 52 ≤ cvt_i32_f64 x &&& 0x7FFFFFFFFFFFFFFF
          ∧ cvt_i32_f64 x &&& 0x7FFFFFFFFFFFFFFF < 1055 * 2 ^ 52) := by
  have hmask : (0x7FFFFFFFFFFFFFFF : Nat) = 2 ^ 63 - 1 := by decide
  constructor
  · intro h0
    simp only [cvt_i32_f64, h0, if_true]
    exact Nat.zero_and _
  · intro hne
    have hn32 : x % 2 ^ 32 < 2 ^ 32 := Nat.mod_lt _ (by decide)
    simp only [cvt_i32_f64, hne, if_false]
    generalize hmag : (if x % 2 ^ 32 < 2 ^ 31 then x % 2 ^ 32 else 2 ^ 32 - x % 2 ^ 32) = mag
    generalize hsign : (if x % 2 ^ 32 < 2 ^ 31 then 0 else 1 : Nat) = sign
    have hmag0 : mag ≠ 0 := by
      rw [← hmag]
      split <;> omega
    have hmag31 : mag ≤ 2 ^ 31 := by
      rw [← hmag]
      split <;> omega
    have hsign1 : sign ≤ 1 := by
      rw [← hsign]
      split <;> omega
    have hlo := Nat.log2_self_le hmag0
    have hhi : mag < 2 ^ (mag.log2 + 1) := Nat.lt_log2_self
    have hk : mag.log2 < 32 := (Nat.log2_lt hmag0).2 (by omega)
    have hpow : 2 ^ (mag.log2 + 1) = 2 * 2 ^ mag.log2 := by rw [pow_succ]; ring
    have hfrac : (mag - 2 ^ mag.log2) * 2 ^ (52 - mag.log2) < 2 ^ 52 := by
      have h1 : (mag - 2 ^ mag.log2) * 2 ^ (52 - mag.log2)
          < 2 ^ mag.log2 * 2 ^ (52 - mag.log2) :=
        Nat.mul_lt_mul_of_pos_right (by omega) (by positivity)
      have h2 : 2 ^ mag.log2 * 2 ^ (52 - mag.log2) = 2 ^ 52 := by
        rw [← pow_add]
        congr 1
        omega
      omega
    rw [hmask, Nat.and_pow_two_sub_one_eq_mod]
    generalize (mag - 2 ^ mag.log2) * 2 ^ (52 - mag.log2) = frac at hfrac
    generalize mag.log2 = k at hk
    norm_num at hfrac ⊢
    omega

/-- A pattern from that of `DBL_MIN` up to that of infinity is a double `>= DBL_MIN`. -/
theorem doubleGe_DBL_MIN_of_range (v : Nat) (h1 : DBL_MIN ≤ v) (h2 : v ≤ 0x7FF0000000000000) :
    doubleGe v DBL_MIN = true := by
  have hv : v % 2 ^ 63 = v := Nat.mod_eq_of_lt (by omega)
  have hv64 : v % 2 ^ 64 = v := Nat.mod_eq_of_lt (by omega)
  have hD1 : DBL_MIN % 2 ^ 63 = DBL_MIN := by decide
  have hD2 : DBL_MIN % 2 ^ 64 = DBL_MIN := by decide
  have hDlt : DBL_MIN < 2 ^ 63 := by decide
  have hvlt : v < 2 ^ 63 := by omega
  simp only [doubleGe, isNaN, doubleKey, hv, hv64, hD1, hD2, hDlt, hvlt, if_true]
  have hn1 : ¬ (0x7FF0000000000000 < v) := by omega
  have hn2 : ¬ (0x7FF0000000000000 < DBL_MIN) := by decide
  simp [hn1, hn2, h1]

/-- C13, counterexample: on a scratchpad that is zero at `spAddr1 + 32 ..` the exact
conversion gives the lane `+0.0` (pattern `0`) in `e[0]`, which is not `>= DBL_MIN`. -/
theorem C13_zero_integer_gives_zero_lane :
    (loadE exactCvtOps (fun _ => 0) 0 (fun _ => ⟨0, 0⟩) 0).lo = 0
      ∧ doubleGe (loadE exactCvtOps (fun _ => 0) 0 (fun _ => ⟨0, 0⟩) 0).lo DBL_MIN = false := by
  have h : (loadE exactCvtOps (fun _ => 0) 0 (fun _ => ⟨0, 0⟩) 0).lo = 0 := by
    simp [loadE, load_cvt_i32x2, _mm_abs, exactCvtOps, cvt_i32_f64, loadLE]
  rw [h]
  exact ⟨rfl, by decide⟩

/-! ### IDIV_C by zero -/

/-- C14: for `IDIV_C` with `imm32 == 0` the precompiler writes a record of kind `NOP`,
and executing the slot returns the state unchanged (every register, the scratchpad); for
`imm32 != 0` the record has kind `IDIV_C` and destination `r[dst mod 8]`. -/
theorem C14_IDIV_C_zero_divisor (fo : FloatOps) (condition : Nat → Nat → Nat → Bool)
    (i : Nat) (st : VMState) (instr : Instruction) (ibc0 : InstructionByteCode) :
    if instr.imm32 % 2 ^ 32 = 0 then
      (precompileInstruction .IDIV_C instr ibc0).type = InstructionType.NOP
        ∧ executeBytecode fo condition i
              (withRecord st i (precompileInstruction .IDIV_C instr ibc0))
            = some (withRecord st i (precompileInstruction .IDIV_C instr ibc0))
    else
      (precompileInstruction .IDIV_C instr ibc0).type = InstructionType.IDIV_C
        ∧ (precompileInstruction .IDIV_C instr ibc0).idst = instr.dst % 8 := by
  by_cases h0 : instr.imm32 % 2 ^ 32 = 0
  · rw [if_pos h0]
    have hpre : precompileInstruction .IDIV_C instr ibc0
        = { ibc0 with type := InstructionType.NOP } := by
      simp only [precompileInstruction, precompileDiv, h0, ne_eq, not_true_eq_false, if_false]
    rw [hpre]
    exact ⟨rfl, by simp [executeBytecode, withRecord]⟩
  · rw [if_neg h0]
    simp only [precompileInstruction, precompileDiv, ne_eq, h0, not_false_eq_true, if_true,
      RegistersCount]
    split <;> exact ⟨rfl, rfl⟩

/-! ### ISWAP_R -/

/-- C15: for `ISWAP_R` the dispatch kind is `NOP` when `src mod 8` equals `dst mod 8`;
otherwise the kind is `ISWAP_R` (so not `NOP`), and executing the record leaves the old
`r[src mod 8]` in `r[dst mod 8]`, the old `r[dst mod 8]` in `r[src mod 8]`, and every
other register as it was. -/
theorem C15_ISWAP_R (fo : FloatOps) (condition : Nat → Nat → Nat → Bool)
    (i : Nat) (st : VMState) (instr : Instruction) (ibc0 : InstructionByteCode) :
    if instr.src % 8 = instr.dst % 8 then
      (precompileInstruction .ISWAP_R instr ibc0).type = InstructionType.NOP
    else
      (precompileInstruction .ISWAP_R instr ibc0).type = InstructionType.ISWAP_R
        ∧ ∃ st1, executeBytecode fo condition i
              (withRecord st i (precompileInstruction .ISWAP_R instr ibc0)) = some st1
          ∧ st1.r (instr.dst % 8) = st.r (instr.src % 8)
          ∧ st1.r (instr.src % 8) = st.r (instr.dst % 8)
          ∧ (∀ j, j ≠ instr.src % 8 → j ≠ instr.dst % 8 → st1.r j = st.r j)
          ∧ st1.f = st.f ∧ st1.e = st.e ∧ st1.a = st.a ∧ st1.scratchpad = st.scratchpad := by
  have hs8 : instr.src % 8 < 8 := Nat.mod_lt _ (by decide)
  have hd8 : instr.dst % 8 < 8 := Nat.mod_lt _ (by decide)
  by_cases h : instr.src % 8 = instr.dst % 8
  · rw [if_pos h]
    simp [precompileInstruction, RegistersCount, h]
  · rw [if_neg h]
    have hpre : precompileInstruction .ISWAP_R instr ibc0
        = { ibc0 with idst := instr.dst % 8, isrc := IntRef.reg (instr.src % 8),
                      type := InstructionType.ISWAP_R } := by
      simp [precompileInstruction, RegistersCount, h]
    rw [hpre]
    refine ⟨rfl, ?_⟩
    refine ⟨{ withRecord st i { ibc0 with idst := instr.dst % 8,
                                          isrc := IntRef.reg (instr.src % 8),
                                          type := InstructionType.ISWAP_R } with
              r := Function.update (Function.update st.r (instr.src % 8) (st.r (instr.dst % 8)))
                (instr.dst % 8) (st.r (instr.src % 8)) }, ?_, ?_, ?_, ?_, rfl, rfl, rfl, rfl⟩
    · simp [executeBytecode, withRecord, readInt, readDst, writeDst, RegistersCount, hs8, hd8]
    · simp
    · simp [Function.update_noteq h]
    · intro j hj1 hj2
      simp [Function.update_noteq hj1, Function.update_noteq hj2]

/-! ### Idempotence of the precompiler -/

/-- Precompiling one slot twice gives what precompiling it once gives. -/
theorem precompileInstruction_idem (t : InstructionType) (instr : Instruction)
    (ibc : InstructionByteCode) :
    precompileInstruction t instr (precompileInstruction t instr ibc)
      = precompileInstruction t instr ibc := by
  cases t <;>
    simp only [precompileInstruction, precompileRegSigned, precompileRegRotate, precompileMem,
      precompileDiv] <;>
    (repeat' split) <;> rfl

/-- C16: precompilation is idempotent.  For every program and every prior content of the
dispatch buffer, running `precompileProgram` a second time over the buffer that the first
run produced changes no field of any record (register bindings being register
indices). -/
theorem C16_precompileProgram_idempotent (decode : Nat → InstructionType)
    (program : Nat → Instruction) (byteCode : Nat → InstructionByteCode) :
    precompileProgram decode program (precompileProgram decode program byteCode)
      = precompileProgram decode program byteCode := by
  funext i
  rw [precompileProgram_apply decode program i (precompileProgram decode program byteCode),
    precompileProgram_apply decode program i byteCode]
  split
  · exact precompileInstruction_idem _ _ _
  · rfl

/-! ### Register reduction of `initialize` -/

/-- Slot `i` after the first `n` turns of the reduction loop. -/
theorem initializeLoop_apply (program : Nat → Instruction) (n i : Nat) :
    initializeLoop program n i
      = if i < n then
          { program i with src := (program i).src % RegistersCount,
                           dst := (program i).dst % RegistersCount }
        else program i := by
  induction n with
  | zero => simp [initializeLoop]
  | succ n ih =>
    by_cases hi : i = n
    · subst hi
      have hself := ih
      simp only [lt_irrefl, if_false] at hself
      simp [initializeLoop, hself]
    · have hlt : i < n + 1 ↔ i < n := by omega
      simp [initializeLoop, Function.update_noteq hi, ih, hlt]

/-- C17: the register reduction of `initialize` leaves every instruction of the program
with `src < 8` and `dst < 8`, each being its previous value modulo 8, and with `opcode`,
`mod` and `imm32` unchanged; applying the reduction a second time changes nothing. -/
theorem C17_initialize_reduction (program : Nat → Instruction) (i : Nat)
    (hi : i < ProgramLength) :
    (initializeProgram program i).src < 8 ∧ (initializeProgram program i).dst < 8
      ∧ (initializeProgram program i).src = (program i).src % 8
      ∧ (initializeProgram program i).dst = (program i).dst % 8
      ∧ (initializeProgram program i).opcode = (program i).opcode
      ∧ (initializeProgram program i).mod = (program i).mod
      ∧ (initializeProgram program i).imm32 = (program i).imm32
      ∧ initializeProgram (initializeProgram program) = initializeProgram program := by
  have hs8 : (program i).src % 8 < 8 := Nat.mod_lt _ (by decide)
  have hd8 : (program i).dst % 8 < 8 := Nat.mod_lt _ (by decide)
  have happ : ∀ (p : Nat → Instruction) (j : Nat), initializeProgram p j
      = if j < ProgramLength then
          { p j with src := (p j).src % RegistersCount, dst := (p j).dst % RegistersCount }
        else p j := fun p j => initializeLoop_apply p ProgramLength j
  have hslot : initializeProgram program i
      = { program i with src := (program i).src % 8, dst := (program i).dst % 8 } := by
    rw [happ, if_pos hi]
    rfl
  rw [hslot]
  refine ⟨hs8, hd8, rfl, rfl, rfl, rfl, rfl, ?_⟩
  funext j
  rw [happ (initializeProgram program) j, happ program j]
  split
  · simp only [RegistersCount, Nat.mod_mod]
  · rfl

/-- C17 at slot 3 of a program whose every instruction has `src = 13`, `dst = 10`. -/
theorem C17_initialize_reduction_witness :
    3 < ProgramLength
      ∧ (initializeProgram (fun _ => ⟨0, 10, 13, 0, 0⟩) 3).src = 13 % 8 :=
  ⟨by decide, (C17_initialize_reduction (fun _ => ⟨0, 10, 13, 0, 0⟩) 3 (by decide)).2.2.1⟩

/-! ### CFROUND -/

/-- C18: for `CFROUND` the stored rotation count is `imm32 & 63`, below 64, the source is
`r[src mod 8]`, and executing the record sets the rounding mode to
`rotr(r[src mod 8], imm32 & 63) & 3`, which is what the `% 4` of the code computes and is
one of 0, 1, 2, 3; nothing else changes. -/
theorem C18_CFROUND_mode (fo : FloatOps) (condition : Nat → Nat → Nat → Bool)
    (i : Nat) (st : VMState) (instr : Instruction) (ibc0 : InstructionByteCode) :
    (precompileInstruction .CFROUND instr ibc0).imm = instr.imm32 &&& 63
      ∧ (precompileInstruction .CFROUND instr ibc0).imm < 64
      ∧ (precompileInstruction .CFROUND instr ibc0).isrc = IntRef.reg (instr.src % 8)
      ∧ executeBytecode fo condition i
            (withRecord st i (precompileInstruction .CFROUND instr ibc0))
          = some { withRecord st i (precompileInstruction .CFROUND instr ibc0) with
              roundMode := rotr (st.r (instr.src % 8)) (instr.imm32 &&& 63) &&& 3 }
      ∧ rotr (st.r (instr.src % 8)) (instr.imm32 &&& 63) % 4
          = rotr (st.r (instr.src % 8)) (instr.imm32 &&& 63) &&& 3
      ∧ rotr (st.r (instr.src % 8)) (instr.imm32 &&& 63) &&& 3 < 4 := by
  have hs8 : instr.src % 8 < 8 := Nat.mod_lt _ (by decide)
  have h63 : ∀ x : Nat, x &&& 63 = x % 64 := fun x => Nat.and_pow_two_sub_one_eq_mod x 6
  have h3 : ∀ x : Nat, x &&& 3 = x % 4 := fun x => Nat.and_pow_two_sub_one_eq_mod x 2
  have himm : (instr.imm32 % 2 ^ 32) &&& 63 = instr.imm32 &&& 63 := by
    rw [h63, h63]
    omega
  have hpre : precompileInstruction .CFROUND instr ibc0
      = { ibc0 with isrc := IntRef.reg (instr.src % 8), type := InstructionType.CFROUND,
                    imm := instr.imm32 &&& 63 } := by
    simp only [precompileInstruction, himm]
  rw [hpre]
  refine ⟨rfl, ?_, rfl, ?_, ?_, ?_⟩
  · show instr.imm32 &&& 63 < 64
    rw [h63]
    omega
  · simp [executeBytecode, withRecord, readInt, RegistersCount, hs8, h3]
  · rw [h3]
  · rw [h3]
    omega

/-! ### COND_R and COND_M -/

/-- An address masked with the level mask of an instruction has its 8 bytes inside the
scratchpad. -/
theorem inScratchpad_levelMask (instr : Instruction) (s : Nat) :
    inScratchpad ((s % 2 ^ 64) &&& (levelMask instr % 2 ^ 32)) = true := by
  have hle : (s % 2 ^ 64) &&& (levelMask instr % 2 ^ 32) ≤ levelMask instr % 2 ^ 32 :=
    Nat.and_le_right
  have hm : levelMask instr % 2 ^ 32 ≤ 0x3FFF8 := by
    unfold levelMask
    split <;> decide
  simp only [inScratchpad, ScratchpadSize, decide_eq_true_eq]
  omega

/-- The level mask fits 32 bits. -/
theorem levelMask_mod (instr : Instruction) : levelMask instr % 2 ^ 32 = levelMask instr := by
  unfold levelMask
  split <;> decide

/-- C19: for `COND_R` and `COND_M`, whatever the predicate `condition` is, the record's
condition selector is `(mod >> 2) & 7`, a value in 0..7, its immediate is `imm32`
zero-extended, its destination is `r[dst mod 8]` and its source is `r[src mod 8]` also
when `src` equals `dst`; executing the record changes only `r[dst mod 8]`, which becomes
`(d + 1) mod 2 ^ 64` when the predicate holds of the source value (for `COND_M`: of the
64-bit word loaded at `r[src mod 8] & memMask`), the immediate and the selector, and
`d mod 2 ^ 64` otherwise. -/
theorem C19_COND (fo : FloatOps) (condition : Nat → Nat → Nat → Bool)
    (i : Nat) (st : VMState) (instr : Instruction) (ibc0 : InstructionByteCode) :
    ((instr.mod >>> 2) &&& 7 < 8)
      ∧ ((precompileInstruction .COND_R instr ibc0).condition = (instr.mod >>> 2) &&& 7
        ∧ (precompileInstruction .COND_R instr ibc0).imm = instr.imm32 % 2 ^ 32
        ∧ (precompileInstruction .COND_R instr ibc0).idst = instr.dst % 8
        ∧ (precompileInstruction .COND_R instr ibc0).isrc = IntRef.reg (instr.src % 8)
        ∧ executeBytecode fo condition i
              (withRecord st i (precompileInstruction .COND_R instr ibc0))
            = some { withRecord st i (precompileInstruction .COND_R instr ibc0) with
                r := Function.update st.r (instr.dst % 8)
                  ((st.r (instr.dst % 8)
                    + (if condition (st.r (instr.src % 8)) (instr.imm32 % 2 ^ 32)
                          ((instr.mod >>> 2) &&& 7) = true then 1 else 0)) % 2 ^ 64) })
      ∧ ((precompileInstruction .COND_M instr ibc0).condition = (instr.mod >>> 2) &&& 7
        ∧ (precompileInstruction .COND_M instr ibc0).imm = instr.imm32 % 2 ^ 32
        ∧ (precompileInstruction .COND_M instr ibc0).idst = instr.dst % 8
        ∧ (precompileInstruction .COND_M instr ibc0).isrc = IntRef.reg (instr.src % 8)
        ∧ executeBytecode fo condition i
              (withRecord st i (precompileInstruction .COND_M instr ibc0))
            = some { withRecord st i (precompileInstruction .COND_M instr ibc0) with
                r := Function.update st.r (instr.dst % 8)
                  ((st.r (instr.dst % 8)
                    + (if condition
                          (load64 st.scratchpad
                            ((st.r (instr.src % 8) % 2 ^ 64)
                              &&& (precompileInstruction .COND_M instr ibc0).memMask))
                          (instr.imm32 % 2 ^ 32) ((instr.mod >>> 2) &&& 7) = true
                        then 1 else 0)) % 2 ^ 64) }) := by
  have hs8 : instr.src % 8 < 8 := Nat.mod_lt _ (by decide)
  have hd8 : instr.dst % 8 < 8 := Nat.mod_lt _ (by decide)
  have h7 : (instr.mod >>> 2) &&& 7 < 8 := by
    have : (instr.mod >>> 2) &&& 7 = (instr.mod >>> 2) % 8 :=
      Nat.and_pow_two_sub_one_eq_mod _ 3
    omega
  have hin := inScratchpad_levelMask instr (st.r (instr.src % 8))
  have hlm := levelMask_mod instr
  refine ⟨h7, ⟨rfl, rfl, rfl, rfl, ?_⟩, ⟨rfl, rfl, rfl, rfl, ?_⟩⟩
  · simp [executeBytecode, withRecord, precompileInstruction, intOp, readInt, readDst, writeDst,
      RegistersCount, hs8, hd8]
  · have hin2 := hin
    rw [hlm] at hin2
    norm_num at hin2
    have hlm2 : levelMask instr % 4294967296 = levelMask instr := hlm
    simp [executeBytecode, withRecord, precompileInstruction, intOp, loadOperand, memAddress,
      readInt, readDst, writeDst, RegistersCount, hs8, hd8, hlm2, hin2]

/-! ### FDIV_M -/

/-- The lane of `_mm_max_pd` against `DBL_MIN` is `>= DBL_MIN`, whatever the first
operand is: a NaN, a zero or a negative number included. -/
theorem maxpdLane_DBL_MIN (q : Nat) : doubleGe (maxpdLane q DBL_MIN) DBL_MIN = true := by
  unfold maxpdLane
  split
  · next h =>
    simp only [doubleGt, Bool.and_eq_true, Bool.not_eq_true', decide_eq_true_eq] at h
    simp only [doubleGe, Bool.and_eq_true, Bool.not_eq_true', decide_eq_true_eq]
    exact ⟨h.1, le_of_lt h.2⟩
  · decide

/-- C20: after executing `FDIV_M`, with `_mm_max_pd` being the lane-wise maximum that
returns its second operand when an operand is NaN, each of the two lanes of the
destination `e[dst mod 4]` is `>= DBL_MIN`, for every prior value of `e[dst]`, every
divisor pair loaded from the scratchpad and every result of the division, a NaN
included; the instruction always executes. -/
theorem C20_FDIV_M_result_ge_DBL_MIN (fo : FloatOps) (condition : Nat → Nat → Nat → Bool)
    (i : Nat) (st : VMState) (instr : Instruction) (ibc0 : InstructionByteCode)
    (hmax : fo.max = maxpdLane) :
    (precompileInstruction .FDIV_M instr ibc0).fdst = ⟨FloatFile.e, instr.dst % 4⟩
      ∧ ∃ st1, executeBytecode fo condition i
            (withRecord st i (precompileInstruction .FDIV_M instr ibc0)) = some st1
          ∧ doubleGe (st1.e (instr.dst % 4)).lo DBL_MIN = true
          ∧ doubleGe (st1.e (instr.dst % 4)).hi DBL_MIN = true := by
  have hs8 : instr.src % 8 < 8 := Nat.mod_lt _ (by decide)
  have hd4 : instr.dst % 4 < 4 := Nat.mod_lt _ (by decide)
  have hin := inScratchpad_levelMask instr (st.r (instr.src % 8))
  refine ⟨rfl, ?_⟩
  simp only [executeBytecode, withRecord, precompileInstruction, Function.update_same,
    loadFloatOperand, memAddress, readInt, RegistersCount, hs8, if_true, Option.some_bind, hin,
    Option.map_some', readFloat, hd4, writeFloat, hmax]
  refine ⟨_, rfl, ?_, ?_⟩
  · simp only [Function.update_same, M128d.map2]
    exact maxpdLane_DBL_MIN _
  · simp only [Function.update_same, M128d.map2]
    exact maxpdLane_DBL_MIN _

/-- C20 at `FDIV_M` with `dst = 1`, `src = 2` on the all-zero state: the instruction
executes and the low lane of `e[1]` is `>= DBL_MIN`. -/
theorem C20_FDIV_M_result_ge_DBL_MIN_witness :
    exactCvtOps.max = maxpdLane
      ∧ (executeBytecode exactCvtOps (fun _ _ _ => false) 0
          (withRecord zeroState 0 (precompileInstruction .FDIV_M ⟨0, 1, 2, 0, 0⟩ zeroRecord))).map
          (fun s => doubleGe (s.e (1 % 4)).lo DBL_MIN) = some true := by
  refine ⟨rfl, ?_⟩
  obtain ⟨st1, h, hlo, _⟩ := (C20_FDIV_M_result_ge_DBL_MIN exactCvtOps (fun _ _ _ => false) 0
    zeroState ⟨0, 1, 2, 0, 0⟩ zeroRecord rfl).2
  rw [h, Option.map_some']
  exact congrArg some hlo

/-! ### What one dispatch record can change -/

/-- A successful integer operation writes one integer register and nothing else. -/
theorem intOp_some (st st1 : VMState) (ibc : InstructionByteCode) (s : Option Nat)
    (op : Nat → Nat → Nat) (h : intOp st ibc s op = some st1) :
    ∃ r1, st1 = { st with r := r1 } := by
  simp only [intOp, readDst, writeDst, Option.bind_eq_some] at h
  obtain ⟨d, _, v, _, hw⟩ := h
  split at hw
  · exact ⟨_, (Option.some.inj hw).symm⟩
  · exact absurd hw (by simp)

/-- A successful write through `idst` writes one integer register and nothing else. -/
theorem writeDst_some (st st1 : VMState) (ibc : InstructionByteCode) (v : Nat)
    (h : writeDst st ibc v = some st1) : ∃ r1, st1 = { st with r := r1 } := by
  simp only [writeDst] at h
  split at h
  · exact ⟨_, (Option.some.inj h).symm⟩
  · exact absurd h (by simp)

/-- A successful lane-wise float operation is a write through `fdst`. -/
theorem floatOp_some (st st1 : VMState) (ibc : InstructionByteCode) (s : Option M128d)
    (op : Nat → Nat → Nat) (h : floatOp st ibc s op = some st1) :
    ∃ v, writeFloat st ibc.fdst v = some st1 := by
  simp only [floatOp, Option.bind_eq_some] at h
  obtain ⟨d, _, v, _, hw⟩ := h
  exact ⟨_, hw⟩

/-- The five ways in which a dispatch record that executes changes the machine: it
writes integer registers, or one float register through `fdst`, or the rounding mode, or
(kind `ISTORE` only) 8 bytes of the scratchpad, or (a swap with the record's own
immediate) an integer register and that immediate. -/
theorem executeBytecode_cases (fo : FloatOps) (condition : Nat → Nat → Nat → Bool) (i : Nat)
    (st st1 : VMState) (h : executeBytecode fo condition i st = some st1) :
    (∃ r1, st1 = { st with r := r1 })
      ∨ (∃ v, writeFloat st (st.byteCode i).fdst v = some st1)
      ∨ (∃ m, st1 = { st with roundMode := m })
      ∨ ((st.byteCode i).type = InstructionType.ISTORE
          ∧ ∃ p v, inScratchpad p = true
            ∧ st1 = { st with scratchpad := store64 st.scratchpad p v })
      ∨ (∃ r1 d, st1 = { st with
            r := r1,
            byteCode := Function.update st.byteCode i { st.byteCode i with imm := d } }) := by
  unfold executeBytecode at h
  simp only at h
  split at h
  all_goals first
    | exact Or.inl (intOp_some _ _ _ _ _ h)
    | exact Or.inr (Or.inl (floatOp_some _ _ _ _ _ h))
    | exact Or.inl ⟨st.r, (Option.some.inj h).symm⟩
    | cases h
    | (simp only [readDst, Option.bind_eq_some] at h
       obtain ⟨d, _, hw⟩ := h
       exact Or.inl (writeDst_some _ _ _ _ hw))
    | (simp only [Option.bind_eq_some] at h
       obtain ⟨d, _, hw⟩ := h
       exact Or.inr (Or.inl ⟨_, hw⟩))
    | skip
  case h_20 =>
    simp only [readDst, writeDst, Option.bind_eq_some] at h
    obtain ⟨temp, _, d, _, st2, h2, hw⟩ := h
    split at hw
    · have hst1 := (Option.some.inj hw).symm
      split at h2
      · split at h2
        · rw [← Option.some.inj h2] at hst1
          exact Or.inl ⟨_, hst1⟩
        · cases h2
      · rw [← Option.some.inj h2] at hst1
        exact Or.inr (Or.inr (Or.inr (Or.inr ⟨_, _, hst1⟩)))
    · cases hw
  case h_28 =>
    simp only [Option.bind_eq_some] at h
    obtain ⟨_, _, _, _, hw⟩ := h
    exact Or.inr (Or.inl ⟨_, hw⟩)
  case h_32 =>
    simp only [Option.map_eq_some'] at h
    obtain ⟨_, _, hw⟩ := h
    exact Or.inr (Or.inr (Or.inl ⟨_, hw.symm⟩))
  case h_33 heq =>
    simp only [Option.bind_eq_some] at h
    obtain ⟨_, _, _, _, hw⟩ := h
    split at hw
    · next hin => exact Or.inr (Or.inr (Or.inr (Or.inl ⟨heq, _, _, hin, (Option.some.inj hw).symm⟩)))
    · cases hw

/-- A record of kind `ISTORE` that executes stores 8 bytes inside the scratchpad and
changes nothing else. -/
theorem executeBytecode_ISTORE (fo : FloatOps) (condition : Nat → Nat → Nat → Bool) (i : Nat)
    (st st1 : VMState) (ht : (st.byteCode i).type = InstructionType.ISTORE)
    (h : executeBytecode fo condition i st = some st1) :
    ∃ p v, inScratchpad p = true ∧ st1 = { st with scratchpad := store64 st.scratchpad p v } := by
  simp only [executeBytecode, ht, Option.bind_eq_some] at h
  obtain ⟨_, _, _, _, hw⟩ := h
  split at hw
  · next hin => exact ⟨_, _, hin, (Option.some.inj hw).symm⟩
  · cases hw

/-- A write through a float reference leaves `a` alone unless the reference points into
`a`, and leaves the scratchpad and the dispatch buffer alone. -/
theorem writeFloat_frame (st st1 : VMState) (p : FloatRef) (v : M128d)
    (h : writeFloat st p v = some st1) :
    (p.file ≠ FloatFile.a → st1.a = st.a) ∧ st1.scratchpad = st.scratchpad
      ∧ st1.byteCode = st.byteCode ∧ st1.r = st.r := by
  simp only [writeFloat] at h
  split at h
  · have hst := (Option.some.inj h).symm
    subst hst
    cases hf : p.file <;> simp
  · cases h

/-- What a dispatch record that executes leaves alone: `a`, unless its `fdst` points
into `a`; kind and `fdst` of every record; the scratchpad, unless its kind is `ISTORE`,
which stores 8 bytes inside the scratchpad. -/
theorem executeBytecode_frame (fo : FloatOps) (condition : Nat → Nat → Nat → Bool) (i : Nat)
    (st st1 : VMState) (h : executeBytecode fo condition i st = some st1) :
    ((st.byteCode i).fdst.file ≠ FloatFile.a → st1.a = st.a)
      ∧ (∀ j, (st1.byteCode j).fdst = (st.byteCode j).fdst
          ∧ (st1.byteCode j).type = (st.byteCode j).type)
      ∧ ((st.byteCode i).type ≠ InstructionType.ISTORE → st1.scratchpad = st.scratchpad)
      ∧ ((st.byteCode i).type = InstructionType.ISTORE →
          ∃ p v, inScratchpad p = true ∧ st1.scratchpad = store64 st.scratchpad p v) := by
  have hlast : (st.byteCode i).type = InstructionType.ISTORE →
      ∃ p v, inScratchpad p = true ∧ st1.scratchpad = store64 st.scratchpad p v := by
    intro ht
    obtain ⟨p, v, hin, rfl⟩ := executeBytecode_ISTORE fo condition i st st1 ht h
    exact ⟨p, v, hin, rfl⟩
  rcases executeBytecode_cases fo condition i st st1 h with
    ⟨r1, rfl⟩ | ⟨v, hw⟩ | ⟨m, rfl⟩ | ⟨ht, p, v, hin, rfl⟩ | ⟨r1, d, rfl⟩
  · exact ⟨fun _ => rfl, fun _ => ⟨rfl, rfl⟩, fun _ => rfl, hlast⟩
  · obtain ⟨h1, h2, h3, _⟩ := writeFloat_frame _ _ _ _ hw
    exact ⟨h1, fun j => by rw [h3]; exact ⟨rfl, rfl⟩, fun _ => h2, hlast⟩
  · exact ⟨fun _ => rfl, fun _ => ⟨rfl, rfl⟩, fun _ => rfl, hlast⟩
  · exact ⟨fun _ => rfl, fun _ => ⟨rfl, rfl⟩, fun hne => absurd ht hne, hlast⟩
  · refine ⟨fun _ => rfl, fun j => ?_, fun _ => rfl, hlast⟩
    by_cases hj : j = i
    · subst hj
      simp
    · simp [Function.update_noteq hj]

/-- The frame of a run of `k` records from record `N`: with no `fdst` pointing into `a`
in the dispatch buffer, `a` stays as it is; with no record of kind `ISTORE`, the
scratchpad stays as it is. -/
theorem executeBytecodeFrom_frame (fo : FloatOps) (condition : Nat → Nat → Nat → Bool)
    (k N : Nat) (st st1 : VMState) (h : executeBytecodeFrom fo condition k N st = some st1) :
    ((∀ j, (st.byteCode j).fdst.file ≠ FloatFile.a) → st1.a = st.a)
      ∧ ((∀ j, (st.byteCode j).type ≠ InstructionType.ISTORE) →
          st1.scratchpad = st.scratchpad)
      ∧ (∀ j, (st1.byteCode j).fdst = (st.byteCode j).fdst
          ∧ (st1.byteCode j).type = (st.byteCode j).type) := by
  induction k generalizing N st with
  | zero =>
    simp only [executeBytecodeFrom, Option.some.injEq] at h
    subst h
    exact ⟨fun _ => rfl, fun _ => rfl, fun _ => ⟨rfl, rfl⟩⟩
  | succ k ih =>
    simp only [executeBytecodeFrom, Option.bind_eq_some] at h
    obtain ⟨st2, h2, hrest⟩ := h
    obtain ⟨f1, f2, f3, _⟩ := executeBytecode_frame fo condition N st st2 h2
    obtain ⟨g1, g2, g3⟩ := ih (N + 1) st2 hrest
    refine ⟨fun ha => ?_, fun hs => ?_, fun j => ?_⟩
    · rw [g1 (fun j => by rw [(f2 j).1]; exact ha j), f1 (ha N)]
    · rw [g2 (fun j => by rw [(f2 j).2]; exact hs j), f3 (hs N)]
    · exact ⟨(g3 j).1.trans (f2 j).1, (g3 j).2.trans (f2 j).2⟩

/-! ### Range of the register references -/

/-- Every case of the precompiler other than `FSWAP_R` keeps the register references of
a record inside their register files: the references it binds are reduced modulo the
size of the file, and the others stay as they were. -/
theorem precompileInstruction_in_range (t : InstructionType) (instr : Instruction)
    (ibc0 : InstructionByteCode) (ht : t ≠ InstructionType.FSWAP_R)
    (h1 : ibc0.idst < 8) (h2 : ∀ j, ibc0.isrc = IntRef.reg j → j < 8)
    (h3 : ibc0.fdst.idx < 4) (h4 : ibc0.fsrc.idx < 4) :
    (precompileInstruction t instr ibc0).idst < 8
      ∧ (∀ j, (precompileInstruction t instr ibc0).isrc = IntRef.reg j → j < 8)
      ∧ (precompileInstruction t instr ibc0).fdst.idx < 4
      ∧ (precompileInstruction t instr ibc0).fsrc.idx < 4 := by
  have hs8 : instr.src % 8 < 8 := Nat.mod_lt _ (by decide)
  have hd8 : instr.dst % 8 < 8 := Nat.mod_lt _ (by decide)
  have hs4 : instr.src % 4 < 4 := Nat.mod_lt _ (by decide)
  have hd4 : instr.dst % 4 < 4 := Nat.mod_lt _ (by decide)
  cases t <;>
    simp only [precompileInstruction, precompileRegSigned, precompileRegRotate, precompileMem,
      precompileDiv, RegistersCount] <;>
    (repeat' split) <;>
    first
      | exact absurd rfl ht
      | (refine ⟨?_, ?_, ?_, ?_⟩ <;>
          first
            | assumption
            | (intro j hj
               first
                 | exact h2 j hj
                 | (cases hj; assumption)
                 | cases hj))

/-- The precompiler binds no float destination into `a`. -/
theorem precompileInstruction_fdst_not_a (t : InstructionType) (instr : Instruction)
    (ibc0 : InstructionByteCode) (h : ibc0.fdst.file ≠ FloatFile.a) :
    (precompileInstruction t instr ibc0).fdst.file ≠ FloatFile.a := by
  cases t <;>
    simp only [precompileInstruction, precompileRegSigned, precompileRegRotate, precompileMem,
      precompileDiv] <;>
    (repeat' split) <;>
    first
      | exact h
      | (intro hc; cases hc)

/-- C21, evaluated on the code: the `FSWAP_R` instruction with `dst = 4` gets the float
destination `f[4]` from `precompileProgram` (the index is `dst % RegistersCount`, not
`dst % 4`), which is outside the four entries of `f`; executing the record has no
defined result. -/
theorem C21_FSWAP_R_destination_outside_f (fo : FloatOps)
    (condition : Nat → Nat → Nat → Bool) (st : VMState) :
    (precompileProgram decodeC21 programC21 st.byteCode 0).type = InstructionType.FSWAP_R
      ∧ (precompileProgram decodeC21 programC21 st.byteCode 0).fdst = ⟨FloatFile.f, 4⟩
      ∧ ¬ (precompileProgram decodeC21 programC21 st.byteCode 0).fdst.idx < 4
      ∧ executeBytecode fo condition 0
          { st with byteCode := precompileProgram decodeC21 programC21 st.byteCode } = none := by
  have h0 : precompileProgram decodeC21 programC21 st.byteCode 0
      = { st.byteCode 0 with type := InstructionType.FSWAP_R, fdst := ⟨FloatFile.f, 4⟩ } := by
    rw [precompileProgram_apply]
    simp [ProgramLength, programC21, decodeC21, precompileInstruction, RegistersCount]
  refine ⟨by rw [h0], by rw [h0], by rw [h0]; exact Nat.lt_irrefl 4, ?_⟩
  simp [executeBytecode, h0, readFloat]

/-- On every run of the 256 records that has a defined result, from a dispatch buffer
precompiled over records with no float destination in `a`, the register file `a` is
unchanged. -/
theorem a_unchanged_on_defined_runs (fo : FloatOps) (condition : Nat → Nat → Nat → Bool)
    (decode : Nat → InstructionType) (program : Nat → Instruction) (st st1 : VMState)
    (hprior : ∀ j, (st.byteCode j).fdst.file ≠ FloatFile.a)
    (h : executeBytecodeAll fo condition
      { st with byteCode := precompileProgram decode program st.byteCode } = some st1) :
    st1.a = st.a := by
  have hbuf : ∀ j, ((precompileProgram decode program st.byteCode) j).fdst.file
      ≠ FloatFile.a := by
    intro j
    rw [precompileProgram_apply]
    split
    · exact precompileInstruction_fdst_not_a _ _ _ (hprior j)
    · exact hprior j
  exact (executeBytecodeFrom_frame fo condition ProgramLength 0 _ st1 h).1 hbuf

/-! ### The block addresses of `execute` -/

/-- A value masked with `ScratchpadL3Mask64` is a multiple of 64 and at most `0x1FFFC0`. -/
theorem and_ScratchpadL3Mask64 (x : Nat) :
    (x &&& ScratchpadL3Mask64) % 64 = 0 ∧ x &&& ScratchpadL3Mask64 ≤ 0x1FFFC0 := by
  refine ⟨?_, Nat.and_le_right⟩
  have h6 : (x &&& ScratchpadL3Mask64) % 2 ^ 6 = (x &&& ScratchpadL3Mask64) &&& (2 ^ 6 - 1) :=
    (Nat.and_pow_two_sub_one_eq_mod _ 6).symm
  have hm : ScratchpadL3Mask64 &&& (2 ^ 6 - 1) = 0 := by decide
  rw [Nat.and_assoc, hm, Nat.and_zero] at h6
  exact h6

/-! ### The template recursion as a plain loop -/

/-- The recursion `executeBytecode<N>` with `k` records left is the fold of the
single-record step over `N, N + 1, .., N + k - 1`. -/
theorem executeBytecodeFrom_eq_foldlM (fo : FloatOps) (condition : Nat → Nat → Nat → Bool)
    (k N : Nat) (st : VMState) :
    executeBytecodeFrom fo condition k N st
      = (List.range' N k).foldlM (fun s i => executeBytecode fo condition i s) st := by
  induction k generalizing N st with
  | zero => rfl
  | succ k ih =>
    rw [executeBytecodeFrom, List.range'_succ, List.foldlM_cons]
    cases h : executeBytecode fo condition N st with
    | none => rfl
    | some st1 => exact ih (N + 1) st1

/-- C25: the template recursion `executeBytecode<0>` is a total function (the recursion
is on the number of records left, which goes from `ProgramLength` down to 0) and equals
the plain loop that folds the single-record step over `i = 0 .. ProgramLength - 1` in
increasing order, on the whole machine state; in particular one of them is undefined
exactly when the other is. -/
theorem C25_template_recursion_is_plain_loop (fo : FloatOps)
    (condition : Nat → Nat → Nat → Bool) (st : VMState) :
    executeBytecodeAll fo condition st = executeBytecodePlainLoop fo condition st := by
  unfold executeBytecodeAll executeBytecodePlainLoop
  rw [executeBytecodeFrom_eq_foldlM, List.range_eq_range']

/-! ### Dataset slices of the initialisation threads -/

/-- The slices are pairwise disjoint and cover exactly the blocks below
`DatasetBlockCount`, for every positive thread count. -/
theorem slices_partition (T : Nat) (hT : 0 < T) :
    (∀ i j b, i < T → j < T →
        sliceStart T i ≤ b → b < sliceStart T i + sliceCount T i →
        sliceStart T j ≤ b → b < sliceStart T j + sliceCount T j → i = j)
      ∧ (∀ b, b < DatasetBlockCount ↔
          ∃ i, i < T ∧ sliceStart T i ≤ b ∧ b < sliceStart T i + sliceCount T i) := by
  have hD : T * (DatasetBlockCount / T) + DatasetBlockCount % T = DatasetBlockCount :=
    Nat.div_add_mod _ _
  simp only [sliceStart, sliceCount]
  generalize DatasetBlockCount / T = p at hD
  generalize DatasetBlockCount % T = rem at hD
  generalize DatasetBlockCount = D at hD
  have hlast : (T - 1) * p + p = T * p := by
    have : T - 1 + 1 = T := by omega
    calc (T - 1) * p + p = (T - 1 + 1) * p := by rw [Nat.add_mul, Nat.one_mul]
      _ = T * p := by rw [this]
  have hmono : ∀ i j, i < j → i * p + p ≤ j * p := by
    intro i j hij
    calc i * p + p = (i + 1) * p := by rw [Nat.add_mul, Nat.one_mul]
      _ ≤ j * p := Nat.mul_le_mul_right p hij
  refine ⟨?_, ?_⟩
  · intro i j b hi hj h1 h2 h3 h4
    rcases Nat.lt_trichotomy i j with hij | hij | hij
    · have := hmono i j hij
      have hne : i ≠ T - 1 := by omega
      rw [if_neg hne] at h2
      omega
    · exact hij
    · have := hmono j i hij
      have hne : j ≠ T - 1 := by omega
      rw [if_neg hne] at h4
      omega
  · intro b
    constructor
    · intro hb
      by_cases hq : b / p < T - 1 ∧ 0 < p
      · refine ⟨b / p, by omega, ?_, ?_⟩
        · exact Nat.div_mul_le_self b p
        · have hne : b / p ≠ T - 1 := by omega
          rw [if_neg hne]
          have h1 := Nat.div_add_mod b p
          have h2 := Nat.mod_lt b hq.2
          rw [Nat.mul_comm] at h1
          omega
      · refine ⟨T - 1, by omega, ?_, ?_⟩
        · rcases Nat.eq_zero_or_pos p with hp | hp
          · subst hp
            simp
          · have hle : T - 1 ≤ b / p := by omega
            calc (T - 1) * p ≤ b / p * p := Nat.mul_le_mul_right p hle
              _ ≤ b := Nat.div_mul_le_self b p
        · rw [if_pos rfl]
          rw [Nat.mul_comm T p] at hD
          rw [Nat.mul_comm T p] at hlast
          omega
    · rintro ⟨i, hi, h1, h2⟩
      by_cases hl : i = T - 1
      · rw [if_pos hl] at h2
        subst hl
        omega
      · rw [if_neg hl] at h2
        have := hmono i (T - 1) (by omega)
        omega

/-- C26: for a thread count `T` with `2 ≤ T ≤ DatasetBlockCount`, the slices that `main`
hands to the threads `0 .. T - 1` are pairwise disjoint (a block that lies in the slices
of two threads lies in the slice of one thread), and a block lies in some slice exactly
when it lies below `DatasetBlockCount`. -/
theorem C26_dataset_slices_partition (T : Nat) (h2 : 2 ≤ T) (hT : T ≤ DatasetBlockCount) :
    (∀ i j b, i < T → j < T →
        sliceStart T i ≤ b → b < sliceStart T i + sliceCount T i →
        sliceStart T j ≤ b → b < sliceStart T j + sliceCount T j → i = j)
      ∧ (∀ b, b < DatasetBlockCount ↔
          ∃ i, i < T ∧ sliceStart T i ≤ b ∧ b < sliceStart T i + sliceCount T i) :=
  have _ := hT
  slices_partition T (by omega)

/-- C26 at `T = 4`, the thread count of the spec's multi-threaded test. -/
theorem C26_dataset_slices_partition_witness :
    (2 ≤ 4 ∧ 4 ≤ DatasetBlockCount)
      ∧ ((∀ i j b, i < 4 → j < 4 →
            sliceStart 4 i ≤ b → b < sliceStart 4 i + sliceCount 4 i →
            sliceStart 4 j ≤ b → b < sliceStart 4 j + sliceCount 4 j → i = j)
        ∧ (∀ b, b < DatasetBlockCount ↔
            ∃ i, i < 4 ∧ sliceStart 4 i ≤ b ∧ b < sliceStart 4 i + sliceCount 4 i)) :=
  ⟨⟨by decide, by decide⟩, C26_dataset_slices_partition 4 (by decide) (by decide)⟩

/-! ### The result accumulator `AtomicHash` -/

/-- The lanes of the accumulator after a list of digests has been folded into the state
`h`: lane `i < 4` is `h i` XORed with word `i` of every digest, the rest is untouched. -/
theorem foldl_xorWith_apply (l : List (Nat → Nat)) (h : Nat → Nat) (i : Nat) :
    l.foldl xorWith h i
      = if i < 4 then (l.map fun d => d i).foldl (fun x y => x ^^^ y) (h i) else h i := by
  induction l generalizing h with
  | nil => simp
  | cons d l ih =>
    rw [List.foldl_cons, ih, List.map_cons, List.foldl_cons]
    by_cases hi : i < 4
    · simp only [hi, if_true, xorWith]
    · simp only [hi, if_false, xorWith]

/-- Two applications of `xorWith` commute. -/
theorem xorWith_right_comm (h a b : Nat → Nat) :
    xorWith (xorWith h a) b = xorWith (xorWith h b) a := by
  funext i
  simp only [xorWith]
  split
  · rw [Nat.xor_assoc, Nat.xor_comm (a i), ← Nat.xor_assoc]
  · rfl

/-- C27: starting from the all-zero state of the `AtomicHash` constructor, after
`xorWith` has run once for each digest of a list, lane `i` of the four lanes is the XOR
of word `i` of all the digests, and a permutation of the list gives the same
accumulator. -/
theorem C27_accumulator_order_independent (l l' : List (Nat → Nat)) (h : l.Perm l') :
    xorWithAll l = xorWithAll l'
      ∧ ∀ i : Fin 4, xorWithAll l i.val
          = (l.map fun d => d i.val).foldl (fun x y => x ^^^ y) 0 := by
  refine ⟨?_, fun i => ?_⟩
  · unfold xorWithAll
    generalize atomicHashInit = h0
    induction h generalizing h0 with
    | nil => rfl
    | cons x _ ih => exact ih _
    | swap x y l => simp only [List.foldl_cons, xorWith_right_comm]
    | trans _ _ ih1 ih2 => exact (ih1 _).trans (ih2 _)
  · unfold xorWithAll
    rw [foldl_xorWith_apply, if_pos i.isLt]
    rfl

/-- C27 on two digests taken in both orders. -/
theorem C27_accumulator_order_independent_witness :
    [fun i => i + 1, fun i => 2 * i + 5].Perm [fun i => 2 * i + 5, fun i => i + 1]
      ∧ (xorWithAll [fun i => i + 1, fun i => 2 * i + 5]
            = xorWithAll [fun i => 2 * i + 5, fun i => i + 1]
          ∧ ∀ i : Fin 4, xorWithAll [fun i => i + 1, fun i => 2 * i + 5] i.val
              = ([fun i => i + 1, fun i => 2 * i + 5].map fun d => d i.val).foldl
                  (fun x y => x ^^^ y) 0) :=
  ⟨List.Perm.swap _ _ _, C27_accumulator_order_independent _ _ (List.Perm.swap _ _ _)⟩

/-! ### The immediate of `IROR_R` and `IROL_R` -/

/-- The six low bits of a 32-bit value are those of its sign extension. -/
theorem signExtend2sCompl_and_63 (x : Nat) :
    (x % 2 ^ 32) &&& 63 = signExtend2sCompl x &&& 63 := by
  have h1 := Nat.and_pow_two_sub_one_eq_mod (x % 2 ^ 32) 6
  have h2 := Nat.and_pow_two_sub_one_eq_mod (signExtend2sCompl x) 6
  have e : (2 ^ 6 - 1 : Nat) = 63 := by decide
  rw [e] at h1 h2
  rw [h1, h2]
  unfold signExtend2sCompl
  split <;> omega

/-- C28: for `IROR_R` or `IROL_R` with `src mod 8 = dst mod 8`, the record takes `imm32`
zero-extended as its immediate; the rotation count `imm & 63` is the same for the
zero-extended and the sign-extended immediate; and executing the record gives the same
state as executing the record with the sign-extended immediate in its place, the
immediate field of that record apart: the destination is rotated by `imm32 & 63`. -/
theorem C28_rotate_immediate_extension (fo : FloatOps) (condition : Nat → Nat → Nat → Bool)
    (t : InstructionType) (instr : Instruction) (ibc0 : InstructionByteCode) (st : VMState)
    (i : Nat) (ht : t = InstructionType.IROR_R ∨ t = InstructionType.IROL_R)
    (hsd : instr.src % 8 = instr.dst % 8)
    (hrec : st.byteCode i = precompileInstruction t instr ibc0) :
    (st.byteCode i).isrc = IntRef.imm
      ∧ (st.byteCode i).imm = instr.imm32 % 2 ^ 32
      ∧ (instr.imm32 % 2 ^ 32) &&& 63 = signExtend2sCompl instr.imm32 &&& 63
      ∧ executeBytecode fo condition i st
          = some { st with
              r := Function.update st.r (instr.dst % 8)
                    ((if t = InstructionType.IROR_R then rotr else rotl)
                      (st.r (instr.dst % 8)) ((instr.imm32 % 2 ^ 32) &&& 63)) }
      ∧ executeBytecode fo condition i
            (withRecord st i { st.byteCode i with imm := signExtend2sCompl instr.imm32 })
          = some { (withRecord st i
                { st.byteCode i with imm := signExtend2sCompl instr.imm32 }) with
              r := Function.update st.r (instr.dst % 8)
                    ((if t = InstructionType.IROR_R then rotr else rotl)
                      (st.r (instr.dst % 8)) ((instr.imm32 % 2 ^ 32) &&& 63)) } := by
  have hd8 : instr.dst % 8 < 8 := Nat.mod_lt _ (by decide)
  have h63 := signExtend2sCompl_and_63 instr.imm32
  have hr : precompileInstruction t instr ibc0
      = { ibc0 with type := t, idst := instr.dst % 8, imm := instr.imm32 % 2 ^ 32,
                    isrc := IntRef.imm } := by
    rcases ht with rfl | rfl <;>
      simp [precompileInstruction, precompileRegRotate, RegistersCount, hsd]
  rw [hr] at hrec
  refine ⟨by rw [hrec], by rw [hrec], h63, ?_, ?_⟩
  · rcases ht with rfl | rfl <;>
      simp [executeBytecode, hrec, intOp, readInt, readDst, writeDst, RegistersCount, hd8]
  · have h63b : instr.imm32 % 4294967296 &&& 63 = signExtend2sCompl instr.imm32 &&& 63 := h63
    rcases ht with rfl | rfl <;>
      simp [executeBytecode, withRecord, hrec, intOp, readInt, readDst, writeDst,
        RegistersCount, hd8, h63b]

/-- C28 on `IROR_R` with `src = dst = 0` and `imm32 = 0x80000001`, whose sign extension
differs from its zero extension. -/
theorem C28_rotate_immediate_extension_witness :
    ((InstructionType.IROR_R = InstructionType.IROR_R
          ∨ InstructionType.IROR_R = InstructionType.IROL_R)
        ∧ (0 : Nat) % 8 = 0 % 8
        ∧ (withRecord zeroState 0
            (precompileInstruction .IROR_R ⟨0, 0, 0, 0, 0x80000001⟩ zeroRecord)).byteCode 0
          = precompileInstruction .IROR_R ⟨0, 0, 0, 0, 0x80000001⟩ zeroRecord)
      ∧ (0x80000001 % 2 ^ 32) &&& 63 = signExtend2sCompl 0x80000001 &&& 63 :=
  ⟨⟨Or.inl rfl, rfl, by simp [withRecord]⟩,
    (C28_rotate_immediate_extension zeroFloatOps (fun _ _ _ => false) .IROR_R
      ⟨0, 0, 0, 0, 0x80000001⟩ zeroRecord
      (withRecord zeroState 0
        (precompileInstruction .IROR_R ⟨0, 0, 0, 0, 0x80000001⟩ zeroRecord)) 0
      (Or.inl rfl) rfl (by simp [withRecord])).2.2.1⟩

/-! ### What an iteration of `execute` writes to the scratchpad -/

/-- A byte outside the 8 bytes of a `store64` keeps its value. -/
theorem store64_outside (sp : Nat → Nat) (p v q : Nat) (h : q < p ∨ p + 8 ≤ q) :
    store64 sp p v q = sp q := by
  unfold store64
  rw [if_neg (by omega)]

/-- Byte `j` of the 8 bytes of a `store64` is byte `j` of the value, low byte first. -/
theorem store64_inside (sp : Nat → Nat) (p v j : Nat) (h : j < 8) :
    store64 sp p v (p + j) = (v >>> (8 * j)) % 256 := by
  unfold store64
  rw [if_pos (by omega), Nat.add_sub_cancel_left]

/-- The stores of `r[0 .. n - 1]` leave every byte outside `[spAddr1, spAddr1 + 8 n)`. -/
theorem storeR_outside (a : Nat) (r : Nat → Nat) (n : Nat) (sp : Nat → Nat) (q : Nat)
    (h : q < a ∨ a + 8 * n ≤ q) : storeR a r n sp q = sp q := by
  induction n with
  | zero => rfl
  | succ n ih =>
    rw [storeR, store64_outside _ _ _ _ (by omega), ih (by omega)]

/-- After the stores of `r[0 .. n - 1]`, byte `j` of the word at `spAddr1 + 8 k` is byte
`j` of `r[k]`. -/
theorem storeR_inside (a : Nat) (r : Nat → Nat) (n : Nat) (sp : Nat → Nat) (k j : Nat)
    (hk : k < n) (hj : j < 8) : storeR a r n sp (a + 8 * k + j) = (r k >>> (8 * j)) % 256 := by
  induction n with
  | zero => omega
  | succ n ih =>
    rw [storeR]
    by_cases hkn : k = n
    · subst hkn
      exact store64_inside _ _ _ _ hj
    · rw [store64_outside _ _ _ _ (by omega)]
      exact ih (by omega)

/-- The stores of the products `f[k] * e[k]`, `k = 0 .. n - 1`, leave every byte outside
`[spAddr0, spAddr0 + 16 n)`. -/
theorem storeFE_outside (fo : FloatOps) (rm a : Nat) (f e : Nat → M128d) (n : Nat)
    (sp : Nat → Nat) (q : Nat) (h : q < a ∨ a + 16 * n ≤ q) :
    storeFE fo rm a f e n sp q = sp q := by
  induction n with
  | zero => rfl
  | succ n ih =>
    rw [storeFE, _mm_store_pd, store64_outside _ _ _ _ (by omega),
      store64_outside _ _ _ _ (by omega), ih (by omega)]

/-- The scratchpad after a run of `k` records from record `N` is the scratchpad before it
with a sequence of 8-byte stores applied, each inside the scratchpad, one for each record
of kind `ISTORE` among the `k` records. -/
theorem executeBytecodeFrom_writes (fo : FloatOps) (condition : Nat → Nat → Nat → Bool)
    (k N : Nat) (st st1 : VMState) (h : executeBytecodeFrom fo condition k N st = some st1) :
    ∃ writes : List (Nat × Nat),
      (∀ w ∈ writes, inScratchpad w.1 = true)
        ∧ st1.scratchpad = writes.foldl (fun sp w => store64 sp w.1 w.2) st.scratchpad
        ∧ writes.length = (List.range' N k).countP
            (fun j => decide ((st.byteCode j).type = InstructionType.ISTORE)) := by
  induction k generalizing N st with
  | zero =>
    simp only [executeBytecodeFrom, Option.some.injEq] at h
    subst h
    exact ⟨[], by simp, rfl, rfl⟩
  | succ k ih =>
    simp only [executeBytecodeFrom, Option.bind_eq_some] at h
    obtain ⟨st2, h2, hrest⟩ := h
    obtain ⟨_, f2, f3, f4⟩ := executeBytecode_frame fo condition N st st2 h2
    obtain ⟨writes, g1, g2, g3⟩ := ih (N + 1) st2 hrest
    have hcount : (List.range' (N + 1) k).countP
          (fun j => decide ((st2.byteCode j).type = InstructionType.ISTORE))
        = (List.range' (N + 1) k).countP
          (fun j => decide ((st.byteCode j).type = InstructionType.ISTORE)) := by
      congr 1
      funext j
      rw [(f2 j).2]
    rw [hcount] at g3
    rw [List.range'_succ, List.countP_cons]
    by_cases ht : (st.byteCode N).type = InstructionType.ISTORE
    · obtain ⟨p, v, hin, hsp⟩ := f4 ht
      refine ⟨(p, v) :: writes, ?_, ?_, ?_⟩
      · intro w hw
        rcases List.mem_cons.mp hw with rfl | hw
        · exact hin
        · exact g1 w hw
      · rw [List.foldl_cons, ← hsp]
        exact g2
      · simp [ht, g3]
    · refine ⟨writes, g1, ?_, ?_⟩
      · rw [← f3 ht]
        exact g2
      · simp [ht, g3]

/-! ### The registers `e` after the block load: range of the lanes -/

/-- A pattern `v` with sign bit clear and not above that of infinity is a double `>= b`
for every pattern `b <= v`. -/
theorem doubleGe_of_le (v b : Nat) (h1 : b ≤ v) (h2 : v ≤ 0x7FF0000000000000) :
    doubleGe v b = true := by
  have hv : v % 2 ^ 63 = v := Nat.mod_eq_of_lt (by omega)
  have hv64 : v % 2 ^ 64 = v := Nat.mod_eq_of_lt (by omega)
  have hb : b % 2 ^ 63 = b := Nat.mod_eq_of_lt (by omega)
  have hb64 : b % 2 ^ 64 = b := Nat.mod_eq_of_lt (by omega)
  have hblt : b < 2 ^ 63 := by omega
  have hvlt : v < 2 ^ 63 := by omega
  simp only [doubleGe, isNaN, doubleKey, hv, hv64, hb, hb64, hblt, hvlt, if_true]
  have hn1 : ¬ (0x7FF0000000000000 < v) := by omega
  have hn2 : ¬ (0x7FF0000000000000 < b) := by omega
  simp [hn1, hn2, h1]

/-- C13, amended: after step 5 of an iteration of `execute`, with the exact conversion
of 32-bit integers, each of the eight lanes of `e[0..3]` has sign bit 0; the lane is
`+0.0` when the signed 32-bit integer read from the scratchpad is zero; when the integer
is not zero the lane is `>= DBL_MIN`, in fact `>= 1.0` (pattern `0x3FF0000000000000`),
and it is finite and no NaN: its pattern lies below that of `2 ^ 32`
(`0x41F0000000000000`), hence below that of infinity. -/
theorem C13_e_lanes_after_load (fo : FloatOps) (sp : Nat → Nat) (spAddr1 : Nat)
    (e : Nat → M128d) (k : Nat) (hk : k < 4) (hcvt : fo.cvt = cvt_i32_f64) :
    (Nat.testBit (loadE fo sp spAddr1 e k).lo 63 = false
        ∧ (if loadLE sp (spAddr1 + 32 + 8 * k) 4 % 2 ^ 32 = 0
            then (loadE fo sp spAddr1 e k).lo = 0
            else doubleGe (loadE fo sp spAddr1 e k).lo DBL_MIN = true
              ∧ doubleGe (loadE fo sp spAddr1 e k).lo 0x3FF0000000000000 = true
              ∧ 0x3FF0000000000000 ≤ (loadE fo sp spAddr1 e k).lo
              ∧ (loadE fo sp spAddr1 e k).lo < 0x41F0000000000000
              ∧ isNaN (loadE fo sp spAddr1 e k).lo = false))
      ∧ (Nat.testBit (loadE fo sp spAddr1 e k).hi 63 = false
        ∧ (if loadLE sp (spAddr1 + 32 + 8 * k + 4) 4 % 2 ^ 32 = 0
            then (loadE fo sp spAddr1 e k).hi = 0
            else doubleGe (loadE fo sp spAddr1 e k).hi DBL_MIN = true
              ∧ doubleGe (loadE fo sp spAddr1 e k).hi 0x3FF0000000000000 = true
              ∧ 0x3FF0000000000000 ≤ (loadE fo sp spAddr1 e k).hi
              ∧ (loadE fo sp spAddr1 e k).hi < 0x41F0000000000000
              ∧ isNaN (loadE fo sp spAddr1 e k).hi = false)) := by
  have hbit : ∀ y : Nat, Nat.testBit (y &&& 0x7FFFFFFFFFFFFFFF) 63 = false := by
    intro y
    rw [Nat.testBit_and]
    have : Nat.testBit 0x7FFFFFFFFFFFFFFF 63 = false := by decide
    rw [this, Bool.and_false]
  have hlane : ∀ x : Nat,
      if x % 2 ^ 32 = 0 then cvt_i32_f64 x &&& 0x7FFFFFFFFFFFFFFF = 0
      else doubleGe (cvt_i32_f64 x &&& 0x7FFFFFFFFFFFFFFF) DBL_MIN = true
        ∧ doubleGe (cvt_i32_f64 x &&& 0x7FFFFFFFFFFFFFFF) 0x3FF0000000000000 = true
        ∧ 0x3FF0000000000000 ≤ cvt_i32_f64 x &&& 0x7FFFFFFFFFFFFFFF
        ∧ cvt_i32_f64 x &&& 0x7FFFFFFFFFFFFFFF < 0x41F0000000000000
        ∧ isNaN (cvt_i32_f64 x &&& 0x7FFFFFFFFFFFFFFF) = false := by
    intro x
    have hx := abs_cvt_i32_f64 x
    split
    · next h0 => exact hx.1 h0
    · next hne =>
      obtain ⟨hlo, hhi⟩ := hx.2 hne
      have e1 : (1023 * 2 ^ 52 : Nat) = 0x3FF0000000000000 := by decide
      have e2 : (1055 * 2 ^ 52 : Nat) = 0x41F0000000000000 := by decide
      have e3 : DBL_MIN = 0x0010000000000000 := rfl
      rw [e1] at hlo
      rw [e2] at hhi
      refine ⟨doubleGe_of_le _ _ (by omega) (by omega),
        doubleGe_of_le _ _ hlo (by omega), hlo, hhi, ?_⟩
      simp only [isNaN, decide_eq_false_iff_not, not_lt]
      exact le_trans (Nat.mod_le _ _) (by omega)
  simp only [loadE, hk, if_true, load_cvt_i32x2, _mm_abs, hcvt]
  exact ⟨⟨hbit _, hlane _⟩, ⟨hbit _, hlane _⟩⟩

/-- C13 (amended) at lane pair `e[1]` of a scratchpad whose every byte is `1`: the
integer read is `0x01010101`, and the low lane is `>= 1.0` and below `2 ^ 32`. -/
theorem C13_e_lanes_after_load_witness :
    (1 < 4 ∧ exactCvtOps.cvt = cvt_i32_f64)
      ∧ doubleGe (loadE exactCvtOps (fun _ => 1) 0 (fun _ => ⟨0, 0⟩) 1).lo DBL_MIN = true
      ∧ doubleGe (loadE exactCvtOps (fun _ => 1) 0 (fun _ => ⟨0, 0⟩) 1).lo
          0x3FF0000000000000 = true
      ∧ (loadE exactCvtOps (fun _ => 1) 0 (fun _ => ⟨0, 0⟩) 1).lo < 0x41F0000000000000 := by
  refine ⟨⟨by decide, rfl⟩, ?_⟩
  have h := (C13_e_lanes_after_load exactCvtOps (fun _ => 1) 0 (fun _ => ⟨0, 0⟩) 1
    (by decide) rfl).1.2
  rw [if_neg (by decide)] at h
  exact ⟨h.1, h.2.1, h.2.2.2.1⟩

/-! ### Kinds without a body in the precompiler: what the slot holds -/

/-- Where the template recursion has a defined result, the machine with the effect
`undef` for undefined records gives that result, whatever `undef` is. -/
theorem executeBytecodeFromOr_of_some (fo : FloatOps) (condition : Nat → Nat → Nat → Bool)
    (undef : Nat → VMState → VMState) (k N : Nat) (st st1 : VMState)
    (h : executeBytecodeFrom fo condition k N st = some st1) :
    executeBytecodeFromOr fo condition undef k N st = st1 := by
  induction k generalizing N st with
  | zero =>
    simp only [executeBytecodeFrom, Option.some.injEq] at h
    exact h
  | succ k ih =>
    simp only [executeBytecodeFrom, Option.bind_eq_some] at h
    obtain ⟨st2, h2, hrest⟩ := h
    rw [executeBytecodeFromOr, h2, Option.getD_some]
    exact ih (N + 1) st2 hrest

/-- The body of the loop of `execute`: the block loads, the 256 records, and the
statements after them. -/
theorem executeIteration_eq (fo : FloatOps) (condition : Nat → Nat → Nat → Bool)
    (cfg : ExecConfig) (s : ExecState) :
    executeIteration fo condition cfg s
      = (executeBytecodeAll fo condition (stateAfterLoads fo cfg s)).map
          (finishIteration fo cfg s) :=
  rfl

/-- Where an iteration has a defined result, the machine with the effect `undef` for
undefined records gives that result. -/
theorem executeIterationOr_of_some (fo : FloatOps) (condition : Nat → Nat → Nat → Bool)
    (undef : Nat → VMState → VMState) (cfg : ExecConfig) (s s1 : ExecState)
    (h : executeIteration fo condition cfg s = some s1) :
    executeIterationOr fo condition undef cfg s = s1 := by
  rw [executeIteration_eq, Option.map_eq_some'] at h
  obtain ⟨vm, hvm, rfl⟩ := h
  unfold executeIterationOr executeBytecodeAllOr
  rw [executeBytecodeFromOr_of_some fo condition undef ProgramLength 0 _ vm hvm]

/-- Where the loop has a defined result, the machine with the effect `undef` for
undefined records gives that result. -/
theorem executeLoopOr_of_some (fo : FloatOps) (condition : Nat → Nat → Nat → Bool)
    (undef : Nat → VMState → VMState) (cfg : ExecConfig) (n : Nat) (s s1 : ExecState)
    (h : executeLoop fo condition cfg n s = some s1) :
    executeLoopOr fo condition undef cfg n s = s1 := by
  induction n generalizing s with
  | zero =>
    simp only [executeLoop, Option.some.injEq] at h
    exact h
  | succ n ih =>
    simp only [executeLoop, Option.bind_eq_some] at h
    obtain ⟨s2, h2, hrest⟩ := h
    rw [executeLoopOr, executeIterationOr_of_some fo condition undef cfg s s2 h2]
    exact ih s2 hrest

/-- The statements after the 256 records leave an aligned `mem.ma` and move the old
`mem.ma` to `mem.mx`, whatever state the records have left. -/
theorem finishIteration_pointers (fo : FloatOps) (cfg : ExecConfig) (s : ExecState)
    (vm : VMState) :
    (finishIteration fo cfg s vm).ma &&& 63 = 0 ∧ (finishIteration fo cfg s vm).mx = s.ma := by
  have hp := datasetMix_pointers
  unfold finishIteration
  by_cases ha : cfg.asyncWorker = true
  · simp only [ha, if_true]
    exact (hp cfg.getBlock cfg.readReg2 cfg.readReg3 _).1
  · simp only [ha]
    exact (hp cfg.initBlock cfg.readReg2 cfg.readReg3 _).2

/-- C11, amended: in both the async and the non-async branch, for every program, every
entry state and every effect `undef` of the records that the source leaves undefined
(so also for a program with an `FSWAP_R` whose destination lies outside `f`), after `n`
iterations of the loop of `execute`, `n >= 1`: `mem.ma & 63 == 0`; and `mem.mx & 63 == 0`
after every iteration but the first, and after the first one as well when `mem.ma` was
64-byte aligned on entry (the iteration moves the old `mem.ma` to `mem.mx`).  Where the
loop over the defined records alone returns, its result is the state spoken of. -/
theorem C11_pointers_aligned_after_iterations (fo : FloatOps)
    (condition : Nat → Nat → Nat → Bool) (undef : Nat → VMState → VMState)
    (cfg : ExecConfig) (n : Nat) (s : ExecState) (hn : 1 ≤ n) :
    (executeLoopOr fo condition undef cfg n s).ma &&& 63 = 0
      ∧ ((s.ma &&& 63 = 0 ∨ 2 ≤ n) → (executeLoopOr fo condition undef cfg n s).mx &&& 63 = 0)
      ∧ (∀ s1, executeLoop fo condition cfg n s = some s1 →
          s1 = executeLoopOr fo condition undef cfg n s) := by
  refine ⟨?_, ?_, fun s1 h => (executeLoopOr_of_some fo condition undef cfg n s s1 h).symm⟩
  · induction n generalizing s with
    | zero => omega
    | succ n ih =>
      rw [executeLoopOr]
      rcases Nat.eq_zero_or_pos n with h0 | hpos
      · subst h0
        exact (finishIteration_pointers fo cfg s _).1
      · exact ih _ hpos
  · induction n generalizing s with
    | zero => omega
    | succ n ih =>
      intro hor
      rw [executeLoopOr]
      have hp := finishIteration_pointers fo cfg s
        (executeBytecodeAllOr fo condition undef (stateAfterLoads fo cfg s))
      rcases Nat.eq_zero_or_pos n with h0 | hpos
      · subst h0
        rcases hor with ha | hge
        · show (executeIterationOr fo condition undef cfg s).mx &&& 63 = 0
          unfold executeIterationOr
          rw [hp.2]
          exact ha
        · omega
      · exact ih (executeIterationOr fo condition undef cfg s) hpos (Or.inl hp.1)

/-- C11 (amended) at two iterations from the entry state of `programC21`, whose slot 0
is an `FSWAP_R` with destination outside `f`, with `mem.ma = 1`, `mem.mx = 0`: both
pointers end aligned. -/
theorem C11_pointers_aligned_after_iterations_witness :
    (1 ≤ 2 ∧ (entrySwap.ma &&& 63 = 0 ∨ 2 ≤ 2))
      ∧ (executeLoopOr zeroFloatOps (fun _ _ _ => false) (fun _ st => st) cfgC3 2 entrySwap).ma
          &&& 63 = 0
      ∧ (executeLoopOr zeroFloatOps (fun _ _ _ => false) (fun _ st => st) cfgC3 2 entrySwap).mx
          &&& 63 = 0 :=
  ⟨⟨by decide, Or.inr (by decide)⟩,
    (C11_pointers_aligned_after_iterations zeroFloatOps (fun _ _ _ => false) (fun _ st => st)
      cfgC3 2 entrySwap (by decide)).1,
    (C11_pointers_aligned_after_iterations zeroFloatOps (fun _ _ _ => false) (fun _ st => st)
      cfgC3 2 entrySwap (by decide)).2.1 (Or.inr (by decide))⟩

/-! ### The bytes that the block loads and the write-back touch -/

/-- A little-endian load of `n` bytes at `p` reads the bytes `p .. p + n - 1` only. -/
theorem loadLE_congr (sp sp1 : Nat → Nat) (p n : Nat)
    (h : ∀ j, j < n → sp1 (p + j) = sp (p + j)) : loadLE sp1 p n = loadLE sp p n := by
  induction n generalizing p with
  | zero => rfl
  | succ n ih =>
    have h0 : sp1 p = sp p := h 0 (by omega)
    rw [loadLE, loadLE, h0, ih (p + 1)]
    intro j hj
    have := h (1 + j) (by omega)
    rw [← Nat.add_assoc] at this
    exact this

/-- The eight statements `r[k] ^= load64(scratchpad + spAddr0 + 8 * k)` read the 64 bytes
at `spAddr0` only. -/
theorem xorBlock_congr (sp sp1 : Nat → Nat) (a : Nat) (r : Nat → Nat)
    (h : ∀ j, j < 64 → sp1 (a + j) = sp (a + j)) : xorBlock sp1 a r = xorBlock sp a r := by
  funext k
  unfold xorBlock load64
  split
  · next hk =>
    rw [loadLE_congr sp sp1 (a + 8 * k) 8]
    intro j hj
    have := h (8 * k + j) (by omega)
    rw [← Nat.add_assoc] at this
    exact this
  · rfl

/-- The four loads of `f` read the first 32 bytes at `spAddr1` only. -/
theorem loadF_congr (fo : FloatOps) (sp sp1 : Nat → Nat) (a : Nat) (f : Nat → M128d)
    (h : ∀ j, j < 64 → sp1 (a + j) = sp (a + j)) : loadF fo sp1 a f = loadF fo sp a f := by
  funext k
  unfold loadF load_cvt_i32x2
  split
  · next hk =>
    rw [loadLE_congr sp sp1 (a + 8 * k) 4, loadLE_congr sp sp1 (a + 8 * k + 4) 4]
    · intro j hj
      have := h (8 * k + 4 + j) (by omega)
      rw [← Nat.add_assoc, ← Nat.add_assoc] at this
      exact this
    · intro j hj
      have := h (8 * k + j) (by omega)
      rw [← Nat.add_assoc] at this
      exact this
  · rfl

/-- The four loads of `e` read the last 32 bytes of the 64 bytes at `spAddr1` only. -/
theorem loadE_congr (fo : FloatOps) (sp sp1 : Nat → Nat) (a : Nat) (e : Nat → M128d)
    (h : ∀ j, j < 64 → sp1 (a + j) = sp (a + j)) : loadE fo sp1 a e = loadE fo sp a e := by
  funext k
  unfold loadE load_cvt_i32x2
  split
  · next hk =>
    rw [loadLE_congr sp sp1 (a + 32 + 8 * k) 4, loadLE_congr sp sp1 (a + 32 + 8 * k + 4) 4]
    · intro j hj
      have := h (32 + 8 * k + 4 + j) (by omega)
      rw [← Nat.add_assoc, ← Nat.add_assoc, ← Nat.add_assoc] at this
      exact this
    · intro j hj
      have := h (32 + 8 * k + j) (by omega)
      rw [← Nat.add_assoc, ← Nat.add_assoc] at this
      exact this
  · rfl

/-- The two block addresses of an iteration are multiples of 64 and at most `0x1FFFC0`. -/
theorem maskedSpAddr_bounds (cfg : ExecConfig) (s : ExecState) :
    (maskedSpAddr0 cfg s % 64 = 0 ∧ maskedSpAddr0 cfg s ≤ 0x1FFFC0)
      ∧ (maskedSpAddr1 cfg s % 64 = 0 ∧ maskedSpAddr1 cfg s ≤ 0x1FFFC0) :=
  ⟨and_ScratchpadL3Mask64 _, and_ScratchpadL3Mask64 _⟩

/-- The write-back of an iteration leaves every byte outside the two 64-byte blocks at
`spAddr0` and `spAddr1` as the 256 records have left it. -/
theorem finishIteration_outside (fo : FloatOps) (cfg : ExecConfig) (s : ExecState)
    (vm : VMState) (q : Nat)
    (h0 : ¬ (maskedSpAddr0 cfg s ≤ q ∧ q < maskedSpAddr0 cfg s + 64))
    (h1 : ¬ (maskedSpAddr1 cfg s ≤ q ∧ q < maskedSpAddr1 cfg s + 64)) :
    (finishIteration fo cfg s vm).vm.scratchpad q = vm.scratchpad q := by
  show storeFE fo vm.roundMode (maskedSpAddr0 cfg s) vm.f vm.e 4 _ q = vm.scratchpad q
  rw [storeFE_outside _ _ _ _ _ _ _ _ (by omega), storeR_outside _ _ _ _ _ (by omega)]

/-- C22: in every iteration of `execute`, entered in any state `s`, the values of
`spAddr0` and `spAddr1` after masking are multiples of 64 and at most `0x1FFFC0`, so the
64 bytes at each lie inside the scratchpad; the block loads read these bytes only (the
registers `r`, `f`, `e` after the loads are the same for every scratchpad that agrees
with the given one on the two blocks); the write-back changes bytes of these two blocks
only, all inside the scratchpad, whatever state the 256 records have left: it is the
eight 8-byte stores of `r` at `spAddr1 + 8 k`, each inside the scratchpad, followed by
the four 16-byte stores at `spAddr0 + 16 k`, each inside the scratchpad and on an offset
that is a multiple of 16. -/
theorem C22_block_accesses_inside_scratchpad (fo : FloatOps)
    (condition : Nat → Nat → Nat → Bool) (cfg : ExecConfig) (s : ExecState) :
    executeIteration fo condition cfg s
        = (executeBytecodeAll fo condition (stateAfterLoads fo cfg s)).map
            (finishIteration fo cfg s)
      ∧ (maskedSpAddr0 cfg s % 64 = 0 ∧ maskedSpAddr0 cfg s ≤ 0x1FFFC0
          ∧ maskedSpAddr1 cfg s % 64 = 0 ∧ maskedSpAddr1 cfg s ≤ 0x1FFFC0)
      ∧ (∀ j : Fin 64, maskedSpAddr0 cfg s + j.val < ScratchpadSize
          ∧ maskedSpAddr1 cfg s + j.val < ScratchpadSize)
      ∧ (∀ sp1 : Nat → Nat,
          (∀ j : Fin 64,
            sp1 (maskedSpAddr0 cfg s + j.val) = s.vm.scratchpad (maskedSpAddr0 cfg s + j.val)
              ∧ sp1 (maskedSpAddr1 cfg s + j.val)
                  = s.vm.scratchpad (maskedSpAddr1 cfg s + j.val)) →
          (stateAfterLoads fo cfg { s with vm := { s.vm with scratchpad := sp1 } }).r
              = (stateAfterLoads fo cfg s).r
            ∧ (stateAfterLoads fo cfg { s with vm := { s.vm with scratchpad := sp1 } }).f
              = (stateAfterLoads fo cfg s).f
            ∧ (stateAfterLoads fo cfg { s with vm := { s.vm with scratchpad := sp1 } }).e
              = (stateAfterLoads fo cfg s).e)
      ∧ (∀ (vm : VMState) (q : Nat),
          (finishIteration fo cfg s vm).vm.scratchpad q ≠ vm.scratchpad q →
            ((maskedSpAddr0 cfg s ≤ q ∧ q < maskedSpAddr0 cfg s + 64)
                ∨ (maskedSpAddr1 cfg s ≤ q ∧ q < maskedSpAddr1 cfg s + 64))
              ∧ q < ScratchpadSize)
      ∧ (∀ vm : VMState,
          (finishIteration fo cfg s vm).vm.scratchpad
            = storeFE fo vm.roundMode (maskedSpAddr0 cfg s) vm.f vm.e 4
                (storeR (maskedSpAddr1 cfg s) (finishIteration fo cfg s vm).vm.r 8
                  vm.scratchpad))
      ∧ (∀ k : Fin 8, inScratchpad (maskedSpAddr1 cfg s + 8 * k.val) = true)
      ∧ (∀ k : Fin 4, (maskedSpAddr0 cfg s + 16 * k.val) % 16 = 0
          ∧ maskedSpAddr0 cfg s + 16 * k.val + 16 ≤ ScratchpadSize) := by
  obtain ⟨⟨a1, a2⟩, b1, b2⟩ := maskedSpAddr_bounds cfg s
  refine ⟨rfl, ⟨a1, a2, b1, b2⟩, fun j => ?_, fun sp1 h => ?_, fun vm q hq => ?_,
    fun vm => rfl, fun k => ?_, fun k => ?_⟩
  · have := j.isLt
    simp only [ScratchpadSize]
    omega
  · have h0 : ∀ j, j < 64 →
        sp1 (maskedSpAddr0 cfg s + j) = s.vm.scratchpad (maskedSpAddr0 cfg s + j) :=
      fun j hj => (h ⟨j, hj⟩).1
    have h1 : ∀ j, j < 64 →
        sp1 (maskedSpAddr1 cfg s + j) = s.vm.scratchpad (maskedSpAddr1 cfg s + j) :=
      fun j hj => (h ⟨j, hj⟩).2
    have hx := xorBlock_congr s.vm.scratchpad sp1 (maskedSpAddr0 cfg s) s.vm.r h0
    have hm : maskedSpAddr1 cfg { s with vm := { s.vm with scratchpad := sp1 } }
        = maskedSpAddr1 cfg s := by
      show ((s.spAddr1 ^^^ xorBlock sp1 (maskedSpAddr0 cfg s) s.vm.r cfg.readReg1) % 2 ^ 32)
          &&& ScratchpadL3Mask64 = _
      rw [hx]
      rfl
    refine ⟨hx, ?_, ?_⟩
    · show loadF fo sp1 (maskedSpAddr1 cfg { s with vm := { s.vm with scratchpad := sp1 } })
          s.vm.f = loadF fo s.vm.scratchpad (maskedSpAddr1 cfg s) s.vm.f
      rw [hm]
      exact loadF_congr fo _ _ _ _ h1
    · show loadE fo sp1 (maskedSpAddr1 cfg { s with vm := { s.vm with scratchpad := sp1 } })
          s.vm.e = loadE fo s.vm.scratchpad (maskedSpAddr1 cfg s) s.vm.e
      rw [hm]
      exact loadE_congr fo _ _ _ _ h1
  · by_cases hin : (maskedSpAddr0 cfg s ≤ q ∧ q < maskedSpAddr0 cfg s + 64)
        ∨ (maskedSpAddr1 cfg s ≤ q ∧ q < maskedSpAddr1 cfg s + 64)
    · refine ⟨hin, ?_⟩
      simp only [ScratchpadSize]
      omega
    · exact absurd (finishIteration_outside fo cfg s vm q (fun h => hin (Or.inl h))
        (fun h => hin (Or.inr h))) hq
  · have := k.isLt
    simp only [inScratchpad, ScratchpadSize, decide_eq_true_eq]
    omega
  · have := k.isLt
    simp only [ScratchpadSize]
    omega

/-- C22 at the entry state with `mem.ma = mem.mx = 0xFFFFFFFF` and `r = 0`: both block
addresses are `0x1FFFC0`, the largest value the mask lets through, and the last of the
four 16-byte stores ends at the last byte of the scratchpad. -/
theorem C22_block_accesses_inside_scratchpad_witness :
    maskedSpAddr0 cfgC3 entryTop = 0x1FFFC0
      ∧ maskedSpAddr0 cfgC3 entryTop + 16 * 3 + 16 = ScratchpadSize
      ∧ (∀ k : Fin 4, (maskedSpAddr0 cfgC3 entryTop + 16 * k.val) % 16 = 0
          ∧ maskedSpAddr0 cfgC3 entryTop + 16 * k.val + 16 ≤ ScratchpadSize) := by
  have h0 : maskedSpAddr0 cfgC3 entryTop = 0x1FFFC0 := by
    simp only [maskedSpAddr0, entryTop, executeInit, cfgC3, ScratchpadL3Mask64]
    decide
  refine ⟨h0, by rw [h0]; rfl, ?_⟩
  exact (C22_block_accesses_inside_scratchpad zeroFloatOps (fun _ _ _ => false) cfgC3
    entryTop).2.2.2.2.2.2.2

/-! ### The scratchpad across an iteration, for every effect of the undefined records -/

/-- The scratchpad after a run of `k` records from record `N`, on a machine where an
undefined record keeps the kinds in the dispatch buffer and either leaves the scratchpad
alone or, when its kind is `ISTORE`, makes an 8-byte store: it is the scratchpad before
the run with a sequence of 8-byte stores applied, at most one for each record of kind
`ISTORE`; where the run is defined there is exactly one for each such record, and each
lies inside the scratchpad. -/
theorem executeBytecodeFromOr_writes (fo : FloatOps) (condition : Nat → Nat → Nat → Bool)
    (undef : Nat → VMState → VMState)
    (hU : ∀ i st, (∀ j, ((undef i st).byteCode j).type = (st.byteCode j).type)
      ∧ ((undef i st).scratchpad = st.scratchpad
        ∨ ((st.byteCode i).type = InstructionType.ISTORE
          ∧ ∃ p v, (undef i st).scratchpad = store64 st.scratchpad p v)))
    (k N : Nat) (st : VMState) :
    (∀ j, ((executeBytecodeFromOr fo condition undef k N st).byteCode j).type
        = (st.byteCode j).type)
      ∧ ∃ writes : List (Nat × Nat),
        (executeBytecodeFromOr fo condition undef k N st).scratchpad
            = writes.foldl (fun sp w => store64 sp w.1 w.2) st.scratchpad
          ∧ writes.length ≤ (List.range' N k).countP
              (fun j => decide ((st.byteCode j).type = InstructionType.ISTORE))
          ∧ ((executeBytecodeFrom fo condition k N st).isSome = true →
              writes.length = (List.range' N k).countP
                  (fun j => decide ((st.byteCode j).type = InstructionType.ISTORE))
                ∧ ∀ w ∈ writes, inScratchpad w.1 = true) := by
  induction k generalizing N st with
  | zero => exact ⟨fun _ => rfl, [], rfl, Nat.le_refl _, fun _ => ⟨rfl, by simp⟩⟩
  | succ k ih =>
    rw [executeBytecodeFromOr, List.range'_succ, List.countP_cons]
    cases h2 : executeBytecode fo condition N st with
    | none =>
      rw [Option.getD_none]
      obtain ⟨u1, u2⟩ := hU N st
      obtain ⟨t1, writes, g2, g3, _⟩ := ih (N + 1) (undef N st)
      have hcount : (List.range' (N + 1) k).countP
            (fun j => decide (((undef N st).byteCode j).type = InstructionType.ISTORE))
          = (List.range' (N + 1) k).countP
            (fun j => decide ((st.byteCode j).type = InstructionType.ISTORE)) := by
        congr 1
        funext j
        rw [u1 j]
      rw [hcount] at g3
      have hnone : (executeBytecodeFrom fo condition (k + 1) N st).isSome = true → False := by
        rw [executeBytecodeFrom, h2]
        simp
      refine ⟨fun j => (t1 j).trans (u1 j), ?_⟩
      rcases u2 with hsame | ⟨ht, p, v, hsp⟩
      · refine ⟨writes, ?_, ?_, fun hs => (hnone hs).elim⟩
        · rw [← hsame]
          exact g2
        · omega
      · refine ⟨(p, v) :: writes, ?_, ?_, fun hs => (hnone hs).elim⟩
        · rw [List.foldl_cons, ← hsp]
          exact g2
        · simp only [ht, decide_True, if_true, List.length_cons]
          omega
    | some st2 =>
      rw [Option.getD_some]
      obtain ⟨_, f2, f3, f4⟩ := executeBytecode_frame fo condition N st st2 h2
      obtain ⟨t1, writes, g2, g3, g4⟩ := ih (N + 1) st2
      have hcount : (List.range' (N + 1) k).countP
            (fun j => decide ((st2.byteCode j).type = InstructionType.ISTORE))
          = (List.range' (N + 1) k).countP
            (fun j => decide ((st.byteCode j).type = InstructionType.ISTORE)) := by
        congr 1
        funext j
        rw [(f2 j).2]
      rw [hcount] at g3 g4
      have hsome : (executeBytecodeFrom fo condition (k + 1) N st).isSome = true →
          (executeBytecodeFrom fo condition k (N + 1) st2).isSome = true := by
        rw [executeBytecodeFrom, h2]
        exact id
      refine ⟨fun j => (t1 j).trans (f2 j).2, ?_⟩
      by_cases ht : (st.byteCode N).type = InstructionType.ISTORE
      · obtain ⟨p, v, hin, hsp⟩ := f4 ht
        refine ⟨(p, v) :: writes, ?_, ?_, fun hs => ⟨?_, ?_⟩⟩
        · rw [List.foldl_cons, ← hsp]
          exact g2
        · simp only [ht, decide_True, if_true, List.length_cons]
          omega
        · simp only [ht, decide_True, if_true, List.length_cons]
          have := (g4 (hsome hs)).1
          omega
        · intro w hw
          rcases List.mem_cons.mp hw with rfl | hw
          · exact hin
          · exact (g4 (hsome hs)).2 w hw
      · refine ⟨writes, ?_, ?_, fun hs => ⟨?_, (g4 (hsome hs)).2⟩⟩
        · rw [← f3 ht]
          exact g2
        · omega
        · simp only [ht, decide_False, Bool.false_eq_true, if_false]
          have := (g4 (hsome hs)).1
          omega

/-- C24: in an iteration of `execute`, for every program, every entry state `s` and
every effect `undef` of the records that the source leaves undefined, provided such a
record keeps the kinds in the dispatch buffer and leaves the scratchpad alone unless it
is an `ISTORE`, which may make an 8-byte store: the scratchpad that the 256 records
leave is the scratchpad at entry with 8-byte stores applied, at most one for each record
of kind `ISTORE`, and where the run of the records is defined exactly one for each such
record, each inside the scratchpad; the scratchpad at the end of the iteration agrees
with it outside the two 64-byte blocks at `spAddr0` and `spAddr1`; when the two blocks
differ, byte `j` of the word at `spAddr1 + 8 k` is byte `j` of `r[k]` at the end of the
iteration, low byte first; `spAddr0` and `spAddr1` end as 0, so the next iteration
computes `spAddr0` as the low 32 bits of `r[readReg0]` masked with `0x1FFFC0`.  Where
the iteration over the defined records alone returns, its result is the state spoken
of. -/
theorem C24_iteration_scratchpad_frame (fo : FloatOps) (condition : Nat → Nat → Nat → Bool)
    (undef : Nat → VMState → VMState) (cfg : ExecConfig) (s : ExecState)
    (hU : ∀ i st, (∀ j, ((undef i st).byteCode j).type = (st.byteCode j).type)
      ∧ ((undef i st).scratchpad = st.scratchpad
        ∨ ((st.byteCode i).type = InstructionType.ISTORE
          ∧ ∃ p v, (undef i st).scratchpad = store64 st.scratchpad p v))) :
    (∃ writes : List (Nat × Nat),
        (executeBytecodeAllOr fo condition undef (stateAfterLoads fo cfg s)).scratchpad
            = writes.foldl (fun sp w => store64 sp w.1 w.2) s.vm.scratchpad
          ∧ writes.length ≤ (List.range ProgramLength).countP
              (fun j => decide ((s.vm.byteCode j).type = InstructionType.ISTORE))
          ∧ ((executeBytecodeAll fo condition (stateAfterLoads fo cfg s)).isSome = true →
              writes.length = (List.range ProgramLength).countP
                  (fun j => decide ((s.vm.byteCode j).type = InstructionType.ISTORE))
                ∧ ∀ w ∈ writes, inScratchpad w.1 = true))
      ∧ (∀ q, ¬ (maskedSpAddr0 cfg s ≤ q ∧ q < maskedSpAddr0 cfg s + 64) →
          ¬ (maskedSpAddr1 cfg s ≤ q ∧ q < maskedSpAddr1 cfg s + 64) →
          (executeIterationOr fo condition undef cfg s).vm.scratchpad q
            = (executeBytecodeAllOr fo condition undef (stateAfterLoads fo cfg s)).scratchpad q)
      ∧ (maskedSpAddr0 cfg s ≠ maskedSpAddr1 cfg s →
          ∀ k j, k < 8 → j < 8 →
            (executeIterationOr fo condition undef cfg s).vm.scratchpad
                (maskedSpAddr1 cfg s + 8 * k + j)
              = ((executeIterationOr fo condition undef cfg s).vm.r k >>> (8 * j)) % 256)
      ∧ (executeIterationOr fo condition undef cfg s).spAddr0 = 0
      ∧ (executeIterationOr fo condition undef cfg s).spAddr1 = 0
      ∧ maskedSpAddr0 cfg (executeIterationOr fo condition undef cfg s)
          = ((executeIterationOr fo condition undef cfg s).vm.r cfg.readReg0 % 2 ^ 32)
              &&& 0x1FFFC0
      ∧ (∀ s1, executeIteration fo condition cfg s = some s1 →
          s1 = executeIterationOr fo condition undef cfg s) := by
  obtain ⟨_, writes, w2, w3, w4⟩ :=
    executeBytecodeFromOr_writes fo condition undef hU ProgramLength 0 (stateAfterLoads fo cfg s)
  obtain ⟨⟨e0, _⟩, e1, _⟩ := maskedSpAddr_bounds cfg s
  refine ⟨⟨writes, w2, ?_, ?_⟩, ?_, ?_, rfl, rfl, ?_,
    fun s1 h => (executeIterationOr_of_some fo condition undef cfg s s1 h).symm⟩
  · rw [List.range_eq_range']
    exact w3
  · rw [List.range_eq_range']
    exact w4
  · intro q h0 h1
    exact finishIteration_outside fo cfg s _ q h0 h1
  · intro hne k j hk hj
    show storeFE fo _ (maskedSpAddr0 cfg s) _ _ 4 _ _ = _
    rw [storeFE_outside _ _ _ _ _ _ _ _ (by omega)]
    exact storeR_inside _ _ _ _ _ _ hk hj
  · simp only [maskedSpAddr0, executeIterationOr, finishIteration, Nat.zero_xor,
      ScratchpadL3Mask64]

/-- The first record of `entryStore` has kind `ISTORE`. -/
theorem entryStore_record_0 :
    (entryStore.vm.byteCode 0).type = InstructionType.ISTORE := by
  simp only [entryStore, executeInit, precompileProgram_apply]
  simp [ProgramLength, programC3, decodeC3, precompileInstruction]

/-- The two blocks of the first iteration from `entryStore` lie at 0 and at 64. -/
theorem entryStore_blocks :
    maskedSpAddr0 cfgC3 entryStore = 0 ∧ maskedSpAddr1 cfgC3 entryStore = 64 := by
  have h0 : maskedSpAddr0 cfgC3 entryStore = 0 := by
    simp only [maskedSpAddr0, entryStore, executeInit, cfgC3, ScratchpadL3Mask64]
    decide
  refine ⟨h0, ?_⟩
  unfold maskedSpAddr1
  rw [h0]
  simp only [entryStore, executeInit, cfgC3, ScratchpadL3Mask64, xorBlock, load64, loadLE,
    zeroState]
  decide

/-- C24 on the first iteration from `entryStore`: the program has an `ISTORE` in slot 0,
the blocks lie at 0 and at 64 and so differ, and the block at 64 ends holding `r[0..7]`;
the undefined records are given no effect. -/
theorem C24_iteration_scratchpad_frame_witness :
    (∀ (i : Nat) (st : VMState),
        (∀ j, ((st.byteCode j).type = (st.byteCode j).type))
          ∧ (st.scratchpad = st.scratchpad
            ∨ ((st.byteCode i).type = InstructionType.ISTORE
              ∧ ∃ p v, st.scratchpad = store64 st.scratchpad p v)))
      ∧ (entryStore.vm.byteCode 0).type = InstructionType.ISTORE
      ∧ maskedSpAddr0 cfgC3 entryStore ≠ maskedSpAddr1 cfgC3 entryStore
      ∧ (∀ k j, k < 8 → j < 8 →
          (executeIterationOr exactCvtOps (fun _ _ _ => false) (fun _ st => st) cfgC3
              entryStore).vm.scratchpad (64 + 8 * k + j)
            = ((executeIterationOr exactCvtOps (fun _ _ _ => false) (fun _ st => st) cfgC3
                entryStore).vm.r k >>> (8 * j)) % 256)
      ∧ ∃ writes : List (Nat × Nat),
          (executeBytecodeAllOr exactCvtOps (fun _ _ _ => false) (fun _ st => st)
              (stateAfterLoads exactCvtOps cfgC3 entryStore)).scratchpad
            = writes.foldl (fun sp w => store64 sp w.1 w.2) entryStore.vm.scratchpad := by
  have hU : ∀ (i : Nat) (st : VMState),
      (∀ j, ((st.byteCode j).type = (st.byteCode j).type))
        ∧ (st.scratchpad = st.scratchpad
          ∨ ((st.byteCode i).type = InstructionType.ISTORE
            ∧ ∃ p v, st.scratchpad = store64 st.scratchpad p v)) :=
    fun _ _ => ⟨fun _ => rfl, Or.inl rfl⟩
  have hne : maskedSpAddr0 cfgC3 entryStore ≠ maskedSpAddr1 cfgC3 entryStore := by
    rw [entryStore_blocks.1, entryStore_blocks.2]
    decide
  have h := (C24_iteration_scratchpad_frame exactCvtOps (fun _ _ _ => false)
    (fun _ st => st) cfgC3 entryStore hU).2.2.1 hne
  rw [entryStore_blocks.2] at h
  obtain ⟨writes, hw, _⟩ := (C24_iteration_scratchpad_frame exactCvtOps (fun _ _ _ => false)
    (fun _ st => st) cfgC3 entryStore hU).1
  exact ⟨hU, entryStore_record_0, hne, h, writes, hw⟩

/-! ### Register file `a` across the 256 records -/

end RandomX
